import Mathlib

/-!
# Geometry module `js/geo.js`: shallow embedding and verified properties

The JavaScript functions of `src/Aufgabe_2Prototyp/js/geo.js` are embedded as pure Lean
functions.

* JavaScript arrays are Lean lists; array elements of unspecified numeric content are
  elements of an arbitrary type `α`.
* Numbers that steer control flow (the quantities of `interleaveArrays`) are rationals, so
  that the checks `quantity < 1`, `quantity % 1 !== 0`, `length % quantity !== 0` and
  `length / quantity !== bandCount` keep their meaning; segment counts and indices are
  naturals; OBJ indices are integers or `NaN` (`Option Int`).
* A thrown exception is the `Except.error` result; the kinds of exception are the
  constructors of `JsError`.
-/

namespace Geo

/-! ## Errors -/

/-- The exceptions the module can raise. The first five are the `throwError` calls of
`interleaveArrays`, the next two the `throwError` calls of `parseObj`; the last two are
the exceptions the JavaScript runtime raises itself. -/
inductive JsError where
  /-- Message "'quantities' must be either a number or an array with the same length as
  'arrays'", with both lengths. -/
  | quantitiesLength (quantitiesLength arraysLength : Nat)
  /-- Message "'quantity' must be greater than 0, but the value at index i is q". -/
  | quantityNotPositive (i : Nat) (quantity : ℚ)
  /-- Message "'quantity' must be an integer, but the value at index i is q". -/
  | quantityNotInteger (i : Nat) (quantity : ℚ)
  /-- Message "The length of the corresponding array must be a multiple of 'quantity'". -/
  | lengthNotMultiple (i : Nat) (quantity : ℚ) (length : Nat)
  /-- Message "All arrays must have the same number of quantities". -/
  | bandCountMismatch (i : Nat) (quantity : ℚ) (length : Nat)
  /-- Message "Multiple object names defined in OBJ file (on line index)". -/
  | multipleObjectNames (index : Nat)
  /-- Message "No object name defined in OBJ file". -/
  | noObjectName
  /-- A `ReferenceError`: the named identifier is not bound in the module. -/
  | referenceError (identifier : String)
  /-- A `TypeError`: a property of `undefined` was read. -/
  | typeError (property : String)
  deriving DecidableEq, Repr

/-- Modelled from the spec: `throwError` is imported from `./dev.js`, which is not among
the sources (the name carries a suffix because the token is reserved in Lean); the
specification says that every such failure "raises a descriptive error"
and "aborts the entire generation/parse call (no partial results returned)". -/
def throwJsError {β : Type} (e : JsError) : Except JsError β :=
  Except.error e

/-- Results of calls can be compared: two results are equal when both are the same value
or both are the same exception. -/
instance instDecidableEqExcept {ε α : Type} [DecidableEq ε] [DecidableEq α] :
    DecidableEq (Except ε α) := fun a b =>
  match a, b with
  | Except.ok x, Except.ok y =>
    if h : x = y then isTrue (by rw [h]) else isFalse (fun h2 => h (Except.ok.inj h2))
  | Except.error x, Except.error y =>
    if h : x = y then isTrue (by rw [h]) else isFalse (fun h2 => h (Except.error.inj h2))
  | Except.ok _, Except.error _ => isFalse (fun h => Except.noConfusion h)
  | Except.error _, Except.ok _ => isFalse (fun h => Except.noConfusion h)

/-! ## Number helpers of the JavaScript runtime -/

/-- Truncation toward zero (`ToIntegerOrInfinity` on a finite number). -/
def jsTrunc (q : ℚ) : Int :=
  if 0 ≤ q then ⌊q⌋ else ⌈q⌉

/-- The remainder operator `a % b` on finite numbers with `b ≠ 0`: the result has the sign
of the dividend, `a - b * trunc (a / b)`. -/
def jsRem (a b : ℚ) : ℚ :=
  a - b * (jsTrunc (a / b) : ℚ)

/-- The index clamping of `Array.prototype.slice`: a negative relative index counts from
the end, and the result is clamped to `[0, len]`. -/
def relIndex (len : Nat) (k : Int) : Nat :=
  if k < 0 then (len + k).toNat else min k.toNat len

/-- The call `xs.slice(start, end)` for integral `start` and `end`. -/
def jsSlice {α : Type} (xs : List α) (start stop : Int) : List α :=
  (xs.drop (relIndex xs.length start)).take
    (relIndex xs.length stop - relIndex xs.length start)

/-! ## `repeat` and `interleaveArrays` -/

/-- The function `repeat(pattern, times)`:
`Array.from({ length: times }, () => pattern).flat()`. -/
def repeatPattern {α : Type} (pattern : List α) (times : Nat) : List α :=
  (List.replicate times pattern).flatten

/-- The second argument of `interleaveArrays`: a single number or an array of numbers. -/
inductive Quantities where
  | number (q : ℚ)
  | array (qs : List ℚ)
  deriving DecidableEq, Repr

/-- The validation loop of `interleaveArrays` (`for (let i = 0; i < arrays.length; i++)`),
running over the arrays paired with their quantities from index `i` on. -/
def validateFrom {α : Type} (bandCount : ℚ) : Nat → List (List α × ℚ) → Except JsError Unit
  | _, [] => pure ()
  | i, (array, quantity) :: rest =>
    if quantity < 1 then
      throwJsError (.quantityNotPositive i quantity)
    else if jsRem quantity 1 ≠ 0 then
      throwJsError (.quantityNotInteger i quantity)
    else if jsRem (array.length : ℚ) quantity ≠ 0 then
      throwJsError (.lengthNotMultiple i quantity array.length)
    else if (array.length : ℚ) / quantity ≠ bandCount then
      throwJsError (.bandCountMismatch i quantity array.length)
    else
      validateFrom bandCount (i + 1) rest

/-- The normalisation of the `quantities` argument once there are at least two arrays:
a number is repeated `arrays.length` times, an array must have `arrays.length` entries. -/
def normalizeQuantities (arraysLength : Nat) : Quantities → Except JsError (List ℚ)
  | .number q => pure (repeatPattern [q] arraysLength)
  | .array qs =>
    if qs.length ≠ arraysLength then
      throwJsError (.quantitiesLength qs.length arraysLength)
    else
      pure qs

/-- The two nested loops that build `interleaved`: for every band below `bandCount` and
every array in turn, push `array.slice(band * quantity, (band + 1) * quantity)`. -/
def interleaveLoop {α : Type} (arrays : List (List α)) (quantities : List ℚ)
    (bandCount : ℚ) : List α :=
  (List.range ⌈bandCount⌉₊).flatMap fun band =>
    (arrays.zip quantities).flatMap fun aq =>
      jsSlice aq.1 (jsTrunc ((band : ℚ) * aq.2)) (jsTrunc (((band : ℚ) + 1) * aq.2))

/-- The function `interleaveArrays(arrays, quantities)`. The JavaScript default
`quantities = 1` is the argument `Quantities.number 1`. -/
def interleaveArrays {α : Type} (arrays : List (List α))
    (quantities : Quantities) : Except JsError (List α) :=
  match arrays with
  | [] => pure []
  | [array] => pure array
  | first :: _ :: _ => do
    let qs ← normalizeQuantities arrays.length quantities
    let bandCount : ℚ := (first.length : ℚ) / qs.headD 0
    validateFrom bandCount 0 (arrays.zip qs)
    pure (interleaveLoop arrays qs bandCount)

/-! ## Primitive generators

The numeric content of the attribute arrays lives in an arbitrary field `α`; the
functions `Math.sin`, `Math.cos` and the constant `Math.PI` are supplied as a `JsMath α`.
Segment and band counts are naturals. -/

/-- The members of the JavaScript `Math` object the generators use. -/
structure JsMath (α : Type) where
  sin : α → α
  cos : α → α
  pi : α

/-- A parameter that is either a number or an array of three numbers (`size`). -/
inductive NumberOrVec3 (α : Type) where
  | number (x : α)
  | vec (x y z : α)

/-- A parameter that is either a number or an array of two numbers (`uvScale`). -/
inductive NumberOrVec2 (α : Type) where
  | number (x : α)
  | vec (x y : α)

/-- The destructured parameter object of `createCubeAttributes`; an omitted property is
`none` and takes its default `1.0`. -/
structure CubeOptions (α : Type) where
  size : Option (NumberOrVec3 α)
  uvScale : Option (NumberOrVec2 α)

/-- The function `createCubeAttributes({ size = 1.0, uvScale = 1.0 })`. The variables
`stride`, `normalOffset` and `texCoordOffset` of the source do not reach the result and
are left out. -/
def createCubeAttributes {α : Type} [Field α] (options : CubeOptions α) :
    Except JsError (List α) :=
  let uvScale : α × α :=
    match options.uvScale.getD (.number 1.0) with
    | .number u => (u, u)
    | .vec u v => (u, v)
  let size : α × α × α :=
    match options.size.getD (.number 1.0) with
    | .number s => (s, s, s)
    | .vec x y z => (x, y, z)
  let halfWidth := size.1 / 2.0
  let halfHeight := size.2.1 / 2.0
  let halfDepth := size.2.2 / 2.0
  let positions : List α := [
    -- Front face
    -halfWidth, -halfHeight, halfDepth,
    halfWidth, -halfHeight, halfDepth,
    halfWidth, halfHeight, halfDepth,
    -halfWidth, halfHeight, halfDepth,
    -- Back face
    halfWidth, -halfHeight, -halfDepth,
    -halfWidth, -halfHeight, -halfDepth,
    -halfWidth, halfHeight, -halfDepth,
    halfWidth, halfHeight, -halfDepth,
    -- Top face
    -halfWidth, halfHeight, halfDepth,
    halfWidth, halfHeight, halfDepth,
    halfWidth, halfHeight, -halfDepth,
    -halfWidth, halfHeight, -halfDepth,
    -- Bottom face
    -halfWidth, -halfHeight, -halfDepth,
    halfWidth, -halfHeight, -halfDepth,
    halfWidth, -halfHeight, halfDepth,
    -halfWidth, -halfHeight, halfDepth,
    -- Right face
    halfWidth, -halfHeight, halfDepth,
    halfWidth, -halfHeight, -halfDepth,
    halfWidth, halfHeight, -halfDepth,
    halfWidth, halfHeight, halfDepth,
    -- Left face
    -halfWidth, -halfHeight, -halfDepth,
    -halfWidth, -halfHeight, halfDepth,
    -halfWidth, halfHeight, halfDepth,
    -halfWidth, halfHeight, -halfDepth]
  let normals : List α := List.flatten [
    repeatPattern [0, 0, 1] 4,   -- front
    repeatPattern [0, 0, -1] 4,  -- back
    repeatPattern [0, 1, 0] 4,   -- top
    repeatPattern [0, -1, 0] 4,  -- bottom
    repeatPattern [1, 0, 0] 4,   -- right
    repeatPattern [-1, 0, 0] 4]  -- left
  let texCoords : List α := repeatPattern [
    0, uvScale.2,          -- top left
    uvScale.1, uvScale.2,  -- top right
    uvScale.1, 0,          -- bottom right
    0, 0] 6                -- bottom left
  interleaveArrays [positions, normals, texCoords] (.array [3, 3, 2])

/-- The function `createCubeIndices()`. -/
def createCubeIndices : List ℕ := [
  0, 1, 2, 0, 2, 3,       -- front
  4, 5, 6, 4, 6, 7,       -- back
  8, 9, 10, 8, 10, 11,    -- top
  12, 13, 14, 12, 14, 15, -- bottom
  16, 17, 18, 16, 18, 19, -- right
  20, 21, 22, 20, 22, 23]

/-- The three arrays `positions`, `normals`, `texCoords` that `createCylinderAttributes`
fills in its three loops, before interleaving. Every loop iteration pushes three numbers to
`positions`, three to `normals` and two to `texCoords`; an iteration is represented by
these three pushes. -/
def cylinderArrays {α : Type} [Field α] (math : JsMath α) (radius height : α)
    (radialSegments heightSegments : ℕ) : List α × List α × List α :=
  -- Create verts for the top
  let top : List (List α × List α × List α) :=
    (List.range (radialSegments + 1)).map fun (x : ℕ) =>
      let theta := ((x : α) / (radialSegments : α)) * math.pi * 2
      let sinTheta := math.sin theta
      let cosTheta := math.cos theta
      let u := (x : α) / (radialSegments : α)
      let xPos := radius * sinTheta
      let yPos := (0.5 * height) - 0.002
      let zPos := radius * cosTheta
      let normal : List α := [0, 1, 0]
      ([xPos, yPos, zPos], normal, [u, 0])
  -- Create verts for the bottom
  let bottom : List (List α × List α × List α) :=
    (List.range (radialSegments + 1)).map fun (x : ℕ) =>
      let theta := ((x : α) / (radialSegments : α)) * math.pi * 2
      let sinTheta := math.sin theta
      let cosTheta := math.cos theta
      let u := (x : α) / (radialSegments : α)
      let xPos := radius * sinTheta
      let yPos := -0.5 * height
      let zPos := radius * cosTheta
      let normal : List α := [0, -1, 0]
      ([xPos, yPos, zPos], normal, [u, 1])
  -- Create verts for the mantel
  let mantle : List (List α × List α × List α) :=
    (List.range' 1 (heightSegments - 1)).flatMap fun (y : ℕ) =>
      (List.range (radialSegments + 1)).map fun (x : ℕ) =>
        let theta := ((x : α) / (radialSegments : α)) * math.pi * 2
        let sinTheta := math.sin theta
        let cosTheta := math.cos theta
        let u := (x : α) / (radialSegments : α)
        let v := (y : α) / (heightSegments : α)
        let xPos := radius * sinTheta
        let yPos := (v - 0.5) * height
        let zPos := radius * cosTheta
        let normal : List α := [sinTheta, 0, cosTheta]
        ([xPos, yPos, zPos], normal, [u, v])
  let verts := top ++ bottom ++ mantle
  (verts.flatMap fun p => p.1, verts.flatMap fun p => p.2.1, verts.flatMap fun p => p.2.2)

/-- The function `createCylinderAttributes(radius, height, radialSegments, heightSegments)`. -/
def createCylinderAttributes {α : Type} [Field α] (math : JsMath α) (radius height : α)
    (radialSegments heightSegments : ℕ) : Except JsError (List α) :=
  let arrays := cylinderArrays math radius height radialSegments heightSegments
  interleaveArrays [arrays.1, arrays.2.1, arrays.2.2] (.array [3, 3, 2])

/-- The function `createCylinderIndices(radialSegments, heightSegments)`. -/
def createCylinderIndices (radialSegments heightSegments : ℕ) : List ℕ :=
  let top := (List.range radialSegments).flatMap fun x => [x, x + 1, radialSegments]
  let baseIndex := radialSegments + 1
  let bottom := (List.range radialSegments).flatMap fun x =>
    [baseIndex + x, baseIndex + x + 1, baseIndex + radialSegments]
  let mantle := (List.range' 1 (heightSegments - 1)).flatMap fun y =>
    (List.range radialSegments).flatMap fun x =>
      let first := baseIndex + (y - 1) * (radialSegments + 1) + x
      let second := first + radialSegments + 1
      [first, first + 1, second, second, first + 1, second + 1]
  top ++ bottom ++ mantle

/-- The function `createSkyBoxAttributes()`. -/
def createSkyBoxAttributes : List ℤ := [
  -1, -1, -1,
  1, -1, -1,
  1, 1, -1,
  -1, 1, -1,
  -1, -1, 1,
  1, -1, 1,
  1, 1, 1,
  -1, 1, 1]

/-- The function `createSkyBoxIndices()`. -/
def createSkyBoxIndices : List ℕ := [
  4, 5, 6, 4, 6, 7,
  1, 0, 3, 1, 3, 2,
  7, 6, 2, 7, 2, 3,
  0, 1, 5, 0, 5, 4,
  5, 1, 2, 5, 2, 6,
  0, 4, 7, 0, 7, 3]

/-- The `options` object of `createSphereAttributes`; an absent property is `none`. -/
structure SphereOptions where
  normals : Option Bool
  uvs : Option Bool

/-- The three arrays `positions`, `normals`, `texCoords` built by the nested loops of
`createSphereAttributes`, before interleaving. -/
def sphereArrays {α : Type} [Field α] (math : JsMath α) (radius : α)
    (latitudeBands longitudeBands : ℕ) : List α × List α × List α :=
  let verts : List (List α × List α × List α) :=
    (List.range (latitudeBands + 1)).flatMap fun (lat : ℕ) =>
      let theta := (lat : α) * math.pi / (latitudeBands : α)
      let sinTheta := math.sin theta
      let cosTheta := math.cos theta
      (List.range (longitudeBands + 1)).map fun (lon : ℕ) =>
        let phi := (lon : α) * 2 * math.pi / (longitudeBands : α)
        let x := math.cos phi * sinTheta
        let y := cosTheta
        let z := math.sin phi * sinTheta
        let u := 1 - ((lon : α) / (longitudeBands : α))
        let v := (lat : α) / (latitudeBands : α)
        ([radius * x, radius * y, radius * z], [x, y, z], [u, v])
  (verts.flatMap fun p => p.1, verts.flatMap fun p => p.2.1, verts.flatMap fun p => p.2.2)

/-- The function `createSphereAttributes(radius, latitudeBands, longitudeBands, options)`;
`options.normals ?? true` and `options.uvs ?? true` select the optional channels. -/
def createSphereAttributes {α : Type} [Field α] (math : JsMath α) (radius : α)
    (latitudeBands longitudeBands : ℕ) (options : SphereOptions) : Except JsError (List α) :=
  let arrays := sphereArrays math radius latitudeBands longitudeBands
  let interleaved : List (List α) := [arrays.1]
  let quantities : List ℚ := [3]
  let withNormals : List (List α) × List ℚ :=
    if options.normals.getD true then (interleaved ++ [arrays.2.1], quantities ++ [3])
    else (interleaved, quantities)
  let withUvs : List (List α) × List ℚ :=
    if options.uvs.getD true then (withNormals.1 ++ [arrays.2.2], withNormals.2 ++ [2])
    else withNormals
  interleaveArrays withUvs.1 (.array withUvs.2)

/-- The function `createSphereIndices(latitudeBands, longitudeBands)`. -/
def createSphereIndices (latitudeBands longitudeBands : ℕ) : List ℕ :=
  (List.range latitudeBands).flatMap fun lat =>
    (List.range longitudeBands).flatMap fun lon =>
      let first := lat * (longitudeBands + 1) + lon
      let second := first + longitudeBands + 1
      [first, first + 1, second, second, first + 1, second + 1]

/-! ## OBJ parsing (`parseObj`)

Strings are lists of characters. A number produced by `parseFloat` is kept as the token
it was parsed from; a number produced by `parseInt` is an integer or `NaN`, the integer
being the double nearest to the integer that was read. -/

/-- A JavaScript number that holds an integer or `NaN` (`none`). -/
abbrev JsIndex := Option ℤ

/-- The number `parseFloat(token)`; `token` is `none` when the argument is `undefined`.
Floating point values are not interpreted. -/
structure ParsedFloat where
  token : Option (List Char)
  deriving DecidableEq, Repr

/-- The raw OBJ record `{ name, positions, texCoords, normals, splitIndices }`. -/
structure ObjData (F : Type) where
  name : List Char
  positions : List F
  texCoords : List F
  normals : List F
  splitIndices : List (JsIndex × JsIndex × JsIndex)
  deriving DecidableEq, Repr

/-- The call `s.split(sep)` for a separator of one character. -/
def splitChar (sep : Char) : List Char → List (List Char)
  | [] => [[]]
  | c :: cs =>
    if c = sep then [] :: splitChar sep cs
    else
      match splitChar sep cs with
      | [] => [[c]]
      | w :: ws => (c :: w) :: ws

/-- White space and line terminators skipped by `parseInt`. -/
def isStrWhiteSpace (c : Char) : Bool :=
  c.toNat ∈ [0x09, 0x0A, 0x0B, 0x0C, 0x0D, 0x20, 0xA0, 0x1680, 0x2000, 0x2001, 0x2002,
    0x2003, 0x2004, 0x2005, 0x2006, 0x2007, 0x2008, 0x2009, 0x200A, 0x2028, 0x2029,
    0x202F, 0x205F, 0x3000, 0xFEFF]

/-- The value of a character as a digit of `parseInt`. -/
def digitValue (c : Char) : Option ℕ :=
  if '0' ≤ c ∧ c ≤ '9' then some (c.toNat - '0'.toNat)
  else if 'a' ≤ c ∧ c ≤ 'z' then some (c.toNat - 'a'.toNat + 10)
  else if 'A' ≤ c ∧ c ≤ 'Z' then some (c.toNat - 'A'.toNat + 10)
  else none

/-- The longest prefix of digits below the radix, as digit values. -/
def radixDigits (radix : ℕ) : List Char → List ℕ
  | [] => []
  | c :: cs =>
    match digitValue c with
    | some d => if d < radix then d :: radixDigits radix cs else []
    | none => []

/-- The number of times `n` is halved until it is below `2 ^ 53`, that is, the binary
exponent of the last bit of a significand of 53 bits (`fuel` bounds the recursion). -/
def significandShift : ℕ → ℕ → ℕ
  | 0, _ => 0
  | fuel + 1, n => if n < 2 ^ 53 then 0 else significandShift fuel (n / 2) + 1

/-- The Number value of a natural number: a JavaScript number is an IEEE 754 double, so a
value of more than 53 bits is rounded to the nearest number with a significand of 53
bits, a tie to the even significand. From `2 ^ 1024 - 2 ^ 970` on the Number value is
`Infinity`; the value `2 ^ 1024` stands for it. -/
def numberOfNat (n : ℕ) : ℕ :=
  let exponent := significandShift n n
  let significand := n / 2 ^ exponent
  let remainder := n % 2 ^ exponent
  let rounded :=
    if 2 ^ exponent < 2 * remainder ∨ (2 * remainder = 2 ^ exponent ∧ significand % 2 = 1)
    then significand + 1
    else significand
  if 971 < exponent ∨ (exponent = 971 ∧ rounded = 2 ^ 53) then 2 ^ 1024
  else rounded * 2 ^ exponent

/-- The Number value of an integer (rounding is symmetric in the sign). -/
def numberOfInt (z : ℤ) : ℤ :=
  if 0 ≤ z then (numberOfNat z.toNat : ℤ) else -(numberOfNat (-z).toNat : ℤ)

/-- The builtin `parseInt(string)` without radix argument: white space is skipped, a sign
and a `0x` prefix are read, then the longest prefix of digits; no digit gives `NaN`.
An `undefined` argument is converted to the string "undefined". The result is the Number
value of the integer the digits denote (the language definition lets an implementation
approximate an integer of more than 20 significant digits; the value taken here is the
correctly rounded one). -/
def parseInt (input : Option (List Char)) : JsIndex :=
  let inputString := input.getD "undefined".toList
  let trimmed := inputString.dropWhile isStrWhiteSpace
  let signed : ℤ × List Char :=
    match trimmed with
    | '-' :: rest => (-1, rest)
    | '+' :: rest => (1, rest)
    | _ => (1, trimmed)
  let radixed : ℕ × List Char :=
    match signed.2 with
    | '0' :: 'x' :: rest => (16, rest)
    | '0' :: 'X' :: rest => (16, rest)
    | _ => (10, signed.2)
  let digits := radixDigits radixed.1 radixed.2
  if digits = [] then none
  else some (signed.1 *
    ((numberOfNat (digits.foldl (fun acc d => acc * radixed.1 + d) 0) : ℕ) : ℤ))

/-- The subtraction `x - 1` of JavaScript numbers that hold an integer or `NaN`: the
Number value of the difference. -/
def minusOne (x : JsIndex) : JsIndex :=
  x.map fun z => numberOfInt (z - 1)

/-- One pass of the loop `for (let i = 1; i <= 3; i++)` of the `f` branch:
`tokens[i].split("/")` and the triple of `parseInt(face[k]) - 1`. Reading `split` from
an `undefined` token raises a `TypeError`. -/
def parseFaceCorner (token : Option (List Char)) :
    Except JsError (JsIndex × JsIndex × JsIndex) :=
  match token with
  | none => Except.error (JsError.typeError "split")
  | some t =>
    let face := splitChar '/' t
    pure (minusOne (parseInt face[0]?),
      minusOne (parseInt face[1]?),
      minusOne (parseInt face[2]?))

/-- The local variables of `parseObj`; `name` is `none` while it is `undefined`. -/
structure ParseState where
  name : Option (List Char)
  positions : List ParsedFloat
  splitIndices : List (JsIndex × JsIndex × JsIndex)
  normals : List ParsedFloat
  texCoords : List ParsedFloat
  deriving DecidableEq, Repr

/-- The set `ignoredLines`: comments, materials, groups, smooth shading, blank lines. -/
def ignoredLines : List (List Char) :=
  ["#".toList, "mtllib".toList, "g".toList, "usemtl".toList, "s".toList, "".toList]

/-- The body of the loop over the lines of `parseObj`. The last branch calls
`logWarning`, but the module imports only `throwError` (from `./dev.js`) and `vec3`
(from `./math.js`) and declares no `logWarning`: evaluating the identifier raises a
`ReferenceError`. -/
def parseLine (st : ParseState) (index : ℕ) (line : List Char) : Except JsError ParseState :=
  let tokens := splitChar ' ' line
  let lineType := tokens.headD []
  if lineType ∈ ignoredLines then
    pure st
  else if lineType = "o".toList then
    match st.name with
    | none => pure { st with name := tokens[1]? }
    | some _ => throwJsError (JsError.multipleObjectNames index)
  else if lineType = "v".toList then
    pure { st with positions := st.positions ++
      [ParsedFloat.mk tokens[1]?, ParsedFloat.mk tokens[2]?, ParsedFloat.mk tokens[3]?] }
  else if lineType = "vn".toList then
    pure { st with normals := st.normals ++
      [ParsedFloat.mk tokens[1]?, ParsedFloat.mk tokens[2]?, ParsedFloat.mk tokens[3]?] }
  else if lineType = "vt".toList then
    pure { st with texCoords := st.texCoords ++
      [ParsedFloat.mk tokens[1]?, ParsedFloat.mk tokens[2]?] }
  else if lineType = "f".toList then do
    let corner1 ← parseFaceCorner tokens[1]?
    let corner2 ← parseFaceCorner tokens[2]?
    let corner3 ← parseFaceCorner tokens[3]?
    pure { st with splitIndices := st.splitIndices ++ [corner1, corner2, corner3] }
  else
    Except.error (JsError.referenceError "logWarning")

/-- The loop `for (const [index, line] of lines.entries())`, from line `index` on. -/
def parseLines : ParseState → ℕ → List (List Char) → Except JsError ParseState
  | st, _, [] => pure st
  | st, index, line :: rest =>
    match parseLine st index line with
    | Except.error e => Except.error e
    | Except.ok st1 => parseLines st1 (index + 1) rest

/-- The function `parseObj(text)`. -/
def parseObj (text : String) : Except JsError (ObjData ParsedFloat) :=
  let lines := splitChar '\n' text.toList
  match parseLines (ParseState.mk none [] [] [] []) 0 lines with
  | Except.error e => Except.error e
  | Except.ok st =>
    match st.name with
    | none => throwJsError JsError.noObjectName
    | some name => pure {
        name := name
        positions := st.positions
        texCoords := st.texCoords
        normals := st.normals
        splitIndices := st.splitIndices }

/-! ## Vertex expansion (`expandObj`) -/

/-- The decimal string of a natural number (the form in which a non-negative integer
below `10 ^ 21` is converted to a string). -/
def natToString (n : ℕ) : List Char :=
  if n = 0 then ['0'] else ((Nat.digits 10 n).reverse.map Nat.digitChar)

/-- The string conversion of a number that holds an integer or `NaN`, as `join` applies
it to the entries of an array. -/
def numberToString : JsIndex → List Char
  | none => "NaN".toList
  | some (Int.ofNat n) => natToString n
  | some (Int.negSucc n) => '-' :: natToString (n + 1)

/-- The key `splitIndex.join("|")`. -/
def vertexKey (splitIndex : JsIndex × JsIndex × JsIndex) : List Char :=
  numberToString splitIndex.1 ++ '|' :: (numberToString splitIndex.2.1 ++
    '|' :: numberToString splitIndex.2.2)

/-- The call `array.slice(start, end)` whose arguments are integers or `NaN`; `NaN` is
converted to `0`. -/
def jsSliceIndex {α : Type} (xs : List α) (start stop : JsIndex) : List α :=
  jsSlice xs (start.getD 0) (stop.getD 0)

/-- The local variables of `expandObj`; `knownIndices` is the `Map`, kept as the list of
its `set` calls, latest first. -/
structure ExpandState (F : Type) where
  positions : List F
  texCoords : List F
  normals : List F
  indices : List ℕ
  vertIdx : ℕ
  knownIndices : List (List Char × ℕ)

/-- The body of the loop `for (const splitIndex of objData.splitIndices)`. -/
def expandStep {F : Type} (objData : ObjData F) (st : ExpandState F)
    (splitIndex : JsIndex × JsIndex × JsIndex) : ExpandState F :=
  let key := vertexKey splitIndex
  -- Detect duplicate vertices
  match st.knownIndices.lookup key with
  | some existingVertex => { st with indices := st.indices ++ [existingVertex] }
  | none =>
    let posIdx := splitIndex.1
    let uvIdx := splitIndex.2.1
    let normIdx := splitIndex.2.2
    -- Create a new vertex
    let positionIndex := posIdx.map (· * 3)
    let uvIndex := uvIdx.map (· * 2)
    let normalIndex := normIdx.map (· * 3)
    { positions := st.positions ++
        jsSliceIndex objData.positions positionIndex (positionIndex.map (· + 3))
      texCoords := st.texCoords ++
        jsSliceIndex objData.texCoords uvIndex (uvIndex.map (· + 2))
      normals := st.normals ++
        jsSliceIndex objData.normals normalIndex (normalIndex.map (· + 3))
      indices := st.indices ++ [st.vertIdx]
      knownIndices := (key, st.vertIdx) :: st.knownIndices
      vertIdx := st.vertIdx + 1 }

/-- The state of `expandObj` after its loop. -/
def expandLoop {F : Type} (objData : ObjData F) : ExpandState F :=
  objData.splitIndices.foldl (expandStep objData) (ExpandState.mk [] [] [] [] 0 [])

/-- The function `expandObj(objData)`, returning `[attributes, indices]`. -/
def expandObj {F : Type} (objData : ObjData F) : Except JsError (List F × List ℕ) :=
  let st := expandLoop objData
  -- Interleave the vertex attributes.
  match interleaveArrays [st.positions, st.texCoords, st.normals] (.array [3, 2, 3]) with
  | Except.error e => Except.error e
  | Except.ok attributes => pure (attributes, st.indices)

/-! ## Vocabulary of the statements -/

/-- The distinct entries of a list in the order of their first occurrence. -/
def firstOccurrences {β : Type} [DecidableEq β] (l : List β) : List β :=
  l.foldl (fun acc t => if t ∈ acc then acc else acc ++ [t]) []

/-- The position of the first occurrence of `t` in `l` (the length of `l` if there is
none). -/
def firstPosition {β : Type} [DecidableEq β] (l : List β) (t : β) : ℕ :=
  l.indexOf t

/-- The first space-separated token of every line of a text. -/
def lineTypes (text : String) : List (List Char) :=
  (splitChar '\n' text.toList).map fun line => (splitChar ' ' line).headD []

/-- The three numbers an array holds from offset `i` on. -/
def vec3At {α : Type} [Zero α] (xs : List α) (i : ℕ) : α × α × α :=
  (xs.getD i 0, xs.getD (i + 1) 0, xs.getD (i + 2) 0)

/-- The two numbers an array holds from offset `i` on. -/
def vec2At {α : Type} [Zero α] (xs : List α) (i : ℕ) : α × α :=
  (xs.getD i 0, xs.getD (i + 1) 0)

/-- The triangles of an index sequence: its consecutive index triples. -/
def triangles : List ℕ → List (ℕ × ℕ × ℕ)
  | a :: b :: c :: rest => (a, b, c) :: triangles rest
  | _ => []

/-- The difference of two vectors. -/
def sub3 {α : Type} [Ring α] (p q : α × α × α) : α × α × α :=
  (p.1 - q.1, p.2.1 - q.2.1, p.2.2 - q.2.2)

/-- The cross product of two vectors. -/
def cross3 {α : Type} [Ring α] (p q : α × α × α) : α × α × α :=
  (p.2.1 * q.2.2 - p.2.2 * q.2.1, p.2.2 * q.1 - p.1 * q.2.2, p.1 * q.2.1 - p.2.1 * q.1)

/-- The dot product of two vectors. -/
def dot3 {α : Type} [Ring α] (p q : α × α × α) : α :=
  p.1 * q.1 + p.2.1 * q.2.1 + p.2.2 * q.2.2

/-- The right-hand-rule normal `(Pb - Pa) x (Pc - Pa)` of the triangle `(a, b, c)` over the
vertex positions `P`. -/
def triangleNormal {α : Type} [Ring α] (P : ℕ → α × α × α) (t : ℕ × ℕ × ℕ) : α × α × α :=
  cross3 (sub3 (P t.2.1) (P t.1)) (sub3 (P t.2.2) (P t.1))

/-- The extents of the cube along the three axes: the `size` parameter of
`createCubeAttributes` after its normalisation to three numbers. -/
def CubeOptions.extents {α : Type} [Field α] (options : CubeOptions α) : α × α × α :=
  match options.size.getD (.number 1.0) with
  | .number s => (s, s, s)
  | .vec x y z => (x, y, z)

/-- The six axis-aligned unit normals in the order front, back, top, bottom, right, left. -/
def cubeFaceNormals {α : Type} [Ring α] : List (α × α × α) :=
  [(0, 0, 1), (0, 0, -1), (0, 1, 0), (0, -1, 0), (1, 0, 0), (-1, 0, 0)]

/-- The position of vertex `v` of the skybox (3 numbers per vertex). -/
def skyBoxPosition (v : ℕ) : ℤ × ℤ × ℤ :=
  vec3At createSkyBoxAttributes (3 * v)

/-- A well-formed line of an OBJ text: `o name`, `v x y z`, `vn x y z`, `vt u v`, or a
face `f p1/u1/n1 p2/u2/n2 p3/u3/n3` of three corners given by 1-based numbers. -/
inductive ObjLine where
  | o (name : List Char)
  | v (x y z : List Char)
  | vn (x y z : List Char)
  | vt (tu tv : List Char)
  | f (p1 u1 n1 p2 u2 n2 p3 u3 n3 : ℕ)

/-- The corner token `p/u/n` of a face line. -/
def cornerToken (p u n : ℕ) : List Char :=
  natToString p ++ '/' :: (natToString u ++ '/' :: natToString n)

/-- The text of a well-formed line. -/
def ObjLine.render : ObjLine → List Char
  | ObjLine.o name => 'o' :: ' ' :: name
  | ObjLine.v x y z => 'v' :: ' ' :: (x ++ ' ' :: (y ++ ' ' :: z))
  | ObjLine.vn x y z => 'v' :: 'n' :: ' ' :: (x ++ ' ' :: (y ++ ' ' :: z))
  | ObjLine.vt tu tv => 'v' :: 't' :: ' ' :: (tu ++ ' ' :: tv)
  | ObjLine.f p1 u1 n1 p2 u2 n2 p3 u3 n3 =>
    'f' :: ' ' :: (cornerToken p1 u1 n1 ++ ' ' :: (cornerToken p2 u2 n2 ++ ' ' :: cornerToken p3 u3 n3))

/-- The tokens of a well-formed line contain neither a space nor a line break. -/
def ObjLine.WellFormed : ObjLine → Prop
  | ObjLine.o name => ' ' ∉ name ∧ '\n' ∉ name
  | ObjLine.v x y z =>
    (' ' ∉ x ∧ '\n' ∉ x) ∧ (' ' ∉ y ∧ '\n' ∉ y) ∧ (' ' ∉ z ∧ '\n' ∉ z)
  | ObjLine.vn x y z =>
    (' ' ∉ x ∧ '\n' ∉ x) ∧ (' ' ∉ y ∧ '\n' ∉ y) ∧ (' ' ∉ z ∧ '\n' ∉ z)
  | ObjLine.vt tu tv => (' ' ∉ tu ∧ '\n' ∉ tu) ∧ (' ' ∉ tv ∧ '\n' ∉ tv)
  | ObjLine.f _ _ _ _ _ _ _ _ _ => True

/-- The name a line gives to the object, if it is an `o` line. -/
def ObjLine.objectName : ObjLine → Option (List Char)
  | ObjLine.o name => some name
  | _ => none

/-- The numbers a line contributes to `positions`. -/
def ObjLine.positions : ObjLine → List ParsedFloat
  | ObjLine.v x y z => [ParsedFloat.mk (some x), ParsedFloat.mk (some y), ParsedFloat.mk (some z)]
  | _ => []

/-- The numbers a line contributes to `normals`. -/
def ObjLine.normals : ObjLine → List ParsedFloat
  | ObjLine.vn x y z => [ParsedFloat.mk (some x), ParsedFloat.mk (some y), ParsedFloat.mk (some z)]
  | _ => []

/-- The numbers a line contributes to `texCoords`. -/
def ObjLine.texCoords : ObjLine → List ParsedFloat
  | ObjLine.vt tu tv => [ParsedFloat.mk (some tu), ParsedFloat.mk (some tv)]
  | _ => []

/-- The triples a line contributes to `splitIndices`: for every corner the three numbers
of the file, each minus 1. -/
def ObjLine.splitIndices : ObjLine → List (JsIndex × JsIndex × JsIndex)
  | ObjLine.f p1 u1 n1 p2 u2 n2 p3 u3 n3 =>
    [(some ((p1 : ℤ) - 1), some ((u1 : ℤ) - 1), some ((n1 : ℤ) - 1)),
      (some ((p2 : ℤ) - 1), some ((u2 : ℤ) - 1), some ((n2 : ℤ) - 1)),
      (some ((p3 : ℤ) - 1), some ((u3 : ℤ) - 1), some ((n3 : ℤ) - 1))]
  | _ => []

/-- The numbers of a face line are at most `2 ^ 53 = 9007199254740992`, the range in
which every integer is a JavaScript number; the other lines carry no such number. -/
def ObjLine.InRange : ObjLine → Prop
  | ObjLine.f p1 u1 n1 p2 u2 n2 p3 u3 n3 =>
    (p1 ≤ 2 ^ 53 ∧ u1 ≤ 2 ^ 53 ∧ n1 ≤ 2 ^ 53) ∧ (p2 ≤ 2 ^ 53 ∧ u2 ≤ 2 ^ 53 ∧ n2 ≤ 2 ^ 53) ∧
      (p3 ≤ 2 ^ 53 ∧ u3 ≤ 2 ^ 53 ∧ n3 ≤ 2 ^ 53)
  | _ => True

/-- The lines of a text joined by line breaks. -/
def joinLines : List (List Char) → List Char
  | [] => []
  | [line] => line
  | line :: rest => line ++ '\n' :: joinLines rest

/-- Well-formedness of a line can be checked. -/
instance ObjLine.decidableWellFormed : (l : ObjLine) → Decidable l.WellFormed
  | ObjLine.o name => inferInstanceAs (Decidable (' ' ∉ name ∧ '\n' ∉ name))
  | ObjLine.v x y z => inferInstanceAs (Decidable
      ((' ' ∉ x ∧ '\n' ∉ x) ∧ (' ' ∉ y ∧ '\n' ∉ y) ∧ (' ' ∉ z ∧ '\n' ∉ z)))
  | ObjLine.vn x y z => inferInstanceAs (Decidable
      ((' ' ∉ x ∧ '\n' ∉ x) ∧ (' ' ∉ y ∧ '\n' ∉ y) ∧ (' ' ∉ z ∧ '\n' ∉ z)))
  | ObjLine.vt tu tv => inferInstanceAs (Decidable
      ((' ' ∉ tu ∧ '\n' ∉ tu) ∧ (' ' ∉ tv ∧ '\n' ∉ tv)))
  | ObjLine.f _ _ _ _ _ _ _ _ _ => inferInstanceAs (Decidable True)

/-- Whether the numbers of a line are in range can be checked. -/
instance ObjLine.decidableInRange : (l : ObjLine) → Decidable l.InRange
  | ObjLine.o _ => inferInstanceAs (Decidable True)
  | ObjLine.v _ _ _ => inferInstanceAs (Decidable True)
  | ObjLine.vn _ _ _ => inferInstanceAs (Decidable True)
  | ObjLine.vt _ _ => inferInstanceAs (Decidable True)
  | ObjLine.f p1 u1 n1 p2 u2 n2 p3 u3 n3 => inferInstanceAs (Decidable
      ((p1 ≤ 2 ^ 53 ∧ u1 ≤ 2 ^ 53 ∧ n1 ≤ 2 ^ 53) ∧ (p2 ≤ 2 ^ 53 ∧ u2 ≤ 2 ^ 53 ∧ n2 ≤ 2 ^ 53) ∧
        (p3 ≤ 2 ^ 53 ∧ u3 ≤ 2 ^ 53 ∧ n3 ≤ 2 ^ 53)))

/-- The call `interleaveArrays(arrays, quantities)` in which the second argument may be
omitted (`none`); the parameter default `quantities = 1` then applies. -/
def interleaveArraysOpt {α : Type} (arrays : List (List α))
    (quantities : Option Quantities) : Except JsError (List α) :=
  interleaveArrays arrays (quantities.getD (Quantities.number 1))

/-- The wording of the documentation of `interleaveArrays` for the quantity 1, not the
code: from arrays of `n` elements, one element of each array in turn. -/
def takeOneInTurn {α : Type} (arrays : List (List α)) (n : ℕ) : List α :=
  (List.range n).flatMap fun i => arrays.flatMap fun a => (a[i]?).toList

/-- Tokens joined by single spaces. -/
def joinTokens : List (List Char) → List Char
  | [] => []
  | [token] => token
  | token :: rest => token ++ ' ' :: joinTokens rest

/-- The text of a face line with any number of corners `p/u/n`. -/
def faceLine (corners : List (ℕ × ℕ × ℕ)) : List Char :=
  joinTokens ("f".toList :: corners.map fun c => cornerToken c.1 c.2.1 c.2.2)

/-- The JavaScript number `k - 1` for the number `k` written in a file: both the number
read and the difference are Number values. For `k` up to `2 ^ 53` it is the integer
`k - 1`. -/
def storedIndex (k : ℕ) : JsIndex :=
  some (numberOfInt ((numberOfNat k : ℤ) - 1))

/-- The triple of 0-based indices of a corner `p/u/n`: each number minus 1, as a
JavaScript number. -/
def cornerTriple (c : ℕ × ℕ × ℕ) : JsIndex × JsIndex × JsIndex :=
  (storedIndex c.1, storedIndex c.2.1, storedIndex c.2.2)

/-! ## Lemmas on the number helpers -/

theorem jsTrunc_intCast (z : ℤ) : jsTrunc (z : ℚ) = z := by
  unfold jsTrunc
  split <;> simp

theorem jsTrunc_natCast (n : ℕ) : jsTrunc (n : ℚ) = (n : ℤ) := by
  unfold jsTrunc
  split <;> simp

theorem jsRem_one_eq_zero_iff (q : ℚ) : jsRem q 1 = 0 ↔ ∃ z : ℤ, q = (z : ℚ) := by
  unfold jsRem
  constructor
  · intro h
    exact ⟨jsTrunc (q / 1), by linarith⟩
  · rintro ⟨z, rfl⟩
    simp [jsTrunc_intCast]

theorem jsRem_natCast_eq_zero_iff (len n : ℕ) (hn : 1 ≤ n) :
    jsRem (len : ℚ) (n : ℚ) = 0 ↔ n ∣ len := by
  have hnonneg : (0 : ℚ) ≤ (len : ℚ) / (n : ℚ) := by positivity
  have htr : jsTrunc ((len : ℚ) / (n : ℚ)) = ((len / n : ℕ) : ℤ) := by
    unfold jsTrunc
    rw [if_pos hnonneg, Rat.floor_natCast_div_natCast]
    norm_cast
  unfold jsRem
  rw [htr]
  constructor
  · intro h
    have h2 : ((n * (len / n) : ℕ) : ℚ) = (len : ℚ) := by
      rw [Int.cast_natCast] at h
      push_cast
      linarith
    have h3 : n * (len / n) = len := by exact_mod_cast h2
    exact ⟨len / n, h3.symm⟩
  · rintro ⟨m, rfl⟩
    have hpos : 0 < n := hn
    rw [Nat.mul_div_cancel_left m hpos, Int.cast_natCast]
    push_cast
    ring

/-! ## Lemmas on the validation loop of `interleaveArrays` -/

theorem jsRem_eq_zero_iff_multiple (len : ℕ) (q : ℚ) (h1 : 1 ≤ q) (hz : ∃ z : ℤ, q = (z : ℚ)) :
    jsRem (len : ℚ) q = 0 ↔ ∃ m : ℤ, (len : ℚ) = (m : ℚ) * q := by
  obtain ⟨z, rfl⟩ := hz
  have hz1 : (1 : ℤ) ≤ z := by exact_mod_cast h1
  obtain ⟨n, rfl⟩ := Int.eq_ofNat_of_zero_le (by omega : (0 : ℤ) ≤ z)
  have hn : 1 ≤ n := by exact_mod_cast hz1
  rw [Int.cast_natCast, jsRem_natCast_eq_zero_iff len n hn]
  constructor
  · rintro ⟨c, rfl⟩
    exact ⟨(c : ℤ), by push_cast; ring⟩
  · rintro ⟨m, hm⟩
    have hm2 : (len : ℤ) = m * (n : ℤ) := by exact_mod_cast hm
    have hdvd : (n : ℤ) ∣ (len : ℤ) := ⟨m, by rw [hm2]; ring⟩
    exact Int.natCast_dvd_natCast.mp hdvd

theorem validateFrom_ok_iff {α : Type} (bandCount : ℚ) :
    ∀ (l : List (List α × ℚ)) (i : ℕ),
      validateFrom bandCount i l = Except.ok () ↔
        ∀ aq ∈ l, 1 ≤ aq.2 ∧ (∃ z : ℤ, aq.2 = (z : ℚ)) ∧
          (∃ m : ℤ, (aq.1.length : ℚ) = (m : ℚ) * aq.2) ∧
          (aq.1.length : ℚ) / aq.2 = bandCount
  | [], i => by simp [validateFrom, pure, Except.pure]
  | (a, q) :: l, i => by
    simp only [validateFrom, List.mem_cons, forall_eq_or_imp]
    rw [← validateFrom_ok_iff bandCount l (i + 1)]
    by_cases h1 : q < 1
    · simp [h1, throwJsError]
    · have h1le : 1 ≤ q := not_lt.mp h1
      by_cases h2 : jsRem q 1 = 0
      · have hz := (jsRem_one_eq_zero_iff q).mp h2
        by_cases h3 : jsRem (a.length : ℚ) q = 0
        · have hm := (jsRem_eq_zero_iff_multiple a.length q h1le hz).mp h3
          by_cases h4 : (a.length : ℚ) / q = bandCount
          · simp [h1, h2, h3, h4, h1le, hz, hm]
          · simp [h1, h2, h3, h4, throwJsError]
        · have hm : ¬ ∃ m : ℤ, (a.length : ℚ) = (m : ℚ) * q := fun h =>
            h3 ((jsRem_eq_zero_iff_multiple a.length q h1le hz).mpr h)
          simp [h1, h2, h3, hm, throwJsError]
      · have hz : ¬ ∃ z : ℤ, q = (z : ℚ) := fun h => h2 ((jsRem_one_eq_zero_iff q).mpr h)
        simp [h1, h2, hz, throwJsError]

theorem interleaveArrays_array_eq {α : Type} (first second : List α) (rest : List (List α))
    (quantities : List ℚ) (hlen : quantities.length = (first :: second :: rest).length) :
    interleaveArrays (first :: second :: rest) (Quantities.array quantities) =
      (validateFrom ((first.length : ℚ) / quantities.headD 0) 0
          ((first :: second :: rest).zip quantities)).bind
        (fun _ => Except.ok (interleaveLoop (first :: second :: rest) quantities
          ((first.length : ℚ) / quantities.headD 0))) := by
  simp only [interleaveArrays, normalizeQuantities, hlen, ne_eq, not_true_eq_false, if_false]
  rfl

/-- C2: given at least two arrays and a list of quantities, `interleaveArrays` raises
exactly when the list's length differs from the number of arrays, or some quantity is
below 1, or some quantity is not an integer, or some array's length is not a multiple of
its quantity, or some array's band count (length / quantity) differs from the first
array's; in every other case it returns a result. -/
theorem interleaveArrays_raises_iff {α : Type} (arrays : List (List α)) (quantities : List ℚ)
    (hk : 2 ≤ arrays.length) :
    ((∃ e, interleaveArrays arrays (Quantities.array quantities) = Except.error e) ↔
      (quantities.length ≠ arrays.length ∨
        (∃ q ∈ quantities, q < 1) ∨
        (∃ q ∈ quantities, ¬ ∃ z : ℤ, q = (z : ℚ)) ∨
        (∃ (i : ℕ) (a : List α) (q : ℚ), arrays[i]? = some a ∧ quantities[i]? = some q ∧
          ¬ ∃ m : ℤ, (a.length : ℚ) = (m : ℚ) * q) ∨
        (∃ (i : ℕ) (a : List α) (q : ℚ), arrays[i]? = some a ∧ quantities[i]? = some q ∧
          (a.length : ℚ) / q ≠ ((arrays.headD []).length : ℚ) / quantities.headD 0))) ∧
    ((∃ out, interleaveArrays arrays (Quantities.array quantities) = Except.ok out) ↔
      ¬ (quantities.length ≠ arrays.length ∨
        (∃ q ∈ quantities, q < 1) ∨
        (∃ q ∈ quantities, ¬ ∃ z : ℤ, q = (z : ℚ)) ∨
        (∃ (i : ℕ) (a : List α) (q : ℚ), arrays[i]? = some a ∧ quantities[i]? = some q ∧
          ¬ ∃ m : ℤ, (a.length : ℚ) = (m : ℚ) * q) ∨
        (∃ (i : ℕ) (a : List α) (q : ℚ), arrays[i]? = some a ∧ quantities[i]? = some q ∧
          (a.length : ℚ) / q ≠ ((arrays.headD []).length : ℚ) / quantities.headD 0))) := by
  obtain ⟨first, second, rest, rfl⟩ : ∃ first second rest, arrays = first :: second :: rest := by
    match arrays, hk with
    | first :: second :: rest, _ => exact ⟨first, second, rest, rfl⟩
  have key : (∃ e, interleaveArrays (first :: second :: rest) (Quantities.array quantities) =
        Except.error e) ↔
      (quantities.length ≠ (first :: second :: rest).length ∨
        (∃ q ∈ quantities, q < 1) ∨
        (∃ q ∈ quantities, ¬ ∃ z : ℤ, q = (z : ℚ)) ∨
        (∃ (i : ℕ) (a : List α) (q : ℚ), (first :: second :: rest)[i]? = some a ∧ quantities[i]? = some q ∧
          ¬ ∃ m : ℤ, (a.length : ℚ) = (m : ℚ) * q) ∨
        (∃ (i : ℕ) (a : List α) (q : ℚ), (first :: second :: rest)[i]? = some a ∧ quantities[i]? = some q ∧
          (a.length : ℚ) / q ≠
            (((first :: second :: rest).headD []).length : ℚ) / quantities.headD 0)) := by
    by_cases hlen : quantities.length = (first :: second :: rest).length
    · rw [interleaveArrays_array_eq first second rest quantities hlen]
      have hbind : ∀ (x : Except JsError Unit) (out : List α),
          (∃ e, x.bind (fun _ => Except.ok out) = Except.error e) ↔ x ≠ Except.ok () := by
        intro x out
        cases x <;> simp [Except.bind]
      rw [hbind, Ne, validateFrom_ok_iff]
      simp only [ne_eq, hlen, not_true_eq_false, false_or, List.headD_cons]
      constructor
      · intro h
        push_neg at h
        obtain ⟨⟨a, q⟩, hmem, hbad⟩ := h
        obtain ⟨i, hi⟩ := List.mem_iff_getElem?.mp hmem
        rw [List.getElem?_zip_eq_some] at hi
        obtain ⟨hia, hiq⟩ := hi
        have hqmem : q ∈ quantities := List.mem_iff_getElem?.mpr ⟨i, hiq⟩
        by_cases h1 : q < 1
        · exact Or.inl ⟨q, hqmem, h1⟩
        · by_cases h2 : ∃ z : ℤ, q = (z : ℚ)
          · by_cases h3 : ∃ m : ℤ, (a.length : ℚ) = (m : ℚ) * q
            · exact Or.inr (Or.inr (Or.inr ⟨i, a, q, hia, hiq, hbad (not_lt.mp h1) h2 h3⟩))
            · exact Or.inr (Or.inr (Or.inl ⟨i, a, q, hia, hiq, h3⟩))
          · exact Or.inr (Or.inl ⟨q, hqmem, h2⟩)
      · intro h hall
        have hpair : ∀ (i : ℕ) (a : List α) (q : ℚ), (first :: second :: rest)[i]? = some a → quantities[i]? = some q →
            (a, q) ∈ (first :: second :: rest).zip quantities := by
          intro i a q hia hiq
          exact List.mem_iff_getElem?.mpr ⟨i, List.getElem?_zip_eq_some.mpr ⟨hia, hiq⟩⟩
        have harr : ∀ q ∈ quantities, ∃ (i : ℕ) (a : List α), (first :: second :: rest)[i]? = some a ∧
            quantities[i]? = some q := by
          intro q hq
          obtain ⟨i, hiq⟩ := List.mem_iff_getElem?.mp hq
          have hi : i < quantities.length := by
            by_contra hcon
            rw [List.getElem?_eq_none (not_lt.mp hcon)] at hiq
            exact Option.noConfusion hiq
          rw [hlen] at hi
          exact ⟨i, (first :: second :: rest)[i], List.getElem?_eq_getElem hi, hiq⟩
        rcases h with ⟨q, hq, h1⟩ | ⟨q, hq, h2⟩ | ⟨i, a, q, hia, hiq, h3⟩ | ⟨i, a, q, hia, hiq, h4⟩
        · obtain ⟨i, a, hia, hiq⟩ := harr q hq
          exact absurd (hall (a, q) (hpair i a q hia hiq)).1 (not_le.mpr h1)
        · obtain ⟨i, a, hia, hiq⟩ := harr q hq
          exact h2 (hall (a, q) (hpair i a q hia hiq)).2.1
        · exact h3 (hall (a, q) (hpair i a q hia hiq)).2.2.1
        · exact h4 (hall (a, q) (hpair i a q hia hiq)).2.2.2
    · have herr : interleaveArrays (first :: second :: rest) (Quantities.array quantities) =
          Except.error (JsError.quantitiesLength quantities.length
            (first :: second :: rest).length) := by
        simp only [interleaveArrays, normalizeQuantities, ne_eq, hlen, not_false_eq_true,
          if_true, throwJsError]
        rfl
      rw [herr]
      exact ⟨fun _ => Or.inl hlen, fun _ => ⟨_, rfl⟩⟩
  refine ⟨key, ?_⟩
  rw [← key]
  cases interleaveArrays (first :: second :: rest) (Quantities.array quantities) <;> simp

/-- C3: with fewer than two arrays `interleaveArrays` performs no validation: whatever the
quantities argument is, zero arrays give the empty array and a single array is returned
unchanged, without raising. -/
theorem interleaveArrays_fewer_than_two {α : Type} (quantities : Quantities) (array : List α) :
    interleaveArrays ([] : List (List α)) quantities = Except.ok [] ∧
      interleaveArrays [array] quantities = Except.ok array :=
  ⟨rfl, rfl⟩

/-! ## Lemmas on slices and flattened lists -/

theorem relIndex_natCast (len k : ℕ) : relIndex len (k : ℤ) = min k len := by
  unfold relIndex
  have h : ¬ ((k : ℤ) < 0) := by omega
  rw [if_neg h, Int.toNat_natCast]

theorem jsSlice_natCast {α : Type} (xs : List α) (s e : ℕ) :
    jsSlice xs (s : ℤ) (e : ℤ) = (xs.drop s).take (e - s) := by
  unfold jsSlice
  rw [relIndex_natCast, relIndex_natCast]
  by_cases hs : s ≤ xs.length
  · rw [Nat.min_eq_left hs, List.take_eq_take, List.length_drop]
    omega
  · have h1 : xs.drop s = [] := List.drop_eq_nil_of_le (by omega)
    have h2 : xs.drop (min s xs.length) = [] := List.drop_eq_nil_of_le (by omega)
    rw [h1, h2, List.take_nil, List.take_nil]

theorem flatMap_split {α β : Type} (f : β → List α) (l : List β) (i : ℕ) (x : β)
    (h : l[i]? = some x) :
    l.flatMap f = (l.take i).flatMap f ++ (f x ++ (l.drop (i + 1)).flatMap f) := by
  have hi : i < l.length := by
    by_contra hcon
    rw [List.getElem?_eq_none (not_lt.mp hcon)] at h
    exact Option.noConfusion h
  have hx : l[i] = x := by
    rw [List.getElem?_eq_getElem hi] at h
    exact Option.some.inj h
  conv_lhs => rw [← List.take_append_drop i l, List.drop_eq_getElem_cons hi, hx]
  rw [List.flatMap_append, List.flatMap_cons]

theorem sum_map_eq_mul {β : Type} (g : β → ℕ) (S : ℕ) :
    ∀ l : List β, (∀ x ∈ l, g x = S) → (l.map g).sum = l.length * S
  | [], _ => by simp
  | y :: l, h => by
    rw [List.map_cons, List.sum_cons, h y (List.mem_cons_self y l),
      sum_map_eq_mul g S l (fun x hx => h x (List.mem_cons_of_mem y hx)), List.length_cons]
    ring

/-- The piece of a flattened list that stems from the entry at position `i`. -/
theorem flatMap_drop_take {α β : Type} (f : β → List α) (g : β → ℕ) (l : List β)
    (hg : ∀ x ∈ l, (f x).length = g x) (i : ℕ) (x : β) (h : l[i]? = some x) :
    ∃ tail, (l.flatMap f).drop ((l.take i).map g).sum = f x ++ tail := by
  refine ⟨(l.drop (i + 1)).flatMap f, ?_⟩
  have hlen : ((l.take i).flatMap f).length = ((l.take i).map g).sum := by
    rw [List.length_flatMap]
    congr 1
    apply List.map_congr_left
    intro y hy
    exact hg y (List.mem_of_mem_take hy)
  rw [flatMap_split f l i x h]
  exact List.drop_left' hlen

theorem sum_take_le {β : Type} (g : β → ℕ) (l : List β) (i : ℕ) :
    ((l.take i).map g).sum ≤ (l.map g).sum := by
  conv_rhs => rw [← List.take_append_drop i l, List.map_append, List.sum_append]
  exact Nat.le_add_right _ _

/-- The layout of the interleaved output for natural quantities: the output is the
sequence of bands, each band being the sequence of the arrays' slices. -/
theorem interleave_pairs {α : Type} (l : List (List α × ℕ)) (n : ℕ)
    (hl : ∀ am ∈ l, am.1.length = n * am.2) :
    ((List.range n).flatMap fun b =>
        l.flatMap fun am => (am.1.drop (b * am.2)).take am.2).length =
      (l.map fun am => am.1.length).sum ∧
    ∀ (b i : ℕ) (am : List α × ℕ), b < n → l[i]? = some am →
      ∃ tail, ((List.range n).flatMap fun b =>
          l.flatMap fun am => (am.1.drop (b * am.2)).take am.2).drop
            (b * (l.map Prod.snd).sum + ((l.take i).map Prod.snd).sum) =
        (am.1.drop (b * am.2)).take am.2 ++ tail := by
  have hpiece : ∀ b, b < n → ∀ am ∈ l, ((am.1.drop (b * am.2)).take am.2).length = am.2 := by
    intro b hb am ham
    have h1 := hl am ham
    have h2 : (b + 1) * am.2 ≤ n * am.2 := Nat.mul_le_mul_right am.2 hb
    rw [List.length_take, List.length_drop, h1]
    have h3 : (b + 1) * am.2 = b * am.2 + am.2 := by ring
    omega
  have hchunk : ∀ b ∈ List.range n,
      (l.flatMap fun am => (am.1.drop (b * am.2)).take am.2).length = (l.map Prod.snd).sum := by
    intro b hb
    rw [List.length_flatMap]
    congr 1
    apply List.map_congr_left
    intro am ham
    exact hpiece b (List.mem_range.mp hb) am ham
  constructor
  · rw [List.length_flatMap]
    have h1 := sum_map_eq_mul
      (fun b => (l.flatMap fun am => (am.1.drop (b * am.2)).take am.2).length)
      ((l.map Prod.snd).sum) (List.range n) hchunk
    have h2 : (l.map fun am => am.1.length) = l.map fun am => n * am.2 :=
      List.map_congr_left hl
    have h3 : (l.map fun am => n * am.2).sum = n * (l.map Prod.snd).sum :=
      List.sum_map_mul_left l Prod.snd n
    rw [h2, h3, ← List.length_range n]
    simpa [Function.comp_def] using h1
  · intro b i am hb hi
    obtain ⟨tail1, h1⟩ := flatMap_drop_take
      (fun b => l.flatMap fun am => (am.1.drop (b * am.2)).take am.2)
      (fun _ => (l.map Prod.snd).sum) (List.range n) hchunk b b (List.getElem?_range hb)
    have hoff : (((List.range n).take b).map fun _ => (l.map Prod.snd).sum).sum =
        b * (l.map Prod.snd).sum := by
      rw [sum_map_eq_mul (fun _ => (l.map Prod.snd).sum) _ _ (fun _ _ => rfl),
        List.length_take, List.length_range, Nat.min_eq_left (Nat.le_of_lt hb)]
    rw [hoff] at h1
    obtain ⟨tail2, h2⟩ := flatMap_drop_take
      (fun am : List α × ℕ => (am.1.drop (b * am.2)).take am.2) Prod.snd l (hpiece b hb) i am hi
    have hle : ((l.take i).map Prod.snd).sum ≤
        (l.flatMap fun am => (am.1.drop (b * am.2)).take am.2).length := by
      rw [hchunk b (List.mem_range.mpr hb)]
      exact sum_take_le Prod.snd l i
    refine ⟨tail2 ++ tail1, ?_⟩
    rw [← List.drop_drop, h1, List.drop_append_of_le_length hle, h2, List.append_assoc]

theorem interleaveLoop_natCast {α : Type} (arrays : List (List α)) (ns : List ℕ) (n : ℕ) :
    interleaveLoop arrays (ns.map (Nat.cast : ℕ → ℚ)) (n : ℚ) =
      (List.range n).flatMap fun b =>
        (arrays.zip ns).flatMap fun am => (am.1.drop (b * am.2)).take am.2 := by
  unfold interleaveLoop
  rw [Nat.ceil_natCast, List.zip_map_right]
  congr 1
  funext b
  rw [List.flatMap_map]
  congr 1
  funext am
  have h1 : (b : ℚ) * ((am.2 : ℕ) : ℚ) = ((b * am.2 : ℕ) : ℚ) := by push_cast; ring
  have h2 : ((b : ℚ) + 1) * ((am.2 : ℕ) : ℚ) = (((b + 1) * am.2 : ℕ) : ℚ) := by
    push_cast; ring
  have h3 : (b + 1) * am.2 - b * am.2 = am.2 := by
    have : (b + 1) * am.2 = b * am.2 + am.2 := by ring
    omega
  simp only [Prod.map_fst, Prod.map_snd, id_eq]
  rw [h1, h2, jsTrunc_natCast, jsTrunc_natCast, jsSlice_natCast, h3]

/-- On validated input with integral quantities `interleaveArrays` returns the sequence
of bands. -/
theorem interleaveArrays_natCast {α : Type} (arrays : List (List α)) (ns : List ℕ) (n : ℕ)
    (hk : 2 ≤ arrays.length) (hlen : ns.length = arrays.length)
    (hpos : ∀ q ∈ ns, 1 ≤ q)
    (hband : ∀ (i : ℕ) (a : List α) (q : ℕ),
      arrays[i]? = some a → ns[i]? = some q → a.length = n * q) :
    interleaveArrays arrays (Quantities.array (ns.map (Nat.cast : ℕ → ℚ))) =
      Except.ok ((List.range n).flatMap fun b =>
        (arrays.zip ns).flatMap fun am => (am.1.drop (b * am.2)).take am.2) := by
  obtain ⟨first, second, rest, rfl⟩ : ∃ first second rest, arrays = first :: second :: rest := by
    match arrays, hk with
    | first :: second :: rest, _ => exact ⟨first, second, rest, rfl⟩
  obtain ⟨n0, ns1, rfl⟩ : ∃ n0 ns1, ns = n0 :: ns1 := by
    match ns, hlen with
    | n0 :: ns1, _ => exact ⟨n0, ns1, rfl⟩
  have hn0 : 1 ≤ n0 := hpos n0 (List.mem_cons_self n0 ns1)
  have hfirst : first.length = n * n0 := hband 0 first n0 (by simp) (by simp)
  have hbc : (first.length : ℚ) / ((n0 :: ns1).map (Nat.cast : ℕ → ℚ)).headD 0 = (n : ℚ) := by
    have hne : (n0 : ℚ) ≠ 0 := by
      have : (0 : ℚ) < (n0 : ℚ) := by exact_mod_cast hn0
      exact ne_of_gt this
    rw [List.map_cons, List.headD_cons, hfirst]
    push_cast
    field_simp
  rw [interleaveArrays_array_eq first second rest _ (by rw [List.length_map]; exact hlen), hbc]
  have hvalid : validateFrom (n : ℚ) 0
      ((first :: second :: rest).zip ((n0 :: ns1).map (Nat.cast : ℕ → ℚ))) = Except.ok () := by
    rw [validateFrom_ok_iff]
    intro aq haq
    obtain ⟨i, hi⟩ := List.mem_iff_getElem?.mp haq
    rw [List.getElem?_zip_eq_some, List.getElem?_map] at hi
    obtain ⟨hia, hiq⟩ := hi
    obtain ⟨m, hm, hmq⟩ := Option.map_eq_some'.mp hiq
    have hm1 : 1 ≤ m := hpos m (List.mem_iff_getElem?.mpr ⟨i, hm⟩)
    have hlen1 : aq.1.length = n * m := hband i aq.1 m hia hm
    have hne : (m : ℚ) ≠ 0 := by
      have : (0 : ℚ) < (m : ℚ) := by exact_mod_cast hm1
      exact ne_of_gt this
    rw [← hmq, hlen1]
    refine ⟨by exact_mod_cast hm1, ⟨(m : ℤ), by simp⟩, ⟨(n : ℤ), by push_cast; ring⟩, ?_⟩
    push_cast
    field_simp
  rw [hvalid, interleaveLoop_natCast]
  rfl

/-- The layout of the array returned by `interleaveArrays` on validated input. -/
theorem interleaveArrays_bands_layout {α : Type} (arrays : List (List α)) (quantities : List ℕ)
    (n : ℕ) (hk : 2 ≤ arrays.length) (hlen : quantities.length = arrays.length)
    (hpos : ∀ q ∈ quantities, 1 ≤ q)
    (hband : ∀ (i : ℕ) (a : List α) (q : ℕ),
      arrays[i]? = some a → quantities[i]? = some q → a.length = n * q) :
    ∃ out, interleaveArrays arrays (Quantities.array (quantities.map (Nat.cast : ℕ → ℚ))) =
        Except.ok out ∧
      out.length = (arrays.map List.length).sum ∧
      (∀ (b i j : ℕ) (a : List α) (q : ℕ), b < n → arrays[i]? = some a →
        quantities[i]? = some q → j < q →
          b * q + j < a.length ∧
          out[b * quantities.sum + (quantities.take i).sum + j]? = a[b * q + j]?) ∧
      (∀ (b i : ℕ) (a : List α) (q : ℕ), b < n → arrays[i]? = some a →
        quantities[i]? = some q →
          jsSlice out ((b * quantities.sum + (quantities.take i).sum : ℕ) : ℤ)
              ((b * quantities.sum + (quantities.take i).sum + q : ℕ) : ℤ) =
            jsSlice a ((b * q : ℕ) : ℤ) (((b + 1) * q : ℕ) : ℤ)) ∧
      (∀ (A B : List α) (qa qb b : ℕ), arrays = [A, B] → quantities = [qa, qb] → b < n →
          jsSlice out ((b * (qa + qb) : ℕ) : ℤ) ((b * (qa + qb) + qa : ℕ) : ℤ) =
            jsSlice A ((b * qa : ℕ) : ℤ) (((b + 1) * qa : ℕ) : ℤ)) := by
  refine ⟨_, interleaveArrays_natCast arrays quantities n hk hlen hpos hband, ?_⟩
  have hl : ∀ am ∈ arrays.zip quantities, am.1.length = n * am.2 := by
    intro am ham
    obtain ⟨i, hi⟩ := List.mem_iff_getElem?.mp ham
    rw [List.getElem?_zip_eq_some] at hi
    exact hband i am.1 am.2 hi.1 hi.2
  obtain ⟨hlength, hdrop⟩ := interleave_pairs (arrays.zip quantities) n hl
  have hsnd : (arrays.zip quantities).map Prod.snd = quantities :=
    List.map_snd_zip arrays quantities (le_of_eq hlen)
  have hfst : (arrays.zip quantities).map Prod.fst = arrays :=
    List.map_fst_zip arrays quantities (le_of_eq hlen.symm)
  have htake : ∀ i, ((arrays.zip quantities).take i).map Prod.snd = quantities.take i := by
    intro i
    rw [List.map_take, hsnd]
  have hslice : ∀ (b i : ℕ) (a : List α) (q : ℕ), b < n → arrays[i]? = some a →
      quantities[i]? = some q →
        ((a.drop (b * q)).take q).length = q ∧
        ∃ tail, ((List.range n).flatMap fun b => (arrays.zip quantities).flatMap fun am =>
            (am.1.drop (b * am.2)).take am.2).drop
              (b * quantities.sum + (quantities.take i).sum) =
          (a.drop (b * q)).take q ++ tail := by
    intro b i a q hb hia hiq
    have hzip : (arrays.zip quantities)[i]? = some (a, q) :=
      List.getElem?_zip_eq_some.mpr ⟨hia, hiq⟩
    have h1 := hdrop b i (a, q) hb hzip
    rw [hsnd, htake] at h1
    refine ⟨?_, h1⟩
    have h2 : a.length = n * q := hband i a q hia hiq
    have h3 : (b + 1) * q ≤ n * q := Nat.mul_le_mul_right q hb
    have h4 : (b + 1) * q = b * q + q := by ring
    rw [List.length_take, List.length_drop, h2]
    omega
  have hsliceEq : ∀ (b i : ℕ) (a : List α) (q : ℕ), b < n → arrays[i]? = some a →
      quantities[i]? = some q →
        jsSlice ((List.range n).flatMap fun b => (arrays.zip quantities).flatMap fun am =>
            (am.1.drop (b * am.2)).take am.2)
            ((b * quantities.sum + (quantities.take i).sum : ℕ) : ℤ)
            ((b * quantities.sum + (quantities.take i).sum + q : ℕ) : ℤ) =
          jsSlice a ((b * q : ℕ) : ℤ) (((b + 1) * q : ℕ) : ℤ) := by
    intro b i a q hb hia hiq
    obtain ⟨hq, tail, htail⟩ := hslice b i a q hb hia hiq
    have h4 : (b + 1) * q - b * q = q := by
      have : (b + 1) * q = b * q + q := by ring
      omega
    rw [jsSlice_natCast, jsSlice_natCast, htail, Nat.add_sub_cancel_left, h4,
      List.take_left' hq]
  refine ⟨?_, ?_, hsliceEq, ?_⟩
  · have hmap : (arrays.zip quantities).map (fun am => am.1.length) =
        arrays.map List.length := by
      conv_rhs => rw [← hfst, List.map_map]
      rfl
    rw [hlength, hmap]
  · intro b i j a q hb hia hiq hj
    obtain ⟨hq, tail, htail⟩ := hslice b i a q hb hia hiq
    have h2 : a.length = n * q := hband i a q hia hiq
    have h3 : (b + 1) * q ≤ n * q := Nat.mul_le_mul_right q hb
    have h4 : (b + 1) * q = b * q + q := by ring
    refine ⟨by omega, ?_⟩
    rw [← List.getElem?_drop, htail, List.getElem?_append_left (by rw [hq]; exact hj),
      List.getElem?_take_of_lt hj, List.getElem?_drop]
  · intro A B qa qb b hAB hq hb
    subst hAB hq
    have h := hsliceEq b 0 A qa hb (by simp) (by simp)
    simpa using h

/-- C1: for at least two arrays and quantities that pass validation (positive integers,
every array of length `n` times its quantity), `interleaveArrays` returns an array whose
length is the sum of the input lengths and whose element `b * S + o_i + j` is element
`b * q_i + j` of array `i`, where `S` is the sum of the quantities and `o_i` the sum of the
quantities before position `i`; re-extracting the slice of array `i` in band `b` from the
output gives `arrays[i].slice(b * q_i, (b + 1) * q_i)`, in particular for two arrays
`A`, `B` the output slice from `b * (qa + qb)` to `b * (qa + qb) + qa` is
`A.slice(b * qa, (b + 1) * qa)`. -/
theorem interleaveArrays_layout {α : Type} (arrays : List (List α)) (quantities : List ℕ)
    (n : ℕ) (hk : 2 ≤ arrays.length) (hlen : quantities.length = arrays.length)
    (hpos : ∀ q ∈ quantities, 1 ≤ q)
    (hband : ∀ (i : ℕ) (a : List α) (q : ℕ),
      arrays[i]? = some a → quantities[i]? = some q → a.length = n * q) :
    ∃ out, interleaveArrays arrays (Quantities.array (quantities.map (Nat.cast : ℕ → ℚ))) =
        Except.ok out ∧
      out.length = (arrays.map List.length).sum ∧
      (∀ (b i j : ℕ) (a : List α) (q : ℕ), b < n → arrays[i]? = some a →
        quantities[i]? = some q → j < q →
          b * q + j < a.length ∧
          out[b * quantities.sum + (quantities.take i).sum + j]? = a[b * q + j]?) ∧
      (∀ (b i : ℕ) (a : List α) (q : ℕ), b < n → arrays[i]? = some a →
        quantities[i]? = some q →
          jsSlice out ((b * quantities.sum + (quantities.take i).sum : ℕ) : ℤ)
              ((b * quantities.sum + (quantities.take i).sum + q : ℕ) : ℤ) =
            jsSlice a ((b * q : ℕ) : ℤ) (((b + 1) * q : ℕ) : ℤ)) ∧
      (∀ (A B : List α) (qa qb b : ℕ), arrays = [A, B] → quantities = [qa, qb] → b < n →
          jsSlice out ((b * (qa + qb) : ℕ) : ℤ) ((b * (qa + qb) + qa : ℕ) : ℤ) =
            jsSlice A ((b * qa : ℕ) : ℤ) (((b + 1) * qa : ℕ) : ℤ)) :=
  interleaveArrays_bands_layout arrays quantities n hk hlen hpos hband

theorem interleaveArrays_layout_witness :
    ∃ out : List ℕ, interleaveArrays [[1, 2, 3, 4], [5, 6]]
        (Quantities.array (([2, 1] : List ℕ).map (Nat.cast : ℕ → ℚ))) = Except.ok out ∧
      out.length = 6 ∧ out[3 + 2 + 0]? = some 6 := by
  obtain ⟨out, hout, hlength, helem, -⟩ :=
    interleaveArrays_layout ([[1, 2, 3, 4], [5, 6]] : List (List ℕ)) [2, 1] 2
      (by decide) (by decide) (by decide)
      (by
        intro i a q ha hq
        match i, ha, hq with
        | 0, ha, hq =>
          simp only [List.getElem?_cons_zero, Option.some.injEq] at ha hq
          subst ha hq
          rfl
        | 1, ha, hq =>
          simp only [List.getElem?_cons_succ, List.getElem?_cons_zero,
            Option.some.injEq] at ha hq
          subst ha hq
          rfl
        | k + 2, ha, _ => simp at ha)
  refine ⟨out, hout, hlength, ?_⟩
  have h := (helem 1 1 0 [5, 6] 1 (by decide) rfl rfl (by decide)).2
  simpa using h

/-! ## Lemmas on `parseObj` -/

theorem parseFaceCorner_error (token : Option (List Char)) (e : JsError)
    (h : parseFaceCorner token = Except.error e) : e = JsError.typeError "split" := by
  cases token with
  | none =>
    simp only [parseFaceCorner] at h
    exact (Except.error.inj h).symm
  | some t => simp [parseFaceCorner, pure, Except.pure] at h

/-- An exception raised while a line is processed is one of three kinds. -/
theorem parseLine_error_kinds (st : ParseState) (index : ℕ) (line : List Char) (e : JsError)
    (h : parseLine st index line = Except.error e) :
    e = JsError.multipleObjectNames index ∨ e = JsError.referenceError "logWarning" ∨
      e = JsError.typeError "split" := by
  unfold parseLine at h
  simp only [] at h
  split_ifs at h with h1 h2 h3 h4 h5 h6
  · simp [pure, Except.pure] at h
  · cases hn : st.name with
    | none => simp [hn, pure, Except.pure] at h
    | some x =>
      simp only [hn, throwJsError] at h
      exact Or.inl (Except.error.inj h).symm
  · simp [pure, Except.pure] at h
  · simp [pure, Except.pure] at h
  · simp [pure, Except.pure] at h
  · right; right
    cases h1c : parseFaceCorner (splitChar ' ' line)[1]? with
    | error e1 =>
      simp only [h1c, bind, Except.bind] at h
      rw [← Except.error.inj h]
      exact parseFaceCorner_error _ _ h1c
    | ok c1 =>
      cases h2c : parseFaceCorner (splitChar ' ' line)[2]? with
      | error e2 =>
        simp only [h1c, h2c, bind, Except.bind] at h
        rw [← Except.error.inj h]
        exact parseFaceCorner_error _ _ h2c
      | ok c2 =>
        cases h3c : parseFaceCorner (splitChar ' ' line)[3]? with
        | error e3 =>
          simp only [h1c, h2c, h3c, bind, Except.bind] at h
          rw [← Except.error.inj h]
          exact parseFaceCorner_error _ _ h3c
        | ok c3 => simp [h1c, h2c, h3c, bind, Except.bind, pure, Except.pure] at h
  · exact Or.inr (Or.inl (Except.error.inj h).symm)

theorem parseLine_object_named (st : ParseState) (index : ℕ) (line : List Char)
    (name : List Char) (ho : (splitChar ' ' line).headD [] = "o".toList)
    (hn : st.name = some name) :
    parseLine st index line = Except.error (JsError.multipleObjectNames index) := by
  have hnot : ¬ ("o".toList ∈ ignoredLines) := by decide
  unfold parseLine
  simp only [ho, hnot, if_false, if_true, hn, throwJsError]

theorem parseLine_object_unnamed (st : ParseState) (index : ℕ) (line : List Char)
    (ho : (splitChar ' ' line).headD [] = "o".toList) (hn : st.name = none) :
    parseLine st index line =
      Except.ok { st with name := (splitChar ' ' line)[1]? } := by
  have hnot : ¬ ("o".toList ∈ ignoredLines) := by decide
  unfold parseLine
  simp only [ho, hnot, if_false, if_true, hn]
  rfl

/-- A line whose first token is not `o` leaves the name as it is. -/
theorem parseLine_name_eq (st st1 : ParseState) (index : ℕ) (line : List Char)
    (ho : (splitChar ' ' line).headD [] ≠ "o".toList)
    (h : parseLine st index line = Except.ok st1) : st1.name = st.name := by
  unfold parseLine at h
  simp only [] at h
  split_ifs at h with h1 h2 h3 h4 h5
  · rw [← Except.ok.inj h]
  · rw [← Except.ok.inj h]
  · rw [← Except.ok.inj h]
  · rw [← Except.ok.inj h]
  · cases h1c : parseFaceCorner (splitChar ' ' line)[1]? with
    | error e1 => simp [h1c, bind, Except.bind] at h
    | ok c1 =>
      cases h2c : parseFaceCorner (splitChar ' ' line)[2]? with
      | error e2 => simp [h1c, h2c, bind, Except.bind] at h
      | ok c2 =>
        cases h3c : parseFaceCorner (splitChar ' ' line)[3]? with
        | error e3 => simp [h1c, h2c, h3c, bind, Except.bind] at h
        | ok c3 =>
          simp only [h1c, h2c, h3c, bind, Except.bind, pure, Except.pure] at h
          rw [← Except.ok.inj h]

/-- Once the name is set, every line that is processed without exception keeps it. -/
theorem parseLine_name_some (st st1 : ParseState) (index : ℕ) (line : List Char)
    (name : List Char) (hn : st.name = some name)
    (h : parseLine st index line = Except.ok st1) : st1.name = some name := by
  by_cases ho : (splitChar ' ' line).headD [] = "o".toList
  · rw [parseLine_object_named st index line name ho hn] at h
    exact Except.noConfusion h
  · rw [parseLine_name_eq st st1 index line ho h, hn]

/-- If the name is set, or a named `o` line comes before line `j`, and line `j` is an `o`
line, the loop over the lines ends in an exception. -/
theorem parseLines_second_object :
    ∀ (lines : List (List Char)) (st : ParseState) (index j : ℕ),
      (st.name.isSome ∨ ∃ (i : ℕ) (line : List Char) (name : List Char), i < j ∧
        lines[i]? = some line ∧ (splitChar ' ' line).headD [] = "o".toList ∧
        (splitChar ' ' line)[1]? = some name) →
      (∃ line, lines[j]? = some line ∧ (splitChar ' ' line).headD [] = "o".toList) →
      ∃ e, parseLines st index lines = Except.error e ∧
        ((∃ k, e = JsError.multipleObjectNames k) ∨ e = JsError.referenceError "logWarning" ∨
          e = JsError.typeError "split")
  | [], st, index, j, _, ⟨line, hj, _⟩ => by simp at hj
  | l :: rest, st, index, j, hpre, ⟨line, hj, hjo⟩ => by
    unfold parseLines
    cases hl : parseLine st index l with
    | error e =>
      refine ⟨e, rfl, ?_⟩
      rcases parseLine_error_kinds st index l e hl with h | h | h
      · exact Or.inl ⟨index, h⟩
      · exact Or.inr (Or.inl h)
      · exact Or.inr (Or.inr h)
    | ok st1 =>
      simp only []
      cases j with
      | zero =>
        simp only [List.getElem?_cons_zero, Option.some.injEq] at hj
        subst hj
        rcases hpre with hsome | ⟨i, _, _, hi, _⟩
        · obtain ⟨name, hname⟩ := Option.isSome_iff_exists.mp hsome
          rw [parseLine_object_named st index l name hjo hname] at hl
          exact Except.noConfusion hl
        · exact absurd hi (Nat.not_lt_zero i)
      | succ j1 =>
        have hj1 : rest[j1]? = some line := by simpa using hj
        apply parseLines_second_object rest st1 (index + 1) j1 _ ⟨line, hj1, hjo⟩
        rcases hpre with hsome | ⟨i, li, name, hi, hli, hlio, hliname⟩
        · obtain ⟨name, hname⟩ := Option.isSome_iff_exists.mp hsome
          left
          rw [parseLine_name_some st st1 index l name hname hl]
          rfl
        · cases i with
          | zero =>
            simp only [List.getElem?_cons_zero, Option.some.injEq] at hli
            subst hli
            left
            cases hn : st.name with
            | none =>
              rw [parseLine_object_unnamed st index l hlio hn] at hl
              rw [← Except.ok.inj hl]
              simp [hliname]
            | some nm =>
              rw [parseLine_name_some st st1 index l nm hn hl]
              rfl
          | succ i1 =>
            right
            exact ⟨i1, li, name, by omega, by simpa using hli, hlio, hliname⟩

theorem parseLines_name_eq :
    ∀ (lines : List (List Char)) (st st1 : ParseState) (index : ℕ),
      (∀ line ∈ lines, (splitChar ' ' line).headD [] ≠ "o".toList) →
      parseLines st index lines = Except.ok st1 → st1.name = st.name
  | [], st, st1, index, _, h => by
    simp only [parseLines, pure, Except.pure] at h
    rw [← Except.ok.inj h]
  | l :: rest, st, st1, index, hno, h => by
    unfold parseLines at h
    cases hl : parseLine st index l with
    | error e =>
      rw [hl] at h
      exact Except.noConfusion h
    | ok st2 =>
      rw [hl] at h
      simp only [] at h
      rw [parseLines_name_eq rest st2 st1 (index + 1)
        (fun line hline => hno line (List.mem_cons_of_mem l hline)) h]
      exact parseLine_name_eq st st2 index l (hno l (List.mem_cons_self l rest)) hl

theorem parseFaceCorner_some (t : List Char) :
    ∃ corner, parseFaceCorner (some t) = Except.ok corner :=
  ⟨_, rfl⟩

/-- A line that is ignored, a `v`, `vn` or `vt` line, or an `f` line with at least three
further tokens is processed without exception. -/
theorem parseLine_benign (st : ParseState) (index : ℕ) (line : List Char)
    (h : (splitChar ' ' line).headD [] ∈ ignoredLines ∨
      (splitChar ' ' line).headD [] ∈ ["v".toList, "vn".toList, "vt".toList] ∨
      ((splitChar ' ' line).headD [] = "f".toList ∧ 4 ≤ (splitChar ' ' line).length)) :
    ∃ st1, parseLine st index line = Except.ok st1 := by
  unfold parseLine
  simp only []
  split_ifs with h1 h2 h3 h4 h5 h6
  · exact ⟨_, rfl⟩
  · rcases h with h | h | ⟨h, _⟩
    · exact absurd h h1
    · rw [h2] at h
      exact absurd h (by decide)
    · rw [h2] at h
      exact absurd h (by decide)
  · exact ⟨_, rfl⟩
  · exact ⟨_, rfl⟩
  · exact ⟨_, rfl⟩
  · rcases h with h | h | ⟨_, hlen⟩
    · exact absurd h h1
    · rw [h6] at h
      exact absurd h (by decide)
    · have hget : ∀ k, k < 4 → ∃ t, (splitChar ' ' line)[k]? = some t := by
        intro k hk
        exact ⟨_, List.getElem?_eq_getElem (by omega)⟩
      obtain ⟨t1, ht1⟩ := hget 1 (by omega)
      obtain ⟨t2, ht2⟩ := hget 2 (by omega)
      obtain ⟨t3, ht3⟩ := hget 3 (by omega)
      obtain ⟨c1, hc1⟩ := parseFaceCorner_some t1
      obtain ⟨c2, hc2⟩ := parseFaceCorner_some t2
      obtain ⟨c3, hc3⟩ := parseFaceCorner_some t3
      rw [ht1, ht2, ht3, hc1, hc2, hc3]
      exact ⟨_, rfl⟩
  · rcases h with h | h | ⟨h, _⟩
    · exact absurd h h1
    · simp only [List.mem_cons, List.mem_singleton, List.not_mem_nil, or_false] at h
      rcases h with h | h | h
      · exact absurd h h3
      · exact absurd h h4
      · exact absurd h h5
    · exact absurd h h6

theorem parseLines_benign :
    ∀ (lines : List (List Char)) (st : ParseState) (index : ℕ),
      (∀ line ∈ lines, (splitChar ' ' line).headD [] ∈ ignoredLines ∨
        (splitChar ' ' line).headD [] ∈ ["v".toList, "vn".toList, "vt".toList] ∨
        ((splitChar ' ' line).headD [] = "f".toList ∧ 4 ≤ (splitChar ' ' line).length)) →
      ∃ st1, parseLines st index lines = Except.ok st1
  | [], st, index, _ => ⟨st, rfl⟩
  | l :: rest, st, index, h => by
    obtain ⟨st2, hl⟩ := parseLine_benign st index l (h l (List.mem_cons_self l rest))
    obtain ⟨st1, hrest⟩ := parseLines_benign rest st2 (index + 1)
      (fun line hline => h line (List.mem_cons_of_mem l hline))
    refine ⟨st1, ?_⟩
    unfold parseLines
    rw [hl]
    exact hrest

theorem parseObj_of_parseLines_error (text : String) (e : JsError)
    (h : parseLines (ParseState.mk none [] [] [] []) 0 (splitChar '\n' text.toList) =
      Except.error e) : parseObj text = Except.error e := by
  unfold parseObj
  simp only [h]

theorem parseObj_of_parseLines_unnamed (text : String) (st : ParseState)
    (h : parseLines (ParseState.mk none [] [] [] []) 0 (splitChar '\n' text.toList) =
      Except.ok st) (hn : st.name = none) :
    parseObj text = Except.error JsError.noObjectName := by
  unfold parseObj
  simp only [h, hn, throwJsError]

/-- C8: an unrecognised directive aborts parsing instead of being skipped with a warning.
The text `o Cube` followed by a `v` line parses; with the line `xyz 1 2 3` inserted
between them `parseObj` raises the `ReferenceError` of the unbound `logWarning`. -/
theorem parseObj_unrecognized_directive_aborts :
    parseObj "o Cube\nv 1 2 3" = Except.ok
        { name := "Cube".toList
          positions := [ParsedFloat.mk (some "1".toList), ParsedFloat.mk (some "2".toList),
            ParsedFloat.mk (some "3".toList)]
          texCoords := []
          normals := []
          splitIndices := [] } ∧
      lineTypes "o Cube\nxyz 1 2 3\nv 1 2 3" = ["o".toList, "xyz".toList, "v".toList] ∧
      parseObj "o Cube\nxyz 1 2 3\nv 1 2 3" =
        Except.error (JsError.referenceError "logWarning") :=
  ⟨rfl, rfl, rfl⟩

/-- C9, as stated, fails: the text with the two lines `o` and `o Cube` has two lines whose
first token is `o`, and `parseObj` returns a record for it. -/
theorem parseObj_two_object_lines_accepted :
    lineTypes "o\no Cube" = ["o".toList, "o".toList] ∧
      parseObj "o\no Cube" = Except.ok
        { name := "Cube".toList
          positions := []
          texCoords := []
          normals := []
          splitIndices := [] } :=
  ⟨rfl, rfl⟩

/-- C9 (amended): `parseObj` raises on every text in which a line with first token `o`
that carries a name (a second token) is followed by another line with first token `o`.
The exception is the "Multiple object names" format error, unless an earlier line raised
the `ReferenceError` of an unrecognised directive or the `TypeError` of an `f` line with
fewer than three corner tokens. -/
theorem parseObj_second_object_raises (text : String) (i j : ℕ) (line name : List Char)
    (hij : i < j) (hi : (splitChar '\n' text.toList)[i]? = some line)
    (ho : (splitChar ' ' line).headD [] = "o".toList)
    (hname : (splitChar ' ' line)[1]? = some name)
    (hj : (lineTypes text)[j]? = some "o".toList) :
    ∃ e, parseObj text = Except.error e ∧
      ((∃ k, e = JsError.multipleObjectNames k) ∨ e = JsError.referenceError "logWarning" ∨
        e = JsError.typeError "split") := by
  have hj2 : ∃ l, (splitChar '\n' text.toList)[j]? = some l ∧
      (splitChar ' ' l).headD [] = "o".toList := by
    unfold lineTypes at hj
    rw [List.getElem?_map] at hj
    obtain ⟨l, hl, hlo⟩ := Option.map_eq_some'.mp hj
    exact ⟨l, hl, hlo⟩
  obtain ⟨e, he, hkind⟩ := parseLines_second_object (splitChar '\n' text.toList)
    (ParseState.mk none [] [] [] []) 0 j (Or.inr ⟨i, line, name, hij, hi, ho, hname⟩) hj2
  exact ⟨e, parseObj_of_parseLines_error text e he, hkind⟩

theorem parseObj_second_object_raises_witness :
    ∃ e, parseObj "o Cube\nv 1 2 3\no Sphere" = Except.error e ∧
      ((∃ k, e = JsError.multipleObjectNames k) ∨ e = JsError.referenceError "logWarning" ∨
        e = JsError.typeError "split") :=
  parseObj_second_object_raises "o Cube\nv 1 2 3\no Sphere" 0 2 "o Cube".toList "Cube".toList
    (by decide) rfl rfl rfl rfl

/-- C10, as stated, fails in its parenthesis: the text whose only line is `f` is made of
an `f` line only, and `parseObj` raises a `TypeError` while scanning it, not the
"No object name" error. -/
theorem parseObj_short_face_typeError :
    lineTypes "f" = ["f".toList] ∧
      parseObj "f" = Except.error (JsError.typeError "split") ∧
      parseObj "f" ≠ Except.error JsError.noObjectName :=
  ⟨rfl, rfl, by rw [show parseObj "f" = Except.error (JsError.typeError "split") from rfl]; simp⟩

/-- C10 (amended): `parseObj` never returns a record for a text in which no line has `o`
as its first token: it raises. For a text made only of ignored lines, `v`, `vn`, `vt`
lines and `f` lines with at least three corner tokens it raises the "No object name
defined in OBJ file" error, after scanning all lines. -/
theorem parseObj_without_object_raises (text : String)
    (hno : ∀ t ∈ lineTypes text, t ≠ "o".toList) :
    (∃ e, parseObj text = Except.error e) ∧
      ((∀ line ∈ splitChar '\n' text.toList,
          (splitChar ' ' line).headD [] ∈ ignoredLines ∨
          (splitChar ' ' line).headD [] ∈ ["v".toList, "vn".toList, "vt".toList] ∨
          ((splitChar ' ' line).headD [] = "f".toList ∧ 4 ≤ (splitChar ' ' line).length)) →
        parseObj text = Except.error JsError.noObjectName) := by
  have hno2 : ∀ line ∈ splitChar '\n' text.toList,
      (splitChar ' ' line).headD [] ≠ "o".toList := by
    intro line hline
    exact hno _ (List.mem_map_of_mem _ hline)
  have hunnamed : ∀ st, parseLines (ParseState.mk none [] [] [] []) 0
      (splitChar '\n' text.toList) = Except.ok st →
        parseObj text = Except.error JsError.noObjectName := by
    intro st hst
    exact parseObj_of_parseLines_unnamed text st hst
      (parseLines_name_eq _ _ st 0 hno2 hst)
  constructor
  · cases h : parseLines (ParseState.mk none [] [] [] []) 0 (splitChar '\n' text.toList) with
    | error e => exact ⟨e, parseObj_of_parseLines_error text e h⟩
    | ok st => exact ⟨_, hunnamed st h⟩
  · intro hbenign
    obtain ⟨st, hst⟩ := parseLines_benign (splitChar '\n' text.toList)
      (ParseState.mk none [] [] [] []) 0 hbenign
    exact hunnamed st hst

theorem parseObj_without_object_raises_witness :
    (∃ e, parseObj "# cube\nv 1 2 3\nf 1/1/1 1/1/1 1/1/1" = Except.error e) ∧
      parseObj "# cube\nv 1 2 3\nf 1/1/1 1/1/1 1/1/1" = Except.error JsError.noObjectName :=
  ⟨(parseObj_without_object_raises "# cube\nv 1 2 3\nf 1/1/1 1/1/1 1/1/1" (by decide)).1,
    (parseObj_without_object_raises "# cube\nv 1 2 3\nf 1/1/1 1/1/1 1/1/1" (by decide)).2
      (by decide)⟩

/-! ## Lemmas on the primitive generators -/

theorem length_flatMap_const {α β : Type} (f : β → List α) (c : ℕ) (l : List β)
    (h : ∀ p ∈ l, (f p).length = c) : (l.flatMap f).length = l.length * c := by
  rw [List.length_flatMap]
  exact sum_map_eq_mul (fun p => (f p).length) c l h

/-- Arrays that hold `n` bands each are interleaved without exception, and the result
holds all their elements. -/
theorem interleaveArrays_length {α : Type} (arrays : List (List α)) (ns : List ℕ) (n : ℕ)
    (hk : 2 ≤ arrays.length) (hpos : ∀ q ∈ ns, 1 ≤ q)
    (h : List.Forall₂ (fun a q => a.length = n * q) arrays ns) :
    ∃ out, interleaveArrays arrays (Quantities.array (ns.map (Nat.cast : ℕ → ℚ))) =
        Except.ok out ∧ out.length = (arrays.map List.length).sum := by
  obtain ⟨hlen, hzip⟩ := List.forall₂_iff_zip.mp h
  obtain ⟨out, hout, hlength, -⟩ := interleaveArrays_bands_layout arrays ns n hk hlen.symm hpos
    (fun i a q ha hq =>
      hzip (List.mem_iff_getElem?.mpr ⟨i, List.getElem?_zip_eq_some.mpr ⟨ha, hq⟩⟩))
  exact ⟨out, hout, hlength⟩

theorem cylinderArrays_length {α : Type} [Field α] (math : JsMath α) (radius height : α)
    (radialSegments heightSegments : ℕ) (hh : 1 ≤ heightSegments) :
    (cylinderArrays math radius height radialSegments heightSegments).1.length =
        (radialSegments + 1) * (heightSegments + 1) * 3 ∧
      (cylinderArrays math radius height radialSegments heightSegments).2.1.length =
        (radialSegments + 1) * (heightSegments + 1) * 3 ∧
      (cylinderArrays math radius height radialSegments heightSegments).2.2.length =
        (radialSegments + 1) * (heightSegments + 1) * 2 := by
  have hcount : (radialSegments + 1) + (radialSegments + 1) +
      (heightSegments - 1) * (radialSegments + 1) =
        (radialSegments + 1) * (heightSegments + 1) := by
    obtain ⟨k, rfl⟩ : ∃ k, heightSegments = k + 1 := ⟨heightSegments - 1, by omega⟩
    simp only [Nat.add_sub_cancel]
    ring
  unfold cylinderArrays
  simp only []
  refine ⟨?_, ?_, ?_⟩
  · rw [length_flatMap_const _ 3]
    · simp only [List.length_append, List.length_map, List.length_range]
      rw [length_flatMap_const _ (radialSegments + 1)]
      · rw [List.length_range', hcount]
      · intro y _
        simp
    · intro p hp
      simp only [List.mem_append, List.mem_map, List.mem_flatMap] at hp
      rcases hp with (⟨x, _, rfl⟩ | ⟨x, _, rfl⟩) | ⟨y, _, x, _, rfl⟩ <;> rfl
  · rw [length_flatMap_const _ 3]
    · simp only [List.length_append, List.length_map, List.length_range]
      rw [length_flatMap_const _ (radialSegments + 1)]
      · rw [List.length_range', hcount]
      · intro y _
        simp
    · intro p hp
      simp only [List.mem_append, List.mem_map, List.mem_flatMap] at hp
      rcases hp with (⟨x, _, rfl⟩ | ⟨x, _, rfl⟩) | ⟨y, _, x, _, rfl⟩ <;> rfl
  · rw [length_flatMap_const _ 2]
    · simp only [List.length_append, List.length_map, List.length_range]
      rw [length_flatMap_const _ (radialSegments + 1)]
      · rw [List.length_range', hcount]
      · intro y _
        simp
    · intro p hp
      simp only [List.mem_append, List.mem_map, List.mem_flatMap] at hp
      rcases hp with (⟨x, _, rfl⟩ | ⟨x, _, rfl⟩) | ⟨y, _, x, _, rfl⟩ <;> rfl

theorem sphereArrays_length {α : Type} [Field α] (math : JsMath α) (radius : α)
    (latitudeBands longitudeBands : ℕ) :
    (sphereArrays math radius latitudeBands longitudeBands).1.length =
        (latitudeBands + 1) * (longitudeBands + 1) * 3 ∧
      (sphereArrays math radius latitudeBands longitudeBands).2.1.length =
        (latitudeBands + 1) * (longitudeBands + 1) * 3 ∧
      (sphereArrays math radius latitudeBands longitudeBands).2.2.length =
        (latitudeBands + 1) * (longitudeBands + 1) * 2 := by
  unfold sphereArrays
  simp only []
  refine ⟨?_, ?_, ?_⟩
  · rw [length_flatMap_const _ 3]
    · rw [length_flatMap_const _ (longitudeBands + 1)]
      · rw [List.length_range]
      · intro lat _
        simp
    · intro p hp
      simp only [List.mem_map, List.mem_flatMap] at hp
      obtain ⟨lat, _, lon, _, rfl⟩ := hp
      rfl
  · rw [length_flatMap_const _ 3]
    · rw [length_flatMap_const _ (longitudeBands + 1)]
      · rw [List.length_range]
      · intro lat _
        simp
    · intro p hp
      simp only [List.mem_map, List.mem_flatMap] at hp
      obtain ⟨lat, _, lon, _, rfl⟩ := hp
      rfl
  · rw [length_flatMap_const _ 2]
    · rw [length_flatMap_const _ (longitudeBands + 1)]
      · rw [List.length_range]
      · intro lat _
        simp
    · intro p hp
      simp only [List.mem_map, List.mem_flatMap] at hp
      obtain ⟨lat, _, lon, _, rfl⟩ := hp
      rfl

/-- Three arrays of `vertexCount` bands with 3, 3 and 2 components are interleaved into a
stream of 8 numbers per vertex. -/
theorem interleaveArrays_three_channels {α : Type} (positions normals texCoords : List α)
    (vertexCount : ℕ) (hp : positions.length = vertexCount * 3)
    (hn : normals.length = vertexCount * 3) (ht : texCoords.length = vertexCount * 2) :
    ∃ stream, interleaveArrays [positions, normals, texCoords] (Quantities.array [3, 3, 2]) =
        Except.ok stream ∧ stream.length = 8 * vertexCount := by
  obtain ⟨out, hout, hlength⟩ := interleaveArrays_length [positions, normals, texCoords]
    [3, 3, 2] vertexCount (by simp) (by decide) (by simp [hp, hn, ht])
  refine ⟨out, by simpa using hout, ?_⟩
  rw [hlength]
  simp only [List.map_cons, List.map_nil, List.sum_cons, List.sum_nil, hp, hn, ht]
  ring

theorem createCylinderAttributes_length {α : Type} [Field α] (math : JsMath α)
    (radius height : α) (radialSegments heightSegments : ℕ) (hh : 1 ≤ heightSegments) :
    ∃ stream, createCylinderAttributes math radius height radialSegments heightSegments =
        Except.ok stream ∧
      stream.length = 8 * ((radialSegments + 1) * (heightSegments + 1)) := by
  obtain ⟨h1, h2, h3⟩ := cylinderArrays_length math radius height radialSegments
    heightSegments hh
  obtain ⟨out, hout, hlength⟩ := interleaveArrays_length
    [(cylinderArrays math radius height radialSegments heightSegments).1,
      (cylinderArrays math radius height radialSegments heightSegments).2.1,
      (cylinderArrays math radius height radialSegments heightSegments).2.2]
    [3, 3, 2] ((radialSegments + 1) * (heightSegments + 1)) (by simp) (by decide)
    (by simp [h1, h2, h3])
  refine ⟨out, ?_, ?_⟩
  · unfold createCylinderAttributes
    simpa using hout
  · rw [hlength]
    simp only [List.map_cons, List.map_nil, List.sum_cons, List.sum_nil, h1, h2, h3]
    ring

theorem createSphereAttributes_length {α : Type} [Field α] (math : JsMath α) (radius : α)
    (latitudeBands longitudeBands : ℕ) (options : SphereOptions) :
    ∃ stream, createSphereAttributes math radius latitudeBands longitudeBands options =
        Except.ok stream ∧
      stream.length = (3 + (if options.normals.getD true then 3 else 0) +
        (if options.uvs.getD true then 2 else 0)) *
          ((latitudeBands + 1) * (longitudeBands + 1)) := by
  obtain ⟨h1, h2, h3⟩ := sphereArrays_length math radius latitudeBands longitudeBands
  unfold createSphereAttributes
  cases hn : options.normals.getD true <;> cases hu : options.uvs.getD true
  · refine ⟨(sphereArrays math radius latitudeBands longitudeBands).1, ?_, ?_⟩
    · simp [interleaveArrays, pure, Except.pure]
    · simp [h1]; ring
  · obtain ⟨out, hout, hlength⟩ := interleaveArrays_length
      [(sphereArrays math radius latitudeBands longitudeBands).1,
        (sphereArrays math radius latitudeBands longitudeBands).2.2]
      [3, 2] ((latitudeBands + 1) * (longitudeBands + 1)) (by simp) (by decide)
      (by simp [h1, h3])
    refine ⟨out, by simpa using hout, ?_⟩
    rw [hlength]
    simp only [List.map_cons, List.map_nil, List.sum_cons, List.sum_nil, h1, h3]
    simp; ring
  · obtain ⟨out, hout, hlength⟩ := interleaveArrays_length
      [(sphereArrays math radius latitudeBands longitudeBands).1,
        (sphereArrays math radius latitudeBands longitudeBands).2.1]
      [3, 3] ((latitudeBands + 1) * (longitudeBands + 1)) (by simp) (by decide)
      (by simp [h1, h2])
    refine ⟨out, by simpa using hout, ?_⟩
    rw [hlength]
    simp only [List.map_cons, List.map_nil, List.sum_cons, List.sum_nil, h1, h2]
    simp; ring
  · obtain ⟨out, hout, hlength⟩ := interleaveArrays_length
      [(sphereArrays math radius latitudeBands longitudeBands).1,
        (sphereArrays math radius latitudeBands longitudeBands).2.1,
        (sphereArrays math radius latitudeBands longitudeBands).2.2]
      [3, 3, 2] ((latitudeBands + 1) * (longitudeBands + 1)) (by simp) (by decide)
      (by simp [h1, h2, h3])
    refine ⟨out, by simpa using hout, ?_⟩
    rw [hlength]
    simp only [List.map_cons, List.map_nil, List.sum_cons, List.sum_nil, h1, h2, h3]
    simp; ring

theorem createCubeAttributes_length {α : Type} [Field α] (options : CubeOptions α) :
    ∃ stream, createCubeAttributes options = Except.ok stream ∧ stream.length = 8 * 24 := by
  unfold createCubeAttributes
  simp only []
  exact interleaveArrays_three_channels _ _ _ 24 rfl rfl rfl

theorem createCylinderIndices_lt (radialSegments heightSegments : ℕ)
    (hh : 1 ≤ heightSegments) :
    ∀ i ∈ createCylinderIndices radialSegments heightSegments,
      i < (radialSegments + 1) * (heightSegments + 1) := by
  intro i hi
  obtain ⟨k, rfl⟩ : ∃ k, heightSegments = k + 1 := ⟨heightSegments - 1, by omega⟩
  have hV : (radialSegments + 1) * (k + 1 + 1) =
      (radialSegments + 1) * k + 2 * radialSegments + 2 := by ring
  rw [hV]
  unfold createCylinderIndices at hi
  simp only [List.mem_append, List.mem_flatMap, List.mem_range, List.mem_range',
    Nat.add_sub_cancel, List.mem_cons, List.mem_singleton, List.not_mem_nil, or_false] at hi
  rcases hi with (⟨x, hx, hi⟩ | ⟨x, hx, hi⟩) | ⟨y, ⟨j, hj, rfl⟩, x, hx, hi⟩
  · rcases hi with rfl | rfl | rfl <;> omega
  · rcases hi with rfl | rfl | rfl <;> omega
  · have h1 : (1 + 1 * j - 1) * (radialSegments + 1) ≤ (radialSegments + 1) * k := by
      have : 1 + 1 * j - 1 = j := by omega
      rw [this, Nat.mul_comm]
      exact Nat.mul_le_mul_left _ (by omega)
    have h2 : (1 + 1 * j - 1) * (radialSegments + 1) + (radialSegments + 1) ≤
        (radialSegments + 1) * k := by
      have : 1 + 1 * j - 1 = j := by omega
      rw [this]
      have h3 : (j + 1) * (radialSegments + 1) ≤ k * (radialSegments + 1) :=
        Nat.mul_le_mul_right _ (by omega)
      have h4 : (j + 1) * (radialSegments + 1) =
          j * (radialSegments + 1) + (radialSegments + 1) := by ring
      rw [Nat.mul_comm (radialSegments + 1) k]
      omega
    rcases hi with rfl | rfl | rfl | rfl | rfl | rfl <;> omega

theorem createSphereIndices_lt (latitudeBands longitudeBands : ℕ) :
    ∀ i ∈ createSphereIndices latitudeBands longitudeBands,
      i < (latitudeBands + 1) * (longitudeBands + 1) := by
  intro i hi
  unfold createSphereIndices at hi
  simp only [List.mem_flatMap, List.mem_range, List.mem_cons, List.mem_singleton,
    List.not_mem_nil, or_false] at hi
  obtain ⟨lat, hlat, lon, hlon, hi⟩ := hi
  have h1 : (lat + 1) * (longitudeBands + 1) ≤ latitudeBands * (longitudeBands + 1) :=
    Nat.mul_le_mul_right _ hlat
  have h2 : (lat + 1) * (longitudeBands + 1) =
      lat * (longitudeBands + 1) + (longitudeBands + 1) := by ring
  have h3 : (latitudeBands + 1) * (longitudeBands + 1) =
      latitudeBands * (longitudeBands + 1) + (longitudeBands + 1) := by ring
  rw [h3]
  rcases hi with rfl | rfl | rfl | rfl | rfl | rfl <;> omega

/-! ## The key `splitIndex.join("|")` determines the triple -/

theorem digitChar_mem_digits : ∀ d, d < 10 → Nat.digitChar d ∈ "0123456789".toList := by
  decide

theorem digitChar_injOn : ∀ d, d < 10 → ∀ e, e < 10 → Nat.digitChar d = Nat.digitChar e →
    d = e := by
  decide

theorem map_digitChar_injective :
    ∀ (l1 l2 : List ℕ), (∀ d ∈ l1, d < 10) → (∀ d ∈ l2, d < 10) →
      l1.map Nat.digitChar = l2.map Nat.digitChar → l1 = l2
  | [], [], _, _, _ => rfl
  | [], _ :: _, _, _, h => by simp at h
  | _ :: _, [], _, _, h => by simp at h
  | a :: l1, b :: l2, h1, h2, h => by
    simp only [List.map_cons, List.cons.injEq] at h
    have hab := digitChar_injOn a (h1 a (List.mem_cons_self a l1)) b
      (h2 b (List.mem_cons_self b l2)) h.1
    have hl := map_digitChar_injective l1 l2 (fun d hd => h1 d (List.mem_cons_of_mem a hd))
      (fun d hd => h2 d (List.mem_cons_of_mem b hd)) h.2
    rw [hab, hl]

theorem natToString_chars (n : ℕ) : ∀ c ∈ natToString n, c ∈ "0123456789".toList := by
  intro c hc
  unfold natToString at hc
  split_ifs at hc with h0
  · rw [List.mem_singleton] at hc
    rw [hc]
    decide
  · rw [List.mem_map] at hc
    obtain ⟨d, hd, rfl⟩ := hc
    exact digitChar_mem_digits d (Nat.digits_lt_base (by decide) (List.mem_reverse.mp hd))

theorem natToString_injective (n m : ℕ) (h : natToString n = natToString m) : n = m := by
  have hzero : ∀ k, k ≠ 0 → ['0'] ≠ (Nat.digits 10 k).reverse.map Nat.digitChar := by
    intro k hk hcon
    have hne : Nat.digits 10 k ≠ [] := Nat.digits_ne_nil_iff_ne_zero.mpr hk
    have hlast := Nat.getLast_digit_ne_zero 10 hk
    have hrev : (Nat.digits 10 k).reverse = [0] := by
      apply map_digitChar_injective
      · intro d hd
        exact Nat.digits_lt_base (by decide) (List.mem_reverse.mp hd)
      · intro d hd
        rw [List.mem_singleton] at hd
        omega
      · rw [← hcon]
        rfl
    have hdig : Nat.digits 10 k = [0] := by
      have := congrArg List.reverse hrev
      simpa using this
    apply hlast
    simp [hdig]
  unfold natToString at h
  split_ifs at h with hn hm hm
  · rw [hn, hm]
  · exact absurd h (hzero m hm)
  · exact absurd h.symm (hzero n hn)
  · have hrev := map_digitChar_injective _ _
      (fun d hd => Nat.digits_lt_base (by decide) (List.mem_reverse.mp hd))
      (fun d hd => Nat.digits_lt_base (by decide) (List.mem_reverse.mp hd)) h
    exact Nat.digits_inj_iff.mp (List.reverse_injective hrev)

theorem numberToString_chars (x : JsIndex) :
    ∀ c ∈ numberToString x, c ∈ "0123456789-Na".toList := by
  have hdigits : ∀ c ∈ "0123456789".toList, c ∈ "0123456789-Na".toList := by decide
  have hnan : ∀ c ∈ "NaN".toList, c ∈ "0123456789-Na".toList := by decide
  intro c hc
  match x, hc with
  | none, hc => exact hnan c hc
  | some (Int.ofNat n), hc => exact hdigits c (natToString_chars n c hc)
  | some (Int.negSucc n), hc =>
    simp only [numberToString, List.mem_cons] at hc
    rcases hc with rfl | hc
    · decide
    · exact hdigits c (natToString_chars (n + 1) c hc)

theorem numberToString_no_separator (x : JsIndex) : '|' ∉ numberToString x := by
  intro h
  have := numberToString_chars x '|' h
  revert this
  decide

theorem numberToString_injective (x y : JsIndex) (h : numberToString x = numberToString y) :
    x = y := by
  have hN : ∀ n, 'N' ∉ natToString n := by
    intro n hn
    have := natToString_chars n 'N' hn
    revert this
    decide
  have hminus : ∀ n, '-' ∉ natToString n := by
    intro n hn
    have := natToString_chars n '-' hn
    revert this
    decide
  match x, y, h with
  | none, none, _ => rfl
  | none, some (Int.ofNat n), h =>
    exfalso
    apply hN n
    simp only [numberToString] at h
    rw [← h]
    decide
  | none, some (Int.negSucc n), h =>
    simp only [numberToString] at h
    exact absurd (List.cons.inj h).1 (by decide)
  | some (Int.ofNat n), none, h =>
    exfalso
    apply hN n
    simp only [numberToString] at h
    rw [h]
    decide
  | some (Int.negSucc n), none, h =>
    simp only [numberToString] at h
    exact absurd (List.cons.inj h).1 (by decide)
  | some (Int.ofNat n), some (Int.ofNat m), h =>
    simp only [numberToString] at h
    rw [natToString_injective n m h]
  | some (Int.ofNat n), some (Int.negSucc m), h =>
    exfalso
    apply hminus n
    simp only [numberToString] at h
    rw [h]
    exact List.mem_cons_self _ _
  | some (Int.negSucc n), some (Int.ofNat m), h =>
    exfalso
    apply hminus m
    simp only [numberToString] at h
    rw [← h]
    exact List.mem_cons_self _ _
  | some (Int.negSucc n), some (Int.negSucc m), h =>
    simp only [numberToString] at h
    have := natToString_injective _ _ (List.cons.inj h).2
    have hnm : n = m := by omega
    rw [hnm]

theorem append_separator_inj {c : Char} :
    ∀ (a a1 b b1 : List Char), c ∉ a → c ∉ a1 → a ++ c :: b = a1 ++ c :: b1 →
      a = a1 ∧ b = b1
  | [], [], b, b1, _, _, h => ⟨rfl, (List.cons.inj h).2⟩
  | [], x :: a1, b, b1, _, h1, h => by
    simp only [List.nil_append, List.cons_append, List.cons.injEq] at h
    exact absurd (h.1 ▸ List.mem_cons_self x a1) h1
  | x :: a, [], b, b1, h0, _, h => by
    simp only [List.nil_append, List.cons_append, List.cons.injEq] at h
    exact absurd (h.1 ▸ List.mem_cons_self x a) h0
  | x :: a, y :: a1, b, b1, h0, h1, h => by
    simp only [List.cons_append, List.cons.injEq] at h
    obtain ⟨hxy, hrest⟩ := h
    obtain ⟨ha, hb⟩ := append_separator_inj a a1 b b1
      (fun hm => h0 (List.mem_cons_of_mem x hm)) (fun hm => h1 (List.mem_cons_of_mem y hm)) hrest
    exact ⟨by rw [hxy, ha], hb⟩

/-- Two triples have the same key exactly when they are equal in all three components. -/
theorem vertexKey_injective (s t : JsIndex × JsIndex × JsIndex)
    (h : vertexKey s = vertexKey t) : s = t := by
  obtain ⟨s1, s2, s3⟩ := s
  obtain ⟨t1, t2, t3⟩ := t
  simp only [vertexKey] at h
  obtain ⟨h1, hrest⟩ := append_separator_inj _ _ _ _ (numberToString_no_separator s1)
    (numberToString_no_separator t1) h
  obtain ⟨h2, h3⟩ := append_separator_inj _ _ _ _ (numberToString_no_separator s2)
    (numberToString_no_separator t2) hrest
  rw [numberToString_injective s1 t1 h1, numberToString_injective s2 t2 h2,
    numberToString_injective s3 t3 h3]

/-! ## Lemmas on `firstOccurrences` -/

theorem firstOccurrences_append_singleton {β : Type} [DecidableEq β] (l : List β) (t : β) :
    firstOccurrences (l ++ [t]) =
      if t ∈ firstOccurrences l then firstOccurrences l else firstOccurrences l ++ [t] := by
  simp only [firstOccurrences, List.foldl_append, List.foldl_cons, List.foldl_nil]

theorem mem_firstOccurrences {β : Type} [DecidableEq β] (l : List β) (t : β) :
    t ∈ firstOccurrences l ↔ t ∈ l := by
  induction l using List.reverseRecOn with
  | nil => simp [firstOccurrences]
  | append_singleton l x ih =>
    rw [firstOccurrences_append_singleton]
    by_cases hx : x ∈ firstOccurrences l
    · rw [if_pos hx, List.mem_append, List.mem_singleton, ih]
      constructor
      · exact Or.inl
      · rintro (h | rfl)
        · exact h
        · exact ih.mp hx
    · rw [if_neg hx, List.mem_append, List.mem_append, ih]

theorem nodup_firstOccurrences {β : Type} [DecidableEq β] (l : List β) :
    (firstOccurrences l).Nodup := by
  induction l using List.reverseRecOn with
  | nil => simp [firstOccurrences]
  | append_singleton l x ih =>
    rw [firstOccurrences_append_singleton]
    by_cases hx : x ∈ firstOccurrences l
    · rw [if_pos hx]
      exact ih
    · rw [if_neg hx]
      exact List.Nodup.append ih (List.nodup_singleton x)
        (by
          intro a ha hax
          rw [List.mem_singleton] at hax
          exact hx (hax ▸ ha))

theorem length_firstOccurrences {β : Type} [DecidableEq β] (l : List β) :
    (firstOccurrences l).length = l.dedup.length := by
  apply List.Perm.length_eq
  rw [List.perm_ext_iff_of_nodup (nodup_firstOccurrences l) (List.nodup_dedup l)]
  intro a
  rw [mem_firstOccurrences, List.mem_dedup]

/-- The position of a triple among the first occurrences is the number of distinct triples
that occur before its first occurrence. -/
theorem indexOf_firstOccurrences {β : Type} [DecidableEq β] (l : List β) (t : β) (h : t ∈ l) :
    (firstOccurrences l).indexOf t = ((l.take (l.indexOf t)).dedup).length := by
  induction l using List.reverseRecOn with
  | nil => simp at h
  | append_singleton l x ih =>
    by_cases ht : t ∈ l
    · have hidx : (l ++ [x]).indexOf t = l.indexOf t := List.indexOf_append_of_mem ht
      have hlt : l.indexOf t ≤ l.length := List.indexOf_le_length
      rw [hidx, List.take_append_of_le_length hlt, ← ih ht, firstOccurrences_append_singleton]
      split_ifs
      · rfl
      · exact List.indexOf_append_of_mem ((mem_firstOccurrences l t).mpr ht)
    · have htx : t = x := by
        rcases List.mem_append.mp h with h1 | h1
        · exact absurd h1 ht
        · exact List.mem_singleton.mp h1
      subst htx
      have hnot : t ∉ firstOccurrences l := fun hm => ht ((mem_firstOccurrences l t).mp hm)
      rw [firstOccurrences_append_singleton, if_neg hnot,
        List.indexOf_append_of_not_mem hnot, List.indexOf_append_of_not_mem ht,
        List.indexOf_cons_self, Nat.add_zero, Nat.add_zero,
        List.take_left' rfl, length_firstOccurrences]

theorem firstOccurrences_map_indexOf {β : Type} [DecidableEq β] (l : List β) :
    firstOccurrences (l.map fun t => (firstOccurrences l).indexOf t) =
      List.range (firstOccurrences l).length := by
  suffices hgen : ∀ (d : List β), (∀ t ∈ l, t ∈ d) → d.Nodup →
      firstOccurrences (l.map fun t => d.indexOf t) =
        (firstOccurrences l).map fun t => d.indexOf t by
    rw [hgen (firstOccurrences l) (fun t ht => (mem_firstOccurrences l t).mpr ht)
      (nodup_firstOccurrences l)]
    apply List.ext_getElem
    · simp
    · intro i h1 h2
      simp only [List.getElem_map, List.getElem_range]
      exact List.indexOf_getElem (nodup_firstOccurrences l) i (by simpa using h1)
  intro d hd hnodup
  induction l using List.reverseRecOn with
  | nil => simp [firstOccurrences]
  | append_singleton l x ih =>
    have hl : ∀ t ∈ l, t ∈ d := fun t ht => hd t (List.mem_append_left _ ht)
    have hx : x ∈ d := hd x (List.mem_append_right _ (List.mem_singleton_self x))
    rw [List.map_append, List.map_singleton, firstOccurrences_append_singleton, ih hl,
      firstOccurrences_append_singleton]
    have hiff : d.indexOf x ∈ (firstOccurrences l).map (fun t => d.indexOf t) ↔
        x ∈ firstOccurrences l := by
      rw [List.mem_map]
      constructor
      · rintro ⟨t, ht, hidx⟩
        have htd : t ∈ d := hl t ((mem_firstOccurrences l t).mp ht)
        rw [(List.indexOf_inj htd hx).mp hidx] at ht
        exact ht
      · intro hxm
        exact ⟨x, hxm, rfl⟩
    by_cases hxm : x ∈ firstOccurrences l
    · rw [if_pos (hiff.mpr hxm), if_pos hxm]
    · rw [if_neg (fun hc => hxm (hiff.mp hc)), if_neg hxm, List.map_append, List.map_singleton]

/-! ## The loop of `expandObj` -/

theorem expandStep_known {F : Type} (objData : ObjData F) (st : ExpandState F)
    (t : JsIndex × JsIndex × JsIndex) (v : ℕ)
    (h : st.knownIndices.lookup (vertexKey t) = some v) :
    expandStep objData st t = { st with indices := st.indices ++ [v] } := by
  simp only [expandStep, h]

theorem expandStep_new {F : Type} (objData : ObjData F) (st : ExpandState F)
    (t : JsIndex × JsIndex × JsIndex) (h : st.knownIndices.lookup (vertexKey t) = none) :
    expandStep objData st t =
      { positions := st.positions ++
          jsSliceIndex objData.positions (t.1.map (· * 3)) ((t.1.map (· * 3)).map (· + 3))
        texCoords := st.texCoords ++
          jsSliceIndex objData.texCoords (t.2.1.map (· * 2)) ((t.2.1.map (· * 2)).map (· + 2))
        normals := st.normals ++
          jsSliceIndex objData.normals (t.2.2.map (· * 3)) ((t.2.2.map (· * 3)).map (· + 3))
        indices := st.indices ++ [st.vertIdx]
        knownIndices := (vertexKey t, st.vertIdx) :: st.knownIndices
        vertIdx := st.vertIdx + 1 } := by
  simp only [expandStep, h]

/-- The state of the loop of `expandObj` after the triples `ts`, in terms of the distinct
triples in the order of their first occurrence. -/
theorem expandLoop_invariant {F : Type} (objData : ObjData F)
    (ts : List (JsIndex × JsIndex × JsIndex)) :
    (ts.foldl (expandStep objData) (ExpandState.mk [] [] [] [] 0 [])).indices =
        ts.map (fun t => firstPosition (firstOccurrences ts) t) ∧
      (ts.foldl (expandStep objData) (ExpandState.mk [] [] [] [] 0 [])).vertIdx =
        (firstOccurrences ts).length ∧
      (∀ t, (ts.foldl (expandStep objData) (ExpandState.mk [] [] [] [] 0 [])).knownIndices.lookup
          (vertexKey t) =
        if t ∈ firstOccurrences ts then some (firstPosition (firstOccurrences ts) t) else none) ∧
      (ts.foldl (expandStep objData) (ExpandState.mk [] [] [] [] 0 [])).positions =
        (firstOccurrences ts).flatMap (fun t =>
          jsSliceIndex objData.positions (t.1.map (· * 3)) ((t.1.map (· * 3)).map (· + 3))) ∧
      (ts.foldl (expandStep objData) (ExpandState.mk [] [] [] [] 0 [])).texCoords =
        (firstOccurrences ts).flatMap (fun t =>
          jsSliceIndex objData.texCoords (t.2.1.map (· * 2))
            ((t.2.1.map (· * 2)).map (· + 2))) ∧
      (ts.foldl (expandStep objData) (ExpandState.mk [] [] [] [] 0 [])).normals =
        (firstOccurrences ts).flatMap (fun t =>
          jsSliceIndex objData.normals (t.2.2.map (· * 3))
            ((t.2.2.map (· * 3)).map (· + 3))) := by
  simp only [firstPosition]
  induction ts using List.reverseRecOn with
  | nil => simp [firstOccurrences]
  | append_singleton ts t ih =>
    obtain ⟨hI, hV, hK, hP, hT, hN⟩ := ih
    have hmem : ∀ s ∈ ts, s ∈ firstOccurrences ts :=
      fun s hs => (mem_firstOccurrences ts s).mpr hs
    rw [List.foldl_append, List.foldl_cons, List.foldl_nil, firstOccurrences_append_singleton]
    by_cases ht : t ∈ firstOccurrences ts
    · have hlook := hK t
      rw [if_pos ht] at hlook
      rw [expandStep_known objData _ t _ hlook, if_pos ht]
      refine ⟨?_, hV, hK, hP, hT, hN⟩
      simp only [hI, List.map_append, List.map_singleton]
    · have hlook := hK t
      rw [if_neg ht] at hlook
      rw [expandStep_new objData _ t hlook, if_neg ht]
      refine ⟨?_, ?_, ?_, ?_, ?_, ?_⟩
      · simp only [hI, hV, List.map_append, List.map_singleton]
        congr 1
        · apply List.map_congr_left
          intro s hs
          exact (List.indexOf_append_of_mem (hmem s hs)).symm
        · rw [List.indexOf_append_of_not_mem ht, List.indexOf_cons_self, Nat.add_zero]
      · simp only [hV, List.length_append, List.length_singleton]
      · intro s
        by_cases hst : s = t
        · subst hst
          simp only [List.lookup_cons, beq_self_eq_true, hV, List.mem_append,
            List.mem_singleton, or_true, if_true]
          rw [List.indexOf_append_of_not_mem ht, List.indexOf_cons_self, Nat.add_zero]
        · have hkey : (vertexKey s == vertexKey t) = false := by
            rw [beq_eq_false_iff_ne]
            exact fun hk => hst (vertexKey_injective s t hk)
          simp only [List.lookup_cons, hkey, hK s, List.mem_append, List.mem_singleton, hst,
            or_false]
          by_cases hs : s ∈ firstOccurrences ts
          · rw [if_pos hs, if_pos hs, List.indexOf_append_of_mem hs]
          · rw [if_neg hs, if_neg hs]
      · simp only [hP, List.flatMap_append, List.flatMap_cons, List.flatMap_nil,
          List.append_nil]
      · simp only [hT, List.flatMap_append, List.flatMap_cons, List.flatMap_nil,
          List.append_nil]
      · simp only [hN, List.flatMap_append, List.flatMap_cons, List.flatMap_nil,
          List.append_nil]

theorem expandLoop_indices {F : Type} (objData : ObjData F) :
    (expandLoop objData).indices = objData.splitIndices.map
      (fun t => firstPosition (firstOccurrences objData.splitIndices) t) :=
  (expandLoop_invariant objData objData.splitIndices).1

theorem expandObj_ok_indices {F : Type} (objData : ObjData F) (attributes : List F)
    (indices : List ℕ) (h : expandObj objData = Except.ok (attributes, indices)) :
    indices = (expandLoop objData).indices ∧
      interleaveArrays [(expandLoop objData).positions, (expandLoop objData).texCoords,
        (expandLoop objData).normals] (Quantities.array [3, 2, 3]) = Except.ok attributes := by
  unfold expandObj at h
  simp only [] at h
  cases hi : interleaveArrays [(expandLoop objData).positions, (expandLoop objData).texCoords,
      (expandLoop objData).normals] (Quantities.array [3, 2, 3]) with
  | error e =>
    rw [hi] at h
    exact Except.noConfusion h
  | ok out =>
    rw [hi] at h
    simp only [pure, Except.pure] at h
    have h2 := Except.ok.inj h
    simp only [Prod.mk.injEq] at h2
    exact ⟨h2.2.symm, by rw [h2.1]⟩

/-- C5: the index that `expandObj` emits for a corner is the number of distinct triples
whose first occurrence precedes the first occurrence of the corner's triple. Hence two
corners receive the same index exactly when their triples are equal in all three
components, and the distinct indices, in order of appearance, are 0, 1, 2, ... The
index sequence `expandObj` returns is the one its loop has built. -/
theorem expandObj_indices {F : Type} (objData : ObjData F) :
    (∀ (attributes : List F) (indices : List ℕ),
        expandObj objData = Except.ok (attributes, indices) →
          indices = (expandLoop objData).indices) ∧
      (expandLoop objData).indices.length = objData.splitIndices.length ∧
      (∀ (c : ℕ) (t : JsIndex × JsIndex × JsIndex), objData.splitIndices[c]? = some t →
        (expandLoop objData).indices[c]? = some
          ((objData.splitIndices.take (firstPosition objData.splitIndices t)).dedup).length) ∧
      (∀ (c d : ℕ) (s t : JsIndex × JsIndex × JsIndex), objData.splitIndices[c]? = some s →
        objData.splitIndices[d]? = some t →
          ((expandLoop objData).indices[c]? = (expandLoop objData).indices[d]? ↔ s = t)) ∧
      firstOccurrences (expandLoop objData).indices =
        List.range objData.splitIndices.dedup.length := by
  have hidx := expandLoop_indices objData
  have hget : ∀ (c : ℕ) (t : JsIndex × JsIndex × JsIndex), objData.splitIndices[c]? = some t →
      (expandLoop objData).indices[c]? =
        some (firstPosition (firstOccurrences objData.splitIndices) t) := by
    intro c t hc
    rw [hidx, List.getElem?_map, hc]
    rfl
  have hmem : ∀ (c : ℕ) (t : JsIndex × JsIndex × JsIndex), objData.splitIndices[c]? = some t →
      t ∈ objData.splitIndices := fun c t hc => List.mem_iff_getElem?.mpr ⟨c, hc⟩
  refine ⟨fun attributes indices h => (expandObj_ok_indices objData attributes indices h).1,
    ?_, ?_, ?_, ?_⟩
  · rw [hidx, List.length_map]
  · intro c t hc
    rw [hget c t hc]
    simp only [firstPosition]
    rw [indexOf_firstOccurrences objData.splitIndices t (hmem c t hc)]
  · intro c d s t hc hd
    rw [hget c s hc, hget d t hd]
    simp only [firstPosition, Option.some.injEq]
    exact List.indexOf_inj ((mem_firstOccurrences _ s).mpr (hmem c s hc))
      ((mem_firstOccurrences _ t).mpr (hmem d t hd))
  · rw [hidx]
    simp only [firstPosition]
    rw [firstOccurrences_map_indexOf, length_firstOccurrences]

/-! ## `expandObj` on triples that are in range -/

theorem jsSliceIndex_scaled {α : Type} (xs : List α) (p k : ℕ) :
    jsSliceIndex xs (Option.map (· * (k : ℤ)) (some (p : ℤ)))
        (Option.map (· + (k : ℤ)) (Option.map (· * (k : ℤ)) (some (p : ℤ)))) =
      (xs.drop (p * k)).take k := by
  simp only [jsSliceIndex, Option.map_some', Option.getD_some]
  have h1 : (p : ℤ) * (k : ℤ) = ((p * k : ℕ) : ℤ) := by push_cast; ring
  have h2 : (p : ℤ) * (k : ℤ) + (k : ℤ) = ((p * k + k : ℕ) : ℤ) := by push_cast; ring
  rw [h2, h1, jsSlice_natCast, Nat.add_sub_cancel_left]

theorem jsSliceIndex_three {α : Type} (xs : List α) (p : ℕ) :
    jsSliceIndex xs (Option.map (· * 3) (some (p : ℤ)))
        (Option.map (· + 3) (Option.map (· * 3) (some (p : ℤ)))) =
      (xs.drop (p * 3)).take 3 := by
  simpa using jsSliceIndex_scaled xs p 3

theorem jsSliceIndex_two {α : Type} (xs : List α) (p : ℕ) :
    jsSliceIndex xs (Option.map (· * 2) (some (p : ℤ)))
        (Option.map (· + 2) (Option.map (· * 2) (some (p : ℤ)))) =
      (xs.drop (p * 2)).take 2 := by
  simpa using jsSliceIndex_scaled xs p 2

theorem length_drop_take_of_lt_div {α : Type} (xs : List α) (p k : ℕ) (hk : 0 < k)
    (h : p < xs.length / k) : ((xs.drop (p * k)).take k).length = k ∧ p * k + k ≤ xs.length := by
  have h1 : (p + 1) * k ≤ xs.length := (Nat.le_div_iff_mul_le hk).mp h
  have h2 : (p + 1) * k = p * k + k := by ring
  rw [List.length_take, List.length_drop]
  omega

/-- The piece of a flattened list of pieces of equal length `k`. -/
theorem flatMap_drop_take_const {α β : Type} (f : β → List α) (k : ℕ) (l : List β)
    (hf : ∀ x ∈ l, (f x).length = k) (i : ℕ) (x : β) (h : l[i]? = some x) :
    ((l.flatMap f).drop (i * k)).take k = f x := by
  have hi : i < l.length := by
    by_contra hcon
    rw [List.getElem?_eq_none (not_lt.mp hcon)] at h
    exact Option.noConfusion h
  obtain ⟨tail, htail⟩ := flatMap_drop_take f (fun _ => k) l hf i x h
  have hoff : ((l.take i).map fun _ => k).sum = i * k := by
    rw [sum_map_eq_mul (fun _ => k) k _ (fun _ _ => rfl), List.length_take,
      Nat.min_eq_left (Nat.le_of_lt hi)]
  rw [hoff] at htail
  rw [htail, List.take_left' (hf x (List.mem_iff_getElem?.mpr ⟨i, h⟩))]

/-- On triples in range `expandObj` returns, with one block of eight numbers for every
distinct triple, in the order of first occurrence. -/
theorem expandObj_inRange_aux {F : Type} (objData : ObjData F)
    (hrange : ∀ t ∈ objData.splitIndices, ∃ p u n : ℕ,
      t = (some (p : ℤ), some (u : ℤ), some (n : ℤ)) ∧ p < objData.positions.length / 3 ∧
        u < objData.texCoords.length / 2 ∧ n < objData.normals.length / 3) :
    ∃ attributes, expandObj objData = Except.ok (attributes, (expandLoop objData).indices) ∧
      attributes.length = 8 * (firstOccurrences objData.splitIndices).length ∧
      ∀ (i p u n : ℕ), (firstOccurrences objData.splitIndices)[i]? =
          some (some (p : ℤ), some (u : ℤ), some (n : ℤ)) →
        (attributes.drop (8 * i)).take 8 =
            (objData.positions.drop (3 * p)).take 3 ++
              ((objData.texCoords.drop (2 * u)).take 2 ++
                (objData.normals.drop (3 * n)).take 3) ∧
          3 * p + 3 ≤ objData.positions.length ∧ 2 * u + 2 ≤ objData.texCoords.length ∧
          3 * n + 3 ≤ objData.normals.length := by
  obtain ⟨-, -, -, hP, hT, hN⟩ := expandLoop_invariant objData objData.splitIndices
  have hds : ∀ t ∈ firstOccurrences objData.splitIndices, ∃ p u n : ℕ,
      t = (some (p : ℤ), some (u : ℤ), some (n : ℤ)) ∧ p < objData.positions.length / 3 ∧
        u < objData.texCoords.length / 2 ∧ n < objData.normals.length / 3 :=
    fun t ht => hrange t ((mem_firstOccurrences _ t).mp ht)
  have hPlen : ∀ t ∈ firstOccurrences objData.splitIndices,
      (jsSliceIndex objData.positions (t.1.map (· * 3))
        ((t.1.map (· * 3)).map (· + 3))).length = 3 := by
    intro t ht
    obtain ⟨p, u, n, rfl, hp, -, -⟩ := hds t ht
    rw [jsSliceIndex_three]
    exact (length_drop_take_of_lt_div _ p 3 (by decide) hp).1
  have hTlen : ∀ t ∈ firstOccurrences objData.splitIndices,
      (jsSliceIndex objData.texCoords (t.2.1.map (· * 2))
        ((t.2.1.map (· * 2)).map (· + 2))).length = 2 := by
    intro t ht
    obtain ⟨p, u, n, rfl, -, hu, -⟩ := hds t ht
    rw [jsSliceIndex_two]
    exact (length_drop_take_of_lt_div _ u 2 (by decide) hu).1
  have hNlen : ∀ t ∈ firstOccurrences objData.splitIndices,
      (jsSliceIndex objData.normals (t.2.2.map (· * 3))
        ((t.2.2.map (· * 3)).map (· + 3))).length = 3 := by
    intro t ht
    obtain ⟨p, u, n, rfl, -, -, hn⟩ := hds t ht
    rw [jsSliceIndex_three]
    exact (length_drop_take_of_lt_div _ n 3 (by decide) hn).1
  have hPl : (expandLoop objData).positions.length =
      (firstOccurrences objData.splitIndices).length * 3 := by
    unfold expandLoop
    rw [hP]
    exact length_flatMap_const _ 3 _ hPlen
  have hTl : (expandLoop objData).texCoords.length =
      (firstOccurrences objData.splitIndices).length * 2 := by
    unfold expandLoop
    rw [hT]
    exact length_flatMap_const _ 2 _ hTlen
  have hNl : (expandLoop objData).normals.length =
      (firstOccurrences objData.splitIndices).length * 3 := by
    unfold expandLoop
    rw [hN]
    exact length_flatMap_const _ 3 _ hNlen
  obtain ⟨out, hout, hlength, -, hslice, -⟩ := interleaveArrays_bands_layout
    [(expandLoop objData).positions, (expandLoop objData).texCoords,
      (expandLoop objData).normals] [3, 2, 3]
    (firstOccurrences objData.splitIndices).length (by simp) (by simp) (by decide)
    (by
      intro i a q ha hq
      match i, ha, hq with
      | 0, ha, hq =>
        simp only [List.getElem?_cons_zero, Option.some.injEq] at ha hq
        subst ha hq
        exact hPl
      | 1, ha, hq =>
        simp only [List.getElem?_cons_succ, List.getElem?_cons_zero,
          Option.some.injEq] at ha hq
        subst ha hq
        exact hTl
      | 2, ha, hq =>
        simp only [List.getElem?_cons_succ, List.getElem?_cons_zero,
          Option.some.injEq] at ha hq
        subst ha hq
        exact hNl
      | k + 3, ha, _ => simp at ha)
  have hout2 : interleaveArrays [(expandLoop objData).positions,
      (expandLoop objData).texCoords, (expandLoop objData).normals]
      (Quantities.array [3, 2, 3]) = Except.ok out := by
    simpa using hout
  refine ⟨out, ?_, ?_, ?_⟩
  · unfold expandObj
    simp only [hout2]
    rfl
  · rw [hlength]
    simp only [List.map_cons, List.map_nil, List.sum_cons, List.sum_nil, hPl, hTl, hNl]
    ring
  · intro i p u n hi
    have hi_lt : i < (firstOccurrences objData.splitIndices).length := by
      by_contra hcon
      rw [List.getElem?_eq_none (not_lt.mp hcon)] at hi
      exact Option.noConfusion hi
    have hmem : (some (p : ℤ), some (u : ℤ), some (n : ℤ)) ∈
        firstOccurrences objData.splitIndices := List.mem_iff_getElem?.mpr ⟨i, hi⟩
    obtain ⟨p1, u1, n1, heq, hp, hu, hn⟩ := hds _ hmem
    simp only [Prod.mk.injEq, Option.some.injEq, Nat.cast_inj] at heq
    obtain ⟨rfl, rfl, rfl⟩ := heq
    have hp2 := (length_drop_take_of_lt_div objData.positions p 3 (by decide) hp).2
    have hu2 := (length_drop_take_of_lt_div objData.texCoords u 2 (by decide) hu).2
    have hn2 := (length_drop_take_of_lt_div objData.normals n 3 (by decide) hn).2
    refine ⟨?_, by omega, by omega, by omega⟩
    have fP := flatMap_drop_take_const _ 3 _ hPlen i _ hi
    have fT := flatMap_drop_take_const _ 2 _ hTlen i _ hi
    have fN := flatMap_drop_take_const _ 3 _ hNlen i _ hi
    rw [← hP] at fP
    rw [← hT] at fT
    rw [← hN] at fN
    simp only [jsSliceIndex_three, jsSliceIndex_two] at fP fT fN
    have e3 : (i + 1) * 3 - i * 3 = 3 := by omega
    have e2 : (i + 1) * 2 - i * 2 = 2 := by omega
    have s0 : (out.drop (8 * i)).take 3 = (objData.positions.drop (p * 3)).take 3 := by
      have h := hslice i 0 (expandLoop objData).positions 3 hi_lt rfl rfl
      rw [jsSlice_natCast, jsSlice_natCast, Nat.add_sub_cancel_left, e3] at h
      have e : i * [3, 2, 3].sum + (List.take 0 [3, 2, 3]).sum = 8 * i := by
        simp only [List.sum_cons, List.sum_nil, List.take_zero]
        omega
      rw [e] at h
      rw [h]
      exact fP
    have s1 : (out.drop (8 * i + 3)).take 2 = (objData.texCoords.drop (u * 2)).take 2 := by
      have h := hslice i 1 (expandLoop objData).texCoords 2 hi_lt rfl rfl
      rw [jsSlice_natCast, jsSlice_natCast, Nat.add_sub_cancel_left, e2] at h
      have e : i * [3, 2, 3].sum + (List.take 1 [3, 2, 3]).sum = 8 * i + 3 := by
        simp only [List.sum_cons, List.sum_nil, List.take_succ_cons, List.take_zero]
        omega
      rw [e] at h
      rw [h]
      exact fT
    have s2 : (out.drop (8 * i + 3 + 2)).take 3 = (objData.normals.drop (n * 3)).take 3 := by
      have h := hslice i 2 (expandLoop objData).normals 3 hi_lt rfl rfl
      rw [jsSlice_natCast, jsSlice_natCast, Nat.add_sub_cancel_left, e3] at h
      have e : i * [3, 2, 3].sum + (List.take 2 [3, 2, 3]).sum = 8 * i + 3 + 2 := by
        simp only [List.sum_cons, List.sum_nil, List.take_succ_cons, List.take_zero]
        omega
      rw [e] at h
      rw [h]
      exact fN
    have key : ∀ l : List F,
        l.take 8 = l.take 3 ++ ((l.drop 3).take 2 ++ ((l.drop 3).drop 2).take 3) := by
      intro l
      rw [show (8 : ℕ) = 3 + (2 + 3) from rfl, List.take_add, List.take_add]
    rw [key, List.drop_drop, List.drop_drop, s0, s1, s2, Nat.mul_comm p 3, Nat.mul_comm u 2,
      Nat.mul_comm n 3]

/-- C6: for a raw OBJ record whose corner triples are all in range (each index is a
natural number below the number of whole vertices of its array, so that
`3 * p + 3 ≤ positions.length` and likewise for the other two), `expandObj` returns an
attribute stream laid out as position(3), uv(2), normal(3) per vertex: for every corner
with triple `(p, u, n)` and emitted index `i`, the eight numbers at offsets `8 * i` to
`8 * i + 7` are `positions[3p..3p+2]`, then `texCoords[2u..2u+1]`, then
`normals[3n..3n+2]`. -/
theorem expandObj_attribute_layout {F : Type} (objData : ObjData F)
    (hrange : ∀ t ∈ objData.splitIndices, ∃ p u n : ℕ,
      t = (some (p : ℤ), some (u : ℤ), some (n : ℤ)) ∧ p < objData.positions.length / 3 ∧
        u < objData.texCoords.length / 2 ∧ n < objData.normals.length / 3) :
    ∃ attributes indices, expandObj objData = Except.ok (attributes, indices) ∧
      ∀ (c p u n i : ℕ),
        objData.splitIndices[c]? = some (some (p : ℤ), some (u : ℤ), some (n : ℤ)) →
        indices[c]? = some i →
          (attributes.drop (8 * i)).take 8 =
              (objData.positions.drop (3 * p)).take 3 ++
                ((objData.texCoords.drop (2 * u)).take 2 ++
                  (objData.normals.drop (3 * n)).take 3) ∧
            3 * p + 3 ≤ objData.positions.length ∧ 2 * u + 2 ≤ objData.texCoords.length ∧
            3 * n + 3 ≤ objData.normals.length := by
  obtain ⟨attributes, hok, -, hblock⟩ := expandObj_inRange_aux objData hrange
  refine ⟨attributes, (expandLoop objData).indices, hok, ?_⟩
  intro c p u n i hc hi
  apply hblock i p u n
  have hmem : (some (p : ℤ), some (u : ℤ), some (n : ℤ)) ∈ objData.splitIndices :=
    List.mem_iff_getElem?.mpr ⟨c, hc⟩
  rw [expandLoop_indices, List.getElem?_map, hc] at hi
  simp only [Option.map_some', Option.some.injEq, firstPosition] at hi
  rw [← hi, ← List.get?_eq_getElem?]
  exact List.indexOf_get? ((mem_firstOccurrences _ _).mpr hmem)

theorem expandObj_attribute_layout_witness :
    ∃ attributes indices,
      expandObj (ObjData.mk "Cube".toList [1, 2, 3, 4, 5, 6] [7, 8, 9, 10] [11, 12, 13]
        [(some 0, some 0, some 0), (some 1, some 1, some 0), (some 0, some 0, some 0)] :
          ObjData ℕ) = Except.ok (attributes, indices) ∧
      (indices[1]? = some 1 →
        (attributes.drop (8 * 1)).take 8 = [4, 5, 6, 9, 10, 11, 12, 13]) := by
  obtain ⟨attributes, indices, hok, h⟩ := expandObj_attribute_layout
    (ObjData.mk "Cube".toList [1, 2, 3, 4, 5, 6] [7, 8, 9, 10] [11, 12, 13]
      [(some 0, some 0, some 0), (some 1, some 1, some 0), (some 0, some 0, some 0)] :
        ObjData ℕ)
    (by
      intro t ht
      simp only [List.mem_cons, List.mem_singleton, List.not_mem_nil, or_false] at ht
      rcases ht with rfl | rfl | rfl
      · exact ⟨0, 0, 0, rfl, by decide, by decide, by decide⟩
      · exact ⟨1, 1, 0, rfl, by decide, by decide, by decide⟩
      · exact ⟨0, 0, 0, rfl, by decide, by decide, by decide⟩)
  refine ⟨attributes, indices, hok, fun hi => ?_⟩
  exact (h 1 1 1 0 1 rfl hi).1

/-- C7: for a raw OBJ record whose corner triples are all in range, `expandObj` emits as
many vertices as there are distinct triples (the stream holds 8 numbers for each), the
index sequence has one entry per corner, and every index is below the emitted vertex
count. Two corners with identical triples yield one vertex and two equal index entries;
when all triples are distinct the emitted vertex count is the corner count. -/
theorem expandObj_vertex_count {F : Type} (objData : ObjData F)
    (hrange : ∀ t ∈ objData.splitIndices, ∃ p u n : ℕ,
      t = (some (p : ℤ), some (u : ℤ), some (n : ℤ)) ∧ p < objData.positions.length / 3 ∧
        u < objData.texCoords.length / 2 ∧ n < objData.normals.length / 3) :
    ∃ attributes indices, expandObj objData = Except.ok (attributes, indices) ∧
      attributes.length = 8 * objData.splitIndices.dedup.length ∧
      indices.length = objData.splitIndices.length ∧
      (∀ i ∈ indices, i < objData.splitIndices.dedup.length) ∧
      (∀ t, objData.splitIndices = [t, t] → attributes.length = 8 ∧ indices = [0, 0]) ∧
      (objData.splitIndices.Nodup → attributes.length = 8 * objData.splitIndices.length) := by
  obtain ⟨attributes, hok, hlength, -⟩ := expandObj_inRange_aux objData hrange
  rw [length_firstOccurrences] at hlength
  have hidx := expandLoop_indices objData
  refine ⟨attributes, (expandLoop objData).indices, hok, hlength, ?_, ?_, ?_, ?_⟩
  · rw [hidx, List.length_map]
  · intro i hi
    rw [hidx, List.mem_map] at hi
    obtain ⟨t, ht, rfl⟩ := hi
    rw [← length_firstOccurrences]
    simp only [firstPosition]
    exact List.indexOf_lt_length.mpr ((mem_firstOccurrences _ t).mpr ht)
  · intro t ht
    rw [hlength, hidx, ht]
    have hd : ([t, t] : List (JsIndex × JsIndex × JsIndex)).dedup = [t] := by
      rw [List.dedup_cons_of_mem (List.mem_singleton_self t)]
      rfl
    have hf : firstOccurrences [t, t] = [t] := by
      simp [firstOccurrences]
    rw [hd, hf]
    simp [firstPosition]
  · intro hnodup
    rw [hlength, hnodup.dedup]

theorem expandObj_vertex_count_witness :
    ∃ attributes indices,
      expandObj (ObjData.mk "Cube".toList [1, 2, 3, 4, 5, 6] [7, 8, 9, 10] [11, 12, 13]
        [(some 0, some 0, some 0), (some 0, some 0, some 0)] : ObjData ℕ) =
          Except.ok (attributes, indices) ∧
      attributes.length = 8 ∧ indices = [0, 0] := by
  obtain ⟨attributes, indices, hok, -, -, -, h, -⟩ := expandObj_vertex_count
    (ObjData.mk "Cube".toList [1, 2, 3, 4, 5, 6] [7, 8, 9, 10] [11, 12, 13]
      [(some 0, some 0, some 0), (some 0, some 0, some 0)] : ObjData ℕ)
    (by
      intro t ht
      simp only [List.mem_cons, List.mem_singleton, List.not_mem_nil, or_false] at ht
      rcases ht with rfl | rfl
      · exact ⟨0, 0, 0, rfl, by decide, by decide, by decide⟩
      · exact ⟨0, 0, 0, rfl, by decide, by decide, by decide⟩)
  exact ⟨attributes, indices, hok, h _ rfl⟩

theorem expandObj_indices_witness :
    (expandLoop (ObjData.mk "Cube".toList [1, 2, 3, 4, 5, 6] [7, 8, 9, 10] [11, 12, 13]
      [(some 0, some 0, some 0), (some 1, some 1, some 0), (some 0, some 0, some 0)] :
        ObjData ℕ)).indices.length = 3 :=
  (expandObj_indices (ObjData.mk "Cube".toList [1, 2, 3, 4, 5, 6] [7, 8, 9, 10] [11, 12, 13]
    [(some 0, some 0, some 0), (some 1, some 1, some 0), (some 0, some 0, some 0)] :
      ObjData ℕ)).2.1

/-- C4: no primitive generator emits an out-of-range index. Every entry of
`createCubeIndices` is below 24, the vertex count of `createCubeAttributes` (a stream of
8 numbers per vertex); every entry of `createSkyBoxIndices` is below 8, the vertex count
of `createSkyBoxAttributes` (3 numbers per vertex); for segment counts of at least 1 every
entry of `createCylinderIndices` is below the vertex count of `createCylinderAttributes`
(8 numbers per vertex), and for band counts of at least 1 every entry of
`createSphereIndices` is below the vertex count of `createSphereAttributes` (3 numbers
per vertex, plus 3 with normals, plus 2 with uvs). -/
theorem generator_indices_in_range {α : Type} [Field α] (math : JsMath α) :
    ((∀ i ∈ createCubeIndices, i < 24) ∧
      ∀ options : CubeOptions α, ∃ stream,
        createCubeAttributes options = Except.ok stream ∧ stream.length = 8 * 24) ∧
    ((∀ i ∈ createSkyBoxIndices, i < 8) ∧ createSkyBoxAttributes.length = 3 * 8) ∧
    (∀ (radius height : α) (radialSegments heightSegments : ℕ),
      1 ≤ radialSegments → 1 ≤ heightSegments →
        ∃ stream, createCylinderAttributes math radius height radialSegments heightSegments =
            Except.ok stream ∧
          stream.length = 8 * ((radialSegments + 1) * (heightSegments + 1)) ∧
          ∀ i ∈ createCylinderIndices radialSegments heightSegments,
            i < (radialSegments + 1) * (heightSegments + 1)) ∧
    (∀ (radius : α) (latitudeBands longitudeBands : ℕ) (options : SphereOptions),
      1 ≤ latitudeBands → 1 ≤ longitudeBands →
        ∃ stream, createSphereAttributes math radius latitudeBands longitudeBands options =
            Except.ok stream ∧
          stream.length = (3 + (if options.normals.getD true then 3 else 0) +
            (if options.uvs.getD true then 2 else 0)) *
              ((latitudeBands + 1) * (longitudeBands + 1)) ∧
          ∀ i ∈ createSphereIndices latitudeBands longitudeBands,
            i < (latitudeBands + 1) * (longitudeBands + 1)) := by
  refine ⟨⟨by decide, createCubeAttributes_length⟩, ⟨by decide, rfl⟩, ?_, ?_⟩
  · intro radius height radialSegments heightSegments _ hh
    obtain ⟨stream, hs, hl⟩ := createCylinderAttributes_length math radius height
      radialSegments heightSegments hh
    exact ⟨stream, hs, hl, createCylinderIndices_lt radialSegments heightSegments hh⟩
  · intro radius latitudeBands longitudeBands options _ _
    obtain ⟨stream, hs, hl⟩ := createSphereAttributes_length math radius latitudeBands
      longitudeBands options
    exact ⟨stream, hs, hl, createSphereIndices_lt latitudeBands longitudeBands⟩

theorem generator_indices_in_range_witness :
    ∃ stream : List ℚ,
      createCylinderAttributes (JsMath.mk (fun x => x) (fun x => 1 - x) 3) 1 2 4 1 =
        Except.ok stream ∧
      stream.length = 8 * ((4 + 1) * (1 + 1)) ∧
      ∀ i ∈ createCylinderIndices 4 1, i < (4 + 1) * (1 + 1) :=
  (generator_indices_in_range (JsMath.mk (fun x => x) (fun x => 1 - x) (3 : ℚ))).2.2.1
    1 2 4 1 (by decide) (by decide)

theorem interleaveArrays_raises_iff_witness :
    2 ≤ ([[1, 2], [3]] : List (List ℕ)).length ∧
      ∃ e, interleaveArrays ([[1, 2], [3]] : List (List ℕ)) (Quantities.array [2, 2]) =
        Except.error e :=
  ⟨by decide, (interleaveArrays_raises_iff ([[1, 2], [3]] : List (List ℕ)) [2, 2]
    (by decide)).1.mpr (Or.inr (Or.inr (Or.inr (Or.inl
      ⟨1, [3], 2, rfl, rfl, by
        rintro ⟨m, hm⟩
        have h2 : (1 : ℤ) = m * 2 := by exact_mod_cast hm
        omega⟩))))⟩

/-! ## The vertices of an interleaved stream of three channels -/

theorem getD_of_drop_take_eq {α : Type} (xs ys : List α) (a b q k : ℕ) (d : α)
    (h : (xs.drop a).take q = (ys.drop b).take q) (hk : k < q) :
    xs.getD (a + k) d = ys.getD (b + k) d := by
  have h1 : xs[a + k]? = ys[b + k]? := by
    have h2 : ((xs.drop a).take q)[k]? = ((ys.drop b).take q)[k]? := by rw [h]
    rw [List.getElem?_take_of_lt hk, List.getElem?_take_of_lt hk, List.getElem?_drop,
      List.getElem?_drop] at h2
    exact h2
  rw [List.getD_eq_getElem?_getD, List.getD_eq_getElem?_getD, h1]

/-- Three arrays of `n` bands with `qa`, `qb` and `qc` components are interleaved into
blocks of `qa + qb + qc` numbers, one block per band. -/
theorem interleaveArrays_three_blocks {α : Type} (A B C : List α) (qa qb qc n : ℕ)
    (ha : 1 ≤ qa) (hb : 1 ≤ qb) (hc : 1 ≤ qc) (hA : A.length = n * qa)
    (hB : B.length = n * qb) (hC : C.length = n * qc) :
    ∃ stream, interleaveArrays [A, B, C]
        (Quantities.array [(qa : ℚ), (qb : ℚ), (qc : ℚ)]) = Except.ok stream ∧
      stream.length = n * (qa + qb + qc) ∧
      ∀ v, v < n →
        (stream.drop (v * (qa + qb + qc))).take qa = (A.drop (v * qa)).take qa ∧
        (stream.drop (v * (qa + qb + qc) + qa)).take qb = (B.drop (v * qb)).take qb ∧
        (stream.drop (v * (qa + qb + qc) + (qa + qb))).take qc =
          (C.drop (v * qc)).take qc := by
  obtain ⟨out, hout, hlength, -, hslice, -⟩ := interleaveArrays_bands_layout
    [A, B, C] [qa, qb, qc] n (by simp) (by simp)
    (by
      intro q hq
      simp only [List.mem_cons, List.mem_singleton, List.not_mem_nil, or_false] at hq
      rcases hq with rfl | rfl | rfl <;> assumption)
    (by
      intro i a q hia hiq
      match i, hia, hiq with
      | 0, hia, hiq =>
        simp only [List.getElem?_cons_zero, Option.some.injEq] at hia hiq
        subst hia hiq
        exact hA
      | 1, hia, hiq =>
        simp only [List.getElem?_cons_succ, List.getElem?_cons_zero,
          Option.some.injEq] at hia hiq
        subst hia hiq
        exact hB
      | 2, hia, hiq =>
        simp only [List.getElem?_cons_succ, List.getElem?_cons_zero,
          Option.some.injEq] at hia hiq
        subst hia hiq
        exact hC
      | k + 3, hia, _ => simp at hia)
  refine ⟨out, by simpa using hout, ?_, ?_⟩
  · rw [hlength]
    simp only [List.map_cons, List.map_nil, List.sum_cons, List.sum_nil, hA, hB, hC]
    ring
  · intro v hv
    have s0 := hslice v 0 A qa hv rfl rfl
    have s1 := hslice v 1 B qb hv rfl rfl
    have s2 := hslice v 2 C qc hv rfl rfl
    rw [jsSlice_natCast, jsSlice_natCast, Nat.add_sub_cancel_left] at s0 s1 s2
    have ea : (v + 1) * qa - v * qa = qa := by
      rw [Nat.add_mul, Nat.one_mul, Nat.add_sub_cancel_left]
    have eb : (v + 1) * qb - v * qb = qb := by
      rw [Nat.add_mul, Nat.one_mul, Nat.add_sub_cancel_left]
    have ec : (v + 1) * qc - v * qc = qc := by
      rw [Nat.add_mul, Nat.one_mul, Nat.add_sub_cancel_left]
    rw [ea] at s0
    rw [eb] at s1
    rw [ec] at s2
    simp only [List.sum_cons, List.sum_nil, List.take_zero, List.take_succ_cons,
      List.take_nil, Nat.add_zero] at s0 s1 s2
    have eS : qa + (qb + qc) = qa + qb + qc := (Nat.add_assoc qa qb qc).symm
    rw [eS] at s0 s1 s2
    exact ⟨s0, s1, s2⟩

/-- The vertices of a stream interleaved from positions (3), normals (3) and texture
coordinates (2): whatever holds for every stream with these vertices holds for the result
of `interleaveArrays`. -/
theorem interleaveArrays_vertices {α : Type} [Zero α] (P N T : List α) (n : ℕ)
    (hP : P.length = n * 3) (hN : N.length = n * 3) (hT : T.length = n * 2)
    (Q : List α → Prop)
    (hQ : ∀ stream : List α, stream.length = 8 * n →
      (∀ v, v < n → vec3At stream (8 * v) = vec3At P (3 * v) ∧
        vec3At stream (8 * v + 3) = vec3At N (3 * v) ∧
        vec2At stream (8 * v + 6) = vec2At T (2 * v)) → Q stream) :
    ∃ stream, interleaveArrays [P, N, T] (Quantities.array [3, 3, 2]) = Except.ok stream ∧
      Q stream := by
  obtain ⟨stream, hs, hl, hblock⟩ := interleaveArrays_three_blocks P N T 3 3 2 n
    (by decide) (by decide) (by decide) hP hN hT
  refine ⟨stream, by simpa using hs, hQ stream (by rw [hl]; ring) ?_⟩
  intro v hv
  obtain ⟨b0, b1, b2⟩ := hblock v hv
  have e0 : v * (3 + 3 + 2) = 8 * v := by ring
  have e1 : v * (3 + 3 + 2) + 3 = 8 * v + 3 := by ring
  have e2 : v * (3 + 3 + 2) + (3 + 3) = 8 * v + 6 := by ring
  have e3 : v * 3 = 3 * v := Nat.mul_comm v 3
  have e4 : v * 2 = 2 * v := Nat.mul_comm v 2
  rw [e0, e3] at b0
  rw [e1, e3] at b1
  rw [e2, e4] at b2
  refine ⟨?_, ?_, ?_⟩
  · simp only [vec3At, Prod.mk.injEq]
    exact ⟨getD_of_drop_take_eq _ _ _ _ 3 0 0 b0 (by decide),
      getD_of_drop_take_eq _ _ _ _ 3 1 0 b0 (by decide),
      getD_of_drop_take_eq _ _ _ _ 3 2 0 b0 (by decide)⟩
  · simp only [vec3At, Prod.mk.injEq]
    have k0 := getD_of_drop_take_eq _ _ _ _ 3 0 0 b1 (by decide)
    have k1 := getD_of_drop_take_eq _ _ _ _ 3 1 0 b1 (by decide)
    have k2 := getD_of_drop_take_eq _ _ _ _ 3 2 0 b1 (by decide)
    exact ⟨k0, k1, k2⟩
  · simp only [vec2At, Prod.mk.injEq]
    exact ⟨getD_of_drop_take_eq _ _ _ _ 2 0 0 b2 (by decide),
      getD_of_drop_take_eq _ _ _ _ 2 1 0 b2 (by decide)⟩

/-! ## The cube -/

/-- C13: for every size and uvScale `createCubeAttributes` returns a stream of 24
vertices (192 numbers: position 3, normal 3, uv 2 per vertex) and `createCubeIndices`
holds 36 indices (12 triangles); the normal stored in vertex `4 * f + j` is the `f`-th of
(0,0,1), (0,0,-1), (0,1,0), (0,-1,0), (1,0,0), (-1,0,0), so the normals of the vertices
0 to 23 are these six, each four times in a row. -/
theorem createCube_counts_and_normals {α : Type} [Field α] (options : CubeOptions α) :
    createCubeIndices.length = 36 ∧ (triangles createCubeIndices).length = 12 ∧
      ∃ stream, createCubeAttributes options = Except.ok stream ∧
        (stream.length = 192 ∧ stream.length = 24 * (3 + 3 + 2)) ∧
        (∀ f j, f < 6 → j < 4 →
          vec3At stream (8 * (4 * f + j) + 3) = cubeFaceNormals.getD f (0, 0, 0)) ∧
        (List.range 24).map (fun v => vec3At stream (8 * v + 3)) =
          cubeFaceNormals.flatMap (fun n => List.replicate 4 n) := by
  refine ⟨rfl, rfl, ?_⟩
  unfold createCubeAttributes
  simp only []
  refine interleaveArrays_vertices _ _ _ 24 ?_ ?_ ?_ _ ?_
  · rfl
  · rfl
  · rfl
  intro stream hl hv
  have hnormal : ∀ f j, f < 6 → j < 4 →
      vec3At stream (8 * (4 * f + j) + 3) = cubeFaceNormals.getD f (0, 0, 0) := by
    intro f j hf hj
    rw [(hv (4 * f + j) (by omega)).2.1]
    interval_cases f <;> interval_cases j <;> rfl
  refine ⟨⟨hl, hl⟩, hnormal, ?_⟩
  have hrange : List.range 24 = (List.range 6).flatMap
      (fun f => (List.range 4).map (fun j => 4 * f + j)) := by decide
  rw [hrange]
  simp only [List.map_flatMap, List.map_map]
  have hfaces : (cubeFaceNormals : List (α × α × α)) =
      (List.range 6).map (fun f => cubeFaceNormals.getD f (0, 0, 0)) := rfl
  conv_rhs => rw [hfaces, List.flatMap_map]
  apply List.flatMap_congr
  intro f hf
  rw [List.mem_range] at hf
  have h4 : List.replicate 4 ((cubeFaceNormals : List (α × α × α)).getD f (0, 0, 0)) =
      (List.range 4).map (fun _ => cubeFaceNormals.getD f (0, 0, 0)) := rfl
  rw [h4]
  apply List.map_congr_left
  intro j hj
  rw [List.mem_range] at hj
  exact hnormal f j hf hj

/-- C20: `createCubeAttributes` treats a scalar as a uniform vector: `size: s` gives the
result of `size: [s, s, s]`, `uvScale: u` gives the result of `uvScale: [u, u]`, and with
both omitted the result is that for size 1 and uvScale 1, in which every position
component is 0.5 or -0.5 and every uv component is 0 or 1. -/
theorem createCubeAttributes_scalar_as_vector {α : Type} [Field α] [CharZero α] :
    (∀ (s : α) (uvScale : Option (NumberOrVec2 α)),
      createCubeAttributes (CubeOptions.mk (some (NumberOrVec3.number s)) uvScale) =
        createCubeAttributes (CubeOptions.mk (some (NumberOrVec3.vec s s s)) uvScale)) ∧
    (∀ (u : α) (size : Option (NumberOrVec3 α)),
      createCubeAttributes (CubeOptions.mk size (some (NumberOrVec2.number u))) =
        createCubeAttributes (CubeOptions.mk size (some (NumberOrVec2.vec u u)))) ∧
    createCubeAttributes (CubeOptions.mk none none : CubeOptions α) =
      createCubeAttributes
        (CubeOptions.mk (some (NumberOrVec3.number 1)) (some (NumberOrVec2.number 1))) ∧
    ∃ stream, createCubeAttributes (CubeOptions.mk none none : CubeOptions α) =
        Except.ok stream ∧
      ∀ v, v < 24 →
        (((vec3At stream (8 * v)).1 = 0.5 ∨ (vec3At stream (8 * v)).1 = -0.5) ∧
          ((vec3At stream (8 * v)).2.1 = 0.5 ∨ (vec3At stream (8 * v)).2.1 = -0.5) ∧
          ((vec3At stream (8 * v)).2.2 = 0.5 ∨ (vec3At stream (8 * v)).2.2 = -0.5)) ∧
        (((vec2At stream (8 * v + 6)).1 = 0 ∨ (vec2At stream (8 * v + 6)).1 = 1) ∧
          ((vec2At stream (8 * v + 6)).2 = 0 ∨ (vec2At stream (8 * v + 6)).2 = 1)) := by
  have hone : (1.0 : α) = 1 := by norm_num
  refine ⟨fun s uvScale => rfl, fun u size => rfl, ?_, ?_⟩
  · unfold createCubeAttributes
    simp only [Option.getD_none, Option.getD_some, hone]
  · unfold createCubeAttributes
    simp only [Option.getD_none]
    refine interleaveArrays_vertices _ _ _ 24 ?_ ?_ ?_ _ ?_
    · rfl
    · rfl
    · rfl
    intro stream _ hv v hlt
    obtain ⟨hp, -, ht⟩ := hv v hlt
    rw [hp, ht]
    interval_cases v <;>
      simp only [vec3At, vec2At, repeatPattern, List.replicate, List.flatten, List.append,
        List.getD_cons_zero, List.getD_cons_succ, Nat.reduceMul, Nat.reduceAdd,
        List.cons_append, List.nil_append, List.append_nil] <;>
      norm_num

/-- The cube of given options is the cube of its three extents. -/
theorem createCubeAttributes_extents {α : Type} [Field α] (options : CubeOptions α) :
    createCubeAttributes options =
      createCubeAttributes (CubeOptions.mk
        (some (NumberOrVec3.vec options.extents.1 options.extents.2.1 options.extents.2.2))
        options.uvScale) := by
  obtain ⟨size, uvScale⟩ := options
  cases size with
  | none => rfl
  | some s => cases s <;> rfl

/-- C18: the index list of the cube is, for each face `f`, the fan `(4f, 4f+1, 4f+2)`,
`(4f, 4f+2, 4f+3)`; for every size with positive extents and every such triangle the
three vertices store the normal `n` of face `f`, the position of each vertex has, along
the axis of `n`, the component that is the sign of `n` times half the extent on that axis
(its dot product with `n` is half the extent), and the cross product
`(Pb - Pa) x (Pc - Pa)` is a positive multiple of `n`. -/
theorem createCube_faces {α : Type} [LinearOrderedField α] (options : CubeOptions α)
    (hx : 0 < options.extents.1) (hy : 0 < options.extents.2.1)
    (hz : 0 < options.extents.2.2) :
    createCubeIndices =
        (List.range 6).flatMap (fun f => [4 * f, 4 * f + 1, 4 * f + 2, 4 * f, 4 * f + 2, 4 * f + 3]) ∧
      triangles createCubeIndices =
        (List.range 6).flatMap
          (fun f => [(4 * f, 4 * f + 1, 4 * f + 2), (4 * f, 4 * f + 2, 4 * f + 3)]) ∧
      ∃ stream, createCubeAttributes options = Except.ok stream ∧
        ∀ f, f < 6 → ∀ t ∈ [(4 * f, 4 * f + 1, 4 * f + 2), (4 * f, 4 * f + 2, 4 * f + 3)],
          (∀ v ∈ [t.1, t.2.1, t.2.2],
            vec3At stream (8 * v + 3) = cubeFaceNormals.getD f (0, 0, 0) ∧
            dot3 (vec3At stream (8 * v)) (cubeFaceNormals.getD f (0, 0, 0)) =
              [options.extents.2.2 / 2, options.extents.2.2 / 2, options.extents.2.1 / 2,
                options.extents.2.1 / 2, options.extents.1 / 2,
                options.extents.1 / 2].getD f 0) ∧
          ∃ k, 0 < k ∧
            triangleNormal (fun v => vec3At stream (8 * v)) t =
              (k * (cubeFaceNormals.getD f (0, 0, 0)).1,
                k * (cubeFaceNormals.getD f (0, 0, 0)).2.1,
                k * (cubeFaceNormals.getD f (0, 0, 0)).2.2) := by
  refine ⟨by decide, by decide, ?_⟩
  rw [createCubeAttributes_extents]
  generalize options.extents = e at hx hy hz ⊢
  obtain ⟨ex, ey, ez⟩ := e
  unfold createCubeAttributes
  simp only [Option.getD_some] at hx hy hz ⊢
  refine interleaveArrays_vertices _ _ _ 24 ?_ ?_ ?_ _ ?_
  · rfl
  · rfl
  · rfl
  intro stream _ hv f hf t ht
  have hP : ∀ v, v < 24 → vec3At stream (8 * v) = vec3At _ (3 * v) := fun v h => (hv v h).1
  have hN : ∀ v, v < 24 → vec3At stream (8 * v + 3) = vec3At _ (3 * v) :=
    fun v h => (hv v h).2.1
  have h2 : (2.0 : α) = 2 := by norm_num
  refine ⟨?_, [ex * ey, ex * ey, ex * ez, ex * ez, ey * ez, ey * ez].getD f 0, ?_, ?_⟩
  · intro v hvt
    interval_cases f <;>
      simp only [List.mem_cons, List.mem_singleton, List.not_mem_nil, or_false] at ht <;>
      rcases ht with rfl | rfl <;>
      simp only [List.mem_cons, List.mem_singleton, List.not_mem_nil, or_false] at hvt <;>
      rcases hvt with rfl | rfl | rfl <;>
      rw [hP _ (by decide), hN _ (by decide)] <;>
      refine ⟨rfl, ?_⟩ <;>
      simp only [vec3At, dot3, cubeFaceNormals, List.getD_cons_zero, List.getD_cons_succ,
        Nat.reduceMul, Nat.reduceAdd, h2] <;>
      ring
  · interval_cases f <;>
      simp only [List.getD_cons_zero, List.getD_cons_succ] <;>
      positivity
  · interval_cases f <;>
      simp only [List.mem_cons, List.mem_singleton, List.not_mem_nil, or_false] at ht <;>
      rcases ht with rfl | rfl <;>
      simp only [triangleNormal] <;>
      rw [hP _ (by decide), hP _ (by decide), hP _ (by decide)] <;>
      simp only [vec3At, cross3, sub3, cubeFaceNormals, List.getD_cons_zero,
        List.getD_cons_succ, Nat.reduceMul, Nat.reduceAdd, h2, Prod.mk.injEq] <;>
      refine ⟨?_, ?_, ?_⟩ <;>
      ring

/-- C16, as stated, fails for the skybox: `(4, 5, 6)` is a triangle of
`createSkyBoxIndices`, and its right-hand-rule normal over the positions of
`createSkyBoxAttributes` is `(0, 0, 4)`, whose dot product with the position of vertex 4
is 4: it points away from the box centre, not toward it. -/
theorem skyBox_first_triangle_outward :
    (4, 5, 6) ∈ triangles createSkyBoxIndices ∧
      triangleNormal skyBoxPosition (4, 5, 6) = (0, 0, 4) ∧
      dot3 (triangleNormal skyBoxPosition (4, 5, 6)) (skyBoxPosition 4) = 4 ∧
      ¬ dot3 (triangleNormal skyBoxPosition (4, 5, 6)) (skyBoxPosition 4) < 0 := by
  decide

/-- C16 (amended): the skybox has the same winding as the cube generator: for every
triangle `(a, b, c)` of `createSkyBoxIndices` over the positions of
`createSkyBoxAttributes` the right-hand-rule normal `(Pb - Pa) x (Pc - Pa)` points away
from the box centre (its dot product with `Pa` is positive), and so it does for every
triangle of `createCubeIndices` over the positions of `createCubeAttributes` with
positive extents. -/
theorem skyBox_and_cube_winding {α : Type} [LinearOrderedField α] (options : CubeOptions α)
    (hx : 0 < options.extents.1) (hy : 0 < options.extents.2.1)
    (hz : 0 < options.extents.2.2) :
    (∀ t ∈ triangles createSkyBoxIndices,
      0 < dot3 (triangleNormal skyBoxPosition t) (skyBoxPosition t.1)) ∧
    ∃ stream, createCubeAttributes options = Except.ok stream ∧
      ∀ t ∈ triangles createCubeIndices,
        0 < dot3 (triangleNormal (fun v => vec3At stream (8 * v)) t)
          (vec3At stream (8 * t.1)) := by
  refine ⟨by decide, ?_⟩
  rw [createCubeAttributes_extents]
  generalize options.extents = e at hx hy hz ⊢
  obtain ⟨ex, ey, ez⟩ := e
  unfold createCubeAttributes
  simp only [Option.getD_some] at hx hy hz ⊢
  refine interleaveArrays_vertices _ _ _ 24 ?_ ?_ ?_ _ ?_
  · rfl
  · rfl
  · rfl
  intro stream _ hv t ht
  have hP : ∀ v, v < 24 → vec3At stream (8 * v) = vec3At _ (3 * v) := fun v h => (hv v h).1
  have h2 : (2.0 : α) = 2 := by norm_num
  have hpos : 0 < ex * ey * ez / 2 := by positivity
  have hall : ∀ t ∈ triangles createCubeIndices,
      dot3 (triangleNormal (fun v => vec3At stream (8 * v)) t) (vec3At stream (8 * t.1)) =
        ex * ey * ez / 2 := by
    intro t ht
    simp only [triangles, createCubeIndices, List.mem_cons, List.mem_singleton,
      List.not_mem_nil, or_false] at ht
    rcases ht with rfl | rfl | rfl | rfl | rfl | rfl | rfl | rfl | rfl | rfl | rfl | rfl <;>
      simp only [triangleNormal] <;>
      rw [hP _ (by decide), hP _ (by decide), hP _ (by decide)] <;>
      simp only [vec3At, cross3, sub3, dot3, List.getD_cons_zero, List.getD_cons_succ,
        Nat.reduceMul, Nat.reduceAdd, h2] <;>
      ring
  rw [hall t ht]
  exact hpos

theorem createCube_faces_witness :
    ∃ stream : List ℚ,
      createCubeAttributes (CubeOptions.mk (some (NumberOrVec3.vec 2 4 6)) none) =
        Except.ok stream ∧
      vec3At stream (8 * 0 + 3) = (0, 0, 1) := by
  obtain ⟨-, -, stream, hs, h⟩ := createCube_faces
    (CubeOptions.mk (some (NumberOrVec3.vec 2 4 6)) none : CubeOptions ℚ)
    (by simp [CubeOptions.extents]) (by simp [CubeOptions.extents])
    (by simp [CubeOptions.extents])
  refine ⟨stream, hs, ?_⟩
  exact ((h 0 (by decide) (4 * 0, 4 * 0 + 1, 4 * 0 + 2) (by simp)).1 (4 * 0) (by simp)).1

theorem skyBox_and_cube_winding_witness :
    ∃ stream : List ℚ,
      createCubeAttributes (CubeOptions.mk (some (NumberOrVec3.number 2)) none) =
        Except.ok stream ∧
      0 < dot3 (triangleNormal (fun v => vec3At stream (8 * v)) (0, 1, 2))
        (vec3At stream (8 * 0)) := by
  obtain ⟨-, stream, hs, h⟩ := skyBox_and_cube_winding
    (CubeOptions.mk (some (NumberOrVec3.number 2)) none : CubeOptions ℚ)
    (by simp [CubeOptions.extents]) (by simp [CubeOptions.extents])
    (by simp [CubeOptions.extents])
  exact ⟨stream, hs, h (0, 1, 2) (by decide)⟩

/-! ## Vertices of the cylinder and of the sphere -/

theorem getElem?_flatMap_const {α β : Type} (f : β → List α) (k : ℕ) (l : List β)
    (hf : ∀ x ∈ l, (f x).length = k) (i j : ℕ) (x : β) (h : l[i]? = some x) (hj : j < k) :
    (l.flatMap f)[i * k + j]? = (f x)[j]? := by
  have h1 := flatMap_drop_take_const f k l hf i x h
  rw [← List.getElem?_drop, ← List.getElem?_take_of_lt hj, h1]

theorem vec3At_flatMap {α β : Type} [Zero α] (f : β → List α) (l : List β)
    (hf : ∀ x ∈ l, (f x).length = 3) (v : ℕ) (x : β) (h : l[v]? = some x) :
    vec3At (l.flatMap f) (3 * v) = vec3At (f x) 0 := by
  have e : 3 * v = v * 3 := Nat.mul_comm 3 v
  simp only [vec3At, List.getD_eq_getElem?_getD, Prod.mk.injEq, e]
  exact ⟨by rw [← getElem?_flatMap_const f 3 l hf v 0 x h (by decide)]; rfl,
    by rw [← getElem?_flatMap_const f 3 l hf v 1 x h (by decide)],
    by rw [← getElem?_flatMap_const f 3 l hf v 2 x h (by decide)]⟩

theorem vec2At_flatMap {α β : Type} [Zero α] (f : β → List α) (l : List β)
    (hf : ∀ x ∈ l, (f x).length = 2) (v : ℕ) (x : β) (h : l[v]? = some x) :
    vec2At (l.flatMap f) (2 * v) = vec2At (f x) 0 := by
  have e : 2 * v = v * 2 := Nat.mul_comm 2 v
  simp only [vec2At, List.getD_eq_getElem?_getD, Prod.mk.injEq, e]
  exact ⟨by rw [← getElem?_flatMap_const f 2 l hf v 0 x h (by decide)]; rfl,
    by rw [← getElem?_flatMap_const f 2 l hf v 1 x h (by decide)]⟩

/-- The positions of the top ring and of the bottom ring of the cylinder. -/
theorem cylinderArrays_caps {α : Type} [Field α] (math : JsMath α) (radius height : α)
    (radialSegments heightSegments : ℕ) (v : ℕ) (hv : v < radialSegments + 1) :
    vec3At (cylinderArrays math radius height radialSegments heightSegments).1 (3 * v) =
        (radius * math.sin (((v : α) / (radialSegments : α)) * math.pi * 2),
          (0.5 * height) - 0.002,
          radius * math.cos (((v : α) / (radialSegments : α)) * math.pi * 2)) ∧
      vec3At (cylinderArrays math radius height radialSegments heightSegments).1
          (3 * (radialSegments + 1 + v)) =
        (radius * math.sin (((v : α) / (radialSegments : α)) * math.pi * 2),
          -0.5 * height,
          radius * math.cos (((v : α) / (radialSegments : α)) * math.pi * 2)) := by
  unfold cylinderArrays
  simp only []
  constructor
  · rw [vec3At_flatMap (fun p : List α × List α × List α => p.1) _ _ v _
      (by
        rw [List.append_assoc, List.getElem?_append_left (by simpa using hv),
          List.getElem?_map, List.getElem?_range hv]
        rfl)]
    · rfl
    · intro p hp
      simp only [List.mem_append, List.mem_map, List.mem_flatMap] at hp
      rcases hp with (⟨x, _, rfl⟩ | ⟨x, _, rfl⟩) | ⟨y, _, x, _, rfl⟩ <;> rfl
  · rw [vec3At_flatMap (fun p : List α × List α × List α => p.1) _ _ (radialSegments + 1 + v) _
      (by
        rw [List.append_assoc, List.getElem?_append_right (by simp),
          List.getElem?_append_left (by simpa using hv)]
        simp only [List.length_map, List.length_range, Nat.add_sub_cancel_left]
        rw [List.getElem?_map, List.getElem?_range hv]
        rfl)]
    · rfl
    · intro p hp
      simp only [List.mem_append, List.mem_map, List.mem_flatMap] at hp
      rcases hp with (⟨x, _, rfl⟩ | ⟨x, _, rfl⟩) | ⟨y, _, x, _, rfl⟩ <;> rfl


theorem createCylinderIndices_length (radialSegments heightSegments : ℕ)
    (hh : 1 ≤ heightSegments) :
    (createCylinderIndices radialSegments heightSegments).length =
      6 * radialSegments * heightSegments := by
  obtain ⟨k, rfl⟩ : ∃ k, heightSegments = k + 1 := ⟨heightSegments - 1, by omega⟩
  unfold createCylinderIndices
  simp only [List.length_append, Nat.add_sub_cancel, List.length_flatMap, List.length_cons,
    List.length_nil, List.map_const', List.sum_replicate, List.length_range, List.length_range',
    smul_eq_mul, Function.comp_def]
  ring

theorem createSphereIndices_length (latitudeBands longitudeBands : ℕ) :
    (createSphereIndices latitudeBands longitudeBands).length =
      latitudeBands * longitudeBands * 6 := by
  unfold createSphereIndices
  simp only [List.length_flatMap, List.length_cons,
    List.length_nil, List.map_const', List.sum_replicate, List.length_range,
    smul_eq_mul, Function.comp_def]
  ring

/-- C15: for segment counts of at least 1 `createCylinderAttributes` emits
`(radialSegments + 1) * (heightSegments + 1)` vertices (8 numbers each) and
`createCylinderIndices` emits `6 * radialSegments * heightSegments` index entries; the
first `radialSegments + 1` vertices (top ring) have `y = height / 2 - 0.002` and the next
`radialSegments + 1` vertices (bottom ring) have `y = -height / 2`. -/
theorem createCylinder_counts_and_caps {α : Type} [Field α] [CharZero α] (math : JsMath α)
    (radius height : α) (radialSegments heightSegments : ℕ) (_hr : 1 ≤ radialSegments)
    (hh : 1 ≤ heightSegments) :
    (createCylinderIndices radialSegments heightSegments).length =
        6 * radialSegments * heightSegments ∧
      ∃ stream, createCylinderAttributes math radius height radialSegments heightSegments =
          Except.ok stream ∧
        stream.length = 8 * ((radialSegments + 1) * (heightSegments + 1)) ∧
        (∀ v, v < radialSegments + 1 →
          (vec3At stream (8 * v)).2.1 = height / 2 - 0.002) ∧
        (∀ v, v < radialSegments + 1 →
          (vec3At stream (8 * (radialSegments + 1 + v))).2.1 = -height / 2) := by
  refine ⟨createCylinderIndices_length radialSegments heightSegments hh, ?_⟩
  obtain ⟨h1, h2, h3⟩ := cylinderArrays_length math radius height radialSegments
    heightSegments hh
  unfold createCylinderAttributes
  simp only []
  refine interleaveArrays_vertices _ _ _ ((radialSegments + 1) * (heightSegments + 1))
    h1 h2 h3 _ ?_
  intro stream hl hv
  have hle : radialSegments + 1 + radialSegments + 1 ≤
      (radialSegments + 1) * (heightSegments + 1) := by
    have : (radialSegments + 1) * 2 ≤ (radialSegments + 1) * (heightSegments + 1) :=
      Nat.mul_le_mul_left _ (by omega)
    omega
  refine ⟨hl, ?_, ?_⟩
  · intro v hvr
    rw [(hv v (by omega)).1,
      (cylinderArrays_caps math radius height radialSegments heightSegments v hvr).1]
    norm_num
    ring
  · intro v hvr
    rw [(hv (radialSegments + 1 + v) (by omega)).1,
      (cylinderArrays_caps math radius height radialSegments heightSegments v hvr).2]
    norm_num
    ring

theorem createCylinder_counts_and_caps_witness :
    (createCylinderIndices 4 1).length = 24 ∧
      ∃ stream : List ℚ,
        createCylinderAttributes (JsMath.mk (fun x => x) (fun x => 1 - x) 3) 1 2 4 1 =
          Except.ok stream ∧
        stream.length = 8 * 10 ∧
        (∀ v, v < 5 → (vec3At stream (8 * v)).2.1 = 0.998) ∧
        (∀ v, v < 5 → (vec3At stream (8 * (5 + v))).2.1 = -1.0) := by
  obtain ⟨hi, stream, hs, hl, htop, hbottom⟩ := createCylinder_counts_and_caps
    (JsMath.mk (fun x => x) (fun x => 1 - x) (3 : ℚ)) 1 2 4 1 (by decide) (by decide)
  refine ⟨hi, stream, hs, hl, ?_, ?_⟩
  · intro v hv
    rw [htop v hv]
    norm_num
  · intro v hv
    rw [hbottom v hv]
    norm_num

/-- The mantle entries of `createCylinderIndices` (those after the `6 * radialSegments`
cap entries): row `y` joins the ring of vertices that starts at index
`(radialSegments + 1) * y` with the ring that starts at `(radialSegments + 1) * (y + 1)`. -/
theorem createCylinderIndices_mantle (radialSegments heightSegments : ℕ) :
    (createCylinderIndices radialSegments heightSegments).drop (6 * radialSegments) =
      (List.range' 1 (heightSegments - 1)).flatMap fun y =>
        (List.range radialSegments).flatMap fun x =>
          [(radialSegments + 1) * y + x, (radialSegments + 1) * y + x + 1,
            (radialSegments + 1) * (y + 1) + x, (radialSegments + 1) * (y + 1) + x,
            (radialSegments + 1) * y + x + 1, (radialSegments + 1) * (y + 1) + x + 1] := by
  unfold createCylinderIndices
  simp only []
  have hlen : ((List.range radialSegments).flatMap (fun x => [x, x + 1, radialSegments]) ++
      (List.range radialSegments).flatMap (fun x =>
        [radialSegments + 1 + x, radialSegments + 1 + x + 1,
          radialSegments + 1 + radialSegments])).length = 6 * radialSegments := by
    simp only [List.length_append, List.length_flatMap, List.length_cons, List.length_nil,
      List.map_const', List.sum_replicate, List.length_range, smul_eq_mul, Function.comp_def]
    omega
  rw [List.drop_left' hlen]
  apply List.flatMap_congr
  intro y hy
  rw [List.mem_range'_1] at hy
  apply List.flatMap_congr
  intro x _
  obtain ⟨j, rfl⟩ : ∃ j, y = j + 1 := ⟨y - 1, by omega⟩
  have e1 : radialSegments + 1 + (j + 1 - 1) * (radialSegments + 1) =
      (radialSegments + 1) * (j + 1) := by
    rw [Nat.add_sub_cancel]
    ring
  have e2 : (radialSegments + 1) * (j + 1 + 1) =
      (radialSegments + 1) * (j + 1) + radialSegments + 1 := by ring
  simp only [e1, e2]
  simp only [List.cons.injEq, and_true]
  refine ⟨trivial, trivial, ?_, ?_, trivial, ?_⟩ <;> omega

/-- C17, as stated, fails: with `radialSegments = 1` and `heightSegments = 2` the mantle
entries are 2, 3, 4, 4, 3, 5, and the indices 2 and 3 lie below `2 * (1 + 1) = 4`: they
are vertices of the bottom-cap ring, not of an intermediate ring. -/
theorem createCylinderIndices_mantle_uses_bottom_ring :
    (createCylinderIndices 1 2).drop (6 * 1) = [2, 3, 4, 4, 3, 5] ∧
      ¬ ∀ i ∈ (createCylinderIndices 1 2).drop (6 * 1),
        2 * (1 + 1) ≤ i ∧ i < (2 + 1) * (1 + 1) := by
  decide

/-- C17 (amended): for `radialSegments >= 1` and `heightSegments >= 2` every mantle quad
of `createCylinderIndices` (the entries after the `6 * radialSegments` cap entries) joins
two consecutive rings of the block made of the bottom-cap ring followed by the
intermediate rings: row `y` joins the ring starting at index `(radialSegments + 1) * y`
with the ring starting at `(radialSegments + 1) * (y + 1)`, for `1 <= y < heightSegments`.
All its indices lie in the range from `radialSegments + 1` to
`(heightSegments + 1) * (radialSegments + 1)` (exclusive), so none refers to a top-ring
vertex; the lower ring of the first row is the bottom-cap ring. -/
theorem createCylinderIndices_mantle_range (radialSegments heightSegments : ℕ)
    (hr : 1 ≤ radialSegments) (hh : 2 ≤ heightSegments) :
    (createCylinderIndices radialSegments heightSegments).drop (6 * radialSegments) =
        ((List.range' 1 (heightSegments - 1)).flatMap fun y =>
          (List.range radialSegments).flatMap fun x =>
            [(radialSegments + 1) * y + x, (radialSegments + 1) * y + x + 1,
              (radialSegments + 1) * (y + 1) + x, (radialSegments + 1) * (y + 1) + x,
              (radialSegments + 1) * y + x + 1, (radialSegments + 1) * (y + 1) + x + 1]) ∧
      (∀ i ∈ (createCylinderIndices radialSegments heightSegments).drop (6 * radialSegments),
        radialSegments + 1 ≤ i ∧ i < (heightSegments + 1) * (radialSegments + 1)) ∧
      radialSegments + 1 ∈
        (createCylinderIndices radialSegments heightSegments).drop (6 * radialSegments) := by
  have hm := createCylinderIndices_mantle radialSegments heightSegments
  refine ⟨hm, ?_, ?_⟩
  · intro i hi
    constructor
    · rw [hm] at hi
      simp only [List.mem_flatMap, List.mem_range'_1, List.mem_range, List.mem_cons,
        List.mem_singleton, List.not_mem_nil, or_false] at hi
      obtain ⟨y, ⟨hy1, _⟩, x, _, hi⟩ := hi
      have h1 : (radialSegments + 1) * 1 ≤ (radialSegments + 1) * y :=
        Nat.mul_le_mul_left _ hy1
      have h2 : (radialSegments + 1) * 1 ≤ (radialSegments + 1) * (y + 1) :=
        Nat.mul_le_mul_left _ (by omega)
      rcases hi with rfl | rfl | rfl | rfl | rfl | rfl <;> omega
    · rw [Nat.mul_comm]
      exact createCylinderIndices_lt radialSegments heightSegments (by omega) i
        (List.mem_of_mem_drop hi)
  · rw [hm]
    simp only [List.mem_flatMap, List.mem_range'_1, List.mem_range, List.mem_cons,
      List.mem_singleton, List.not_mem_nil, or_false]
    exact ⟨1, ⟨le_refl 1, by omega⟩, 0, by omega, Or.inl (by ring)⟩

theorem createCylinderIndices_mantle_range_witness :
    (createCylinderIndices 2 3).drop (6 * 2) =
        [3, 4, 6, 6, 4, 7, 4, 5, 7, 7, 5, 8, 6, 7, 9, 9, 7, 10, 7, 8, 10, 10, 8, 11] ∧
      (∀ i ∈ (createCylinderIndices 2 3).drop (6 * 2), 2 + 1 ≤ i ∧ i < (3 + 1) * (2 + 1)) ∧
      2 + 1 ∈ (createCylinderIndices 2 3).drop (6 * 2) :=
  createCylinderIndices_mantle_range 2 3 (by decide) (by decide)

/-- The vertex `lat * (longitudeBands + 1) + lon` of the three arrays of the sphere. -/
theorem sphereArrays_vertex {α : Type} [Field α] (math : JsMath α) (radius : α)
    (latitudeBands longitudeBands lat lon : ℕ) (hlat : lat < latitudeBands + 1)
    (hlon : lon < longitudeBands + 1) :
    vec3At (sphereArrays math radius latitudeBands longitudeBands).1
        (3 * (lat * (longitudeBands + 1) + lon)) =
        (radius * (math.cos ((lon : α) * 2 * math.pi / (longitudeBands : α)) *
            math.sin ((lat : α) * math.pi / (latitudeBands : α))),
          radius * math.cos ((lat : α) * math.pi / (latitudeBands : α)),
          radius * (math.sin ((lon : α) * 2 * math.pi / (longitudeBands : α)) *
            math.sin ((lat : α) * math.pi / (latitudeBands : α)))) ∧
      vec3At (sphereArrays math radius latitudeBands longitudeBands).2.1
        (3 * (lat * (longitudeBands + 1) + lon)) =
        (math.cos ((lon : α) * 2 * math.pi / (longitudeBands : α)) *
            math.sin ((lat : α) * math.pi / (latitudeBands : α)),
          math.cos ((lat : α) * math.pi / (latitudeBands : α)),
          math.sin ((lon : α) * 2 * math.pi / (longitudeBands : α)) *
            math.sin ((lat : α) * math.pi / (latitudeBands : α))) ∧
      vec2At (sphereArrays math radius latitudeBands longitudeBands).2.2
        (2 * (lat * (longitudeBands + 1) + lon)) =
        (1 - ((lon : α) / (longitudeBands : α)), (lat : α) / (latitudeBands : α)) := by
  unfold sphereArrays
  simp only []
  have hget : ∀ (g : ℕ → ℕ → List α × List α × List α),
      ((List.range (latitudeBands + 1)).flatMap fun (a : ℕ) =>
        (List.range (longitudeBands + 1)).map fun (b : ℕ) => g a b)[
          lat * (longitudeBands + 1) + lon]? = some (g lat lon) := by
    intro g
    rw [getElem?_flatMap_const _ (longitudeBands + 1) _ (fun _ _ => by simp) lat lon lat
      (List.getElem?_range hlat) hlon, List.getElem?_map, List.getElem?_range hlon]
    rfl
  refine ⟨?_, ?_, ?_⟩
  · rw [vec3At_flatMap (fun p : List α × List α × List α => p.1) _ _ _ _ (hget _)]
    · rfl
    · intro p hp
      simp only [List.mem_flatMap, List.mem_map] at hp
      obtain ⟨a, _, b, _, rfl⟩ := hp
      rfl
  · rw [vec3At_flatMap (fun p : List α × List α × List α => p.2.1) _ _ _ _ (hget _)]
    · rfl
    · intro p hp
      simp only [List.mem_flatMap, List.mem_map] at hp
      obtain ⟨a, _, b, _, rfl⟩ := hp
      rfl
  · rw [vec2At_flatMap (fun p : List α × List α × List α => p.2.2) _ _ _ _ (hget _)]
    · rfl
    · intro p hp
      simp only [List.mem_flatMap, List.mem_map] at hp
      obtain ⟨a, _, b, _, rfl⟩ := hp
      rfl

/-- C14: for band counts of at least 1, with `V = (latitudeBands + 1) * (longitudeBands + 1)`,
`createSphereIndices` emits `latitudeBands * longitudeBands * 6` indices and
`createSphereAttributes` returns a stream of length
`V * (3 + 3 * [normals enabled] + 2 * [uvs enabled])`, an absent option counting as enabled:
`8 * V` by default, `5 * V` with `normals: false`, `6 * V` with `uvs: false`, and `3 * V`
with both switched off. -/
theorem createSphere_counts {α : Type} [Field α] (math : JsMath α) (radius : α)
    (latitudeBands longitudeBands : ℕ) (_hlat : 1 ≤ latitudeBands)
    (_hlon : 1 ≤ longitudeBands) :
    (createSphereIndices latitudeBands longitudeBands).length =
        latitudeBands * longitudeBands * 6 ∧
      (∀ options : SphereOptions, ∃ stream,
        createSphereAttributes math radius latitudeBands longitudeBands options =
          Except.ok stream ∧
        stream.length = (latitudeBands + 1) * (longitudeBands + 1) *
          (3 + 3 * (if options.normals.getD true then 1 else 0) +
            2 * (if options.uvs.getD true then 1 else 0))) ∧
      (∃ stream, createSphereAttributes math radius latitudeBands longitudeBands
          (SphereOptions.mk none none) = Except.ok stream ∧
        stream.length = 8 * ((latitudeBands + 1) * (longitudeBands + 1))) ∧
      (∃ stream, createSphereAttributes math radius latitudeBands longitudeBands
          (SphereOptions.mk (some false) none) = Except.ok stream ∧
        stream.length = 5 * ((latitudeBands + 1) * (longitudeBands + 1))) ∧
      (∃ stream, createSphereAttributes math radius latitudeBands longitudeBands
          (SphereOptions.mk none (some false)) = Except.ok stream ∧
        stream.length = 6 * ((latitudeBands + 1) * (longitudeBands + 1))) ∧
      (∃ stream, createSphereAttributes math radius latitudeBands longitudeBands
          (SphereOptions.mk (some false) (some false)) = Except.ok stream ∧
        stream.length = 3 * ((latitudeBands + 1) * (longitudeBands + 1))) := by
  refine ⟨createSphereIndices_length latitudeBands longitudeBands, ?_, ?_, ?_, ?_, ?_⟩
  · intro options
    obtain ⟨stream, hs, hl⟩ :=
      createSphereAttributes_length math radius latitudeBands longitudeBands options
    refine ⟨stream, hs, ?_⟩
    rw [hl, Nat.mul_comm]
    cases options.normals.getD true <;> cases options.uvs.getD true <;> rfl
  · exact createSphereAttributes_length math radius latitudeBands longitudeBands ⟨none, none⟩
  · exact createSphereAttributes_length math radius latitudeBands longitudeBands
      ⟨some false, none⟩
  · exact createSphereAttributes_length math radius latitudeBands longitudeBands
      ⟨none, some false⟩
  · exact createSphereAttributes_length math radius latitudeBands longitudeBands
      ⟨some false, some false⟩

theorem createSphere_counts_witness :
    (createSphereIndices 2 3).length = 36 ∧
      ∃ stream : List ℚ,
        createSphereAttributes (JsMath.mk (fun x => x) (fun x => 1 - x) 3) 1 2 3
          (SphereOptions.mk (some false) (some false)) = Except.ok stream ∧
        stream.length = 3 * 12 :=
  ⟨(createSphere_counts (JsMath.mk (fun x => x) (fun x => 1 - x) (3 : ℚ)) 1 2 3
      (by decide) (by decide)).1,
    (createSphere_counts (JsMath.mk (fun x => x) (fun x => 1 - x) (3 : ℚ)) 1 2 3
      (by decide) (by decide)).2.2.2.2.2⟩

/-- C19: in exact real arithmetic, for band counts of at least 1, every radius and every
`lat <= latitudeBands`, `lon <= longitudeBands`, the vertex of `createSphereAttributes`
(default options) at vertex index `lat * (longitudeBands + 1) + lon` has the normal
`(cos phi * sin theta, cos theta, sin phi * sin theta)` with
`theta = lat * pi / latitudeBands` and `phi = lon * 2 * pi / longitudeBands`; this normal
has Euclidean length 1, the position is the radius times the normal, and the uv is
`(1 - lon / longitudeBands, lat / latitudeBands)`. -/
theorem createSphereAttributes_vertex (radius : ℝ) (latitudeBands longitudeBands lat lon : ℕ)
    (_hlatB : 1 ≤ latitudeBands) (_hlonB : 1 ≤ longitudeBands) (hlat : lat ≤ latitudeBands)
    (hlon : lon ≤ longitudeBands) :
    ∃ stream, createSphereAttributes (JsMath.mk Real.sin Real.cos Real.pi) radius
        latitudeBands longitudeBands (SphereOptions.mk none none) = Except.ok stream ∧
      ∃ nx ny nz : ℝ,
        nx = Real.cos ((lon : ℝ) * 2 * Real.pi / (longitudeBands : ℝ)) *
          Real.sin ((lat : ℝ) * Real.pi / (latitudeBands : ℝ)) ∧
        ny = Real.cos ((lat : ℝ) * Real.pi / (latitudeBands : ℝ)) ∧
        nz = Real.sin ((lon : ℝ) * 2 * Real.pi / (longitudeBands : ℝ)) *
          Real.sin ((lat : ℝ) * Real.pi / (latitudeBands : ℝ)) ∧
        vec3At stream (8 * (lat * (longitudeBands + 1) + lon) + 3) = (nx, ny, nz) ∧
        Real.sqrt (nx ^ 2 + ny ^ 2 + nz ^ 2) = 1 ∧
        vec3At stream (8 * (lat * (longitudeBands + 1) + lon)) =
          (radius * nx, radius * ny, radius * nz) ∧
        vec2At stream (8 * (lat * (longitudeBands + 1) + lon) + 6) =
          (1 - (lon : ℝ) / (longitudeBands : ℝ), (lat : ℝ) / (latitudeBands : ℝ)) := by
  obtain ⟨h1, h2, h3⟩ := sphereArrays_length (JsMath.mk Real.sin Real.cos Real.pi) radius
    latitudeBands longitudeBands
  obtain ⟨e1, e2, e3⟩ := sphereArrays_vertex (JsMath.mk Real.sin Real.cos Real.pi) radius
    latitudeBands longitudeBands lat lon (by omega) (by omega)
  unfold createSphereAttributes
  simp only [Option.getD_none, if_true, List.cons_append, List.nil_append]
  refine interleaveArrays_vertices _ _ _ ((latitudeBands + 1) * (longitudeBands + 1))
    h1 h2 h3 _ ?_
  intro stream _ hv
  have hidx : lat * (longitudeBands + 1) + lon < (latitudeBands + 1) * (longitudeBands + 1) := by
    have : lat * (longitudeBands + 1) ≤ latitudeBands * (longitudeBands + 1) :=
      Nat.mul_le_mul_right _ hlat
    have e : (latitudeBands + 1) * (longitudeBands + 1) =
        latitudeBands * (longitudeBands + 1) + (longitudeBands + 1) := by ring
    omega
  obtain ⟨v1, v2, v3⟩ := hv _ hidx
  refine ⟨_, _, _, rfl, rfl, rfl, ?_, ?_, ?_, ?_⟩
  · rw [v2, e2]
  · rw [Real.sqrt_eq_one]
    have hs := Real.sin_sq_add_cos_sq ((lon : ℝ) * 2 * Real.pi / (longitudeBands : ℝ))
    have ht := Real.sin_sq_add_cos_sq ((lat : ℝ) * Real.pi / (latitudeBands : ℝ))
    nlinarith [hs, ht]
  · rw [v1, e1]
  · rw [v3, e3]

theorem createSphereAttributes_vertex_witness :
    ∃ stream, createSphereAttributes (JsMath.mk Real.sin Real.cos Real.pi) 2 2 4
        (SphereOptions.mk none none) = Except.ok stream ∧
      ∃ nx ny nz : ℝ,
        nx = Real.cos (((3 : ℕ) : ℝ) * 2 * Real.pi / ((4 : ℕ) : ℝ)) *
          Real.sin (((1 : ℕ) : ℝ) * Real.pi / ((2 : ℕ) : ℝ)) ∧
        ny = Real.cos (((1 : ℕ) : ℝ) * Real.pi / ((2 : ℕ) : ℝ)) ∧
        nz = Real.sin (((3 : ℕ) : ℝ) * 2 * Real.pi / ((4 : ℕ) : ℝ)) *
          Real.sin (((1 : ℕ) : ℝ) * Real.pi / ((2 : ℕ) : ℝ)) ∧
        vec3At stream (8 * (1 * (4 + 1) + 3) + 3) = (nx, ny, nz) ∧
        Real.sqrt (nx ^ 2 + ny ^ 2 + nz ^ 2) = 1 ∧
        vec3At stream (8 * (1 * (4 + 1) + 3)) = (2 * nx, 2 * ny, 2 * nz) ∧
        vec2At stream (8 * (1 * (4 + 1) + 3) + 6) =
          (1 - ((3 : ℕ) : ℝ) / ((4 : ℕ) : ℝ), ((1 : ℕ) : ℝ) / ((2 : ℕ) : ℝ)) :=
  createSphereAttributes_vertex 2 2 4 1 3 (by decide) (by decide) (by decide) (by decide)

/-! ## Parsing of well-formed lines -/

theorem splitChar_of_not_mem (sep : Char) :
    ∀ (a : List Char), sep ∉ a → splitChar sep a = [a]
  | [], _ => rfl
  | c :: cs, h => by
    have hc : c ≠ sep := fun e => h (by rw [e]; exact List.mem_cons_self _ _)
    have hcs : sep ∉ cs := fun e => h (List.mem_cons_of_mem _ e)
    unfold splitChar
    rw [if_neg hc, splitChar_of_not_mem sep cs hcs]

theorem splitChar_append (sep : Char) (rest : List Char) :
    ∀ (a : List Char), sep ∉ a → splitChar sep (a ++ sep :: rest) = a :: splitChar sep rest
  | [], _ => by
    rw [List.nil_append, splitChar, if_pos rfl]
  | c :: cs, h => by
    have hc : c ≠ sep := fun e => h (by rw [e]; exact List.mem_cons_self _ _)
    have hcs : sep ∉ cs := fun e => h (List.mem_cons_of_mem _ e)
    rw [List.cons_append, splitChar, if_neg hc, splitChar_append sep rest cs hcs]

theorem splitChar_not_mem (sep : Char) :
    ∀ (s : List Char), ∀ piece ∈ splitChar sep s, sep ∉ piece
  | [], piece, h => by
    rw [splitChar, List.mem_singleton] at h
    rw [h]
    exact List.not_mem_nil _
  | c :: cs, piece, h => by
    unfold splitChar at h
    split_ifs at h with hc
    · rcases List.mem_cons.mp h with h | h
      · rw [h]
        exact List.not_mem_nil _
      · exact splitChar_not_mem sep cs piece h
    · cases hs : splitChar sep cs with
      | nil =>
        rw [hs] at h
        rw [List.mem_singleton.mp h]
        intro hm
        rw [List.mem_singleton] at hm
        exact hc hm.symm
      | cons w ws =>
        rw [hs] at h
        have ih := splitChar_not_mem sep cs
        rw [hs] at ih
        rcases List.mem_cons.mp h with h | h
        · rw [h]
          intro hm
          rcases List.mem_cons.mp hm with hm | hm
          · exact hc hm.symm
          · exact ih w (List.mem_cons_self _ _) hm
        · exact ih piece (List.mem_cons_of_mem _ h)

theorem splitChar_ne_nil (sep : Char) : ∀ (s : List Char), splitChar sep s ≠ []
  | [] => by simp [splitChar]
  | c :: cs => by
    unfold splitChar
    split_ifs
    · simp
    · cases splitChar sep cs <;> simp

theorem splitChar_joinLines :
    ∀ (ls : List (List Char)), ls ≠ [] → (∀ l ∈ ls, '\n' ∉ l) →
      splitChar '\n' (joinLines ls) = ls
  | [], h, _ => absurd rfl h
  | [l], _, h => by
    rw [joinLines, splitChar_of_not_mem _ l (h l (List.mem_singleton_self l))]
  | l :: l2 :: rest, _, h => by
    have e : joinLines (l :: l2 :: rest) = l ++ '\n' :: joinLines (l2 :: rest) := rfl
    rw [e, splitChar_append _ _ l (h l (List.mem_cons_self _ _)),
      splitChar_joinLines (l2 :: rest) (List.cons_ne_nil _ _)
        (fun x hx => h x (List.mem_cons_of_mem _ hx))]

theorem digitValue_digitChar : ∀ d, d < 10 → digitValue (Nat.digitChar d) = some d := by
  decide

theorem radixDigits_map_digitChar :
    ∀ (l : List ℕ), (∀ d ∈ l, d < 10) → radixDigits 10 (l.map Nat.digitChar) = l
  | [], _ => rfl
  | d :: l, h => by
    have hd : d < 10 := h d (List.mem_cons_self _ _)
    rw [List.map_cons, radixDigits, digitValue_digitChar d hd]
    simp only [hd, if_true]
    rw [radixDigits_map_digitChar l (fun x hx => h x (List.mem_cons_of_mem _ hx))]

theorem foldr_digits (l : List ℕ) :
    l.foldr (fun d acc => acc * 10 + d) 0 = Nat.ofDigits 10 l := by
  induction l with
  | nil => rfl
  | cons d l ih =>
    rw [List.foldr_cons, ih, Nat.ofDigits_cons]
    ring

/-- The digits read back from the decimal string of a number give the number. -/
theorem radixDigits_natToString (n : ℕ) :
    radixDigits 10 (natToString n) ≠ [] ∧
      (radixDigits 10 (natToString n)).foldl (fun acc d => acc * 10 + d) 0 = n := by
  unfold natToString
  split_ifs with h0
  · rw [h0]
    exact ⟨by decide, by decide⟩
  · rw [radixDigits_map_digitChar _ (fun d hd =>
      Nat.digits_lt_base (by decide) (List.mem_reverse.mp hd))]
    refine ⟨?_, ?_⟩
    · intro hnil
      exact Nat.digits_ne_nil_iff_ne_zero.mpr h0 (List.reverse_eq_nil_iff.mp hnil)
    · rw [List.foldl_reverse, foldr_digits, Nat.ofDigits_digits]

theorem parseInt_digit_string (c : Char) (cs : List Char) (hc : c ∈ "0123456789".toList)
    (hcs : ∀ x ∈ cs, x ∈ "0123456789".toList) :
    parseInt (some (c :: cs)) =
      if radixDigits 10 (c :: cs) = [] then none
      else some (1 * ((numberOfNat ((radixDigits 10 (c :: cs)).foldl
        (fun acc d => acc * 10 + d) 0) : ℕ) : ℤ)) := by
  have hzero : parseInt (some ('0' :: cs)) =
      if radixDigits 10 ('0' :: cs) = [] then none
      else some (1 * ((numberOfNat ((radixDigits 10 ('0' :: cs)).foldl
        (fun acc d => acc * 10 + d) 0) : ℕ) : ℤ)) := by
    cases cs with
    | nil => rfl
    | cons c2 cs2 =>
      have h2 := hcs c2 (List.mem_cons_self _ _)
      simp only [String.toList, List.mem_cons, List.mem_singleton, List.not_mem_nil,
        or_false] at h2
      rcases h2 with rfl | rfl | rfl | rfl | rfl | rfl | rfl | rfl | rfl | rfl <;> rfl
  simp only [String.toList, List.mem_cons, List.mem_singleton, List.not_mem_nil,
    or_false] at hc
  rcases hc with rfl | rfl | rfl | rfl | rfl | rfl | rfl | rfl | rfl | rfl
  · exact hzero
  all_goals rfl

theorem significandShift_of_lt (fuel n : ℕ) (h : n < 2 ^ 53) : significandShift fuel n = 0 := by
  cases fuel with
  | zero => rfl
  | succ k => rw [significandShift, if_pos h]

/-- Up to `2 ^ 53` every natural number is a Number value. -/
theorem numberOfNat_of_le (n : ℕ) (h : n ≤ 2 ^ 53) : numberOfNat n = n := by
  rcases Nat.lt_or_eq_of_le h with h | h
  · unfold numberOfNat
    simp [significandShift_of_lt n n h, Nat.mod_one]
  · rw [h]
    decide

theorem numberOfInt_pred (n : ℕ) (h : n ≤ 2 ^ 53) :
    numberOfInt ((n : ℤ) - 1) = (n : ℤ) - 1 := by
  unfold numberOfInt
  cases n with
  | zero => decide
  | succ k =>
    have h0 : (0 : ℤ) ≤ ((k + 1 : ℕ) : ℤ) - 1 := by push_cast; omega
    have h1 : (((k + 1 : ℕ) : ℤ) - 1).toNat = k := by push_cast; omega
    rw [if_pos h0, h1, numberOfNat_of_le k (by omega)]
    push_cast
    ring

/-- A number of the file up to `2 ^ 53` is stored as the integer one less. -/
theorem storedIndex_of_le (k : ℕ) (h : k ≤ 2 ^ 53) : storedIndex k = some ((k : ℤ) - 1) := by
  unfold storedIndex
  rw [numberOfNat_of_le k h, numberOfInt_pred k h]

theorem parseInt_natToString (n : ℕ) :
    parseInt (some (natToString n)) = some ((numberOfNat n : ℕ) : ℤ) := by
  obtain ⟨hne, hval⟩ := radixDigits_natToString n
  have hchars := natToString_chars n
  cases hs : natToString n with
  | nil =>
    rw [hs] at hne
    exact absurd rfl hne
  | cons c cs =>
    rw [hs] at hne hval hchars
    rw [parseInt_digit_string c cs (hchars c (List.mem_cons_self _ _))
      (fun x hx => hchars x (List.mem_cons_of_mem _ hx)), if_neg hne, hval, one_mul]

theorem parseFaceCorner_cornerToken (p u n : ℕ) :
    parseFaceCorner (some (cornerToken p u n)) =
      Except.ok (storedIndex p, storedIndex u, storedIndex n) := by
  have hslash : ∀ k, '/' ∉ natToString k := fun k hm =>
    absurd (natToString_chars k '/' hm) (by decide)
  unfold parseFaceCorner cornerToken
  simp only []
  rw [splitChar_append _ _ _ (hslash p), splitChar_append _ _ _ (hslash u),
    splitChar_of_not_mem _ _ (hslash n)]
  simp only [List.getElem?_cons_zero, List.getElem?_cons_succ, parseInt_natToString,
    minusOne, storedIndex, Option.map_some', pure, Except.pure]

theorem cornerToken_no_space (p u n : ℕ) : ' ' ∉ cornerToken p u n ∧ '\n' ∉ cornerToken p u n := by
  have h1 : ∀ k, ' ' ∉ natToString k := fun k hm =>
    absurd (natToString_chars k ' ' hm) (by decide)
  have h2 : ∀ k, '\n' ∉ natToString k := fun k hm =>
    absurd (natToString_chars k '\n' hm) (by decide)
  unfold cornerToken
  simp only [List.mem_append, List.mem_cons, not_or]
  exact ⟨⟨h1 p, by decide, h1 u, by decide, h1 n⟩, ⟨h2 p, by decide, h2 u, by decide, h2 n⟩⟩

/-- A well-formed line holds no line break. -/
theorem ObjLine.render_no_newline (l : ObjLine) (h : l.WellFormed) : '\n' ∉ l.render := by
  cases l with
  | o name =>
    simp only [ObjLine.render, List.mem_cons, not_or]
    exact ⟨by decide, by decide, h.2⟩
  | v x y z =>
    simp only [ObjLine.render, List.mem_cons, List.mem_append, not_or]
    exact ⟨by decide, by decide, h.1.2, by decide, h.2.1.2, by decide, h.2.2.2⟩
  | vn x y z =>
    simp only [ObjLine.render, List.mem_cons, List.mem_append, not_or]
    exact ⟨by decide, by decide, by decide, h.1.2, by decide, h.2.1.2, by decide, h.2.2.2⟩
  | vt tu tv =>
    simp only [ObjLine.render, List.mem_cons, List.mem_append, not_or]
    exact ⟨by decide, by decide, by decide, h.1.2, by decide, h.2.2⟩
  | f p1 u1 n1 p2 u2 n2 p3 u3 n3 =>
    simp only [ObjLine.render, List.mem_cons, List.mem_append, not_or]
    exact ⟨by decide, by decide, (cornerToken_no_space p1 u1 n1).2, by decide,
      (cornerToken_no_space p2 u2 n2).2, by decide, (cornerToken_no_space p3 u3 n3).2⟩

/-- The tokens of a well-formed line. -/
theorem ObjLine.render_tokens (l : ObjLine) (h : l.WellFormed) :
    splitChar ' ' l.render =
      match l with
      | ObjLine.o name => ["o".toList, name]
      | ObjLine.v x y z => ["v".toList, x, y, z]
      | ObjLine.vn x y z => ["vn".toList, x, y, z]
      | ObjLine.vt tu tv => ["vt".toList, tu, tv]
      | ObjLine.f p1 u1 n1 p2 u2 n2 p3 u3 n3 =>
        ["f".toList, cornerToken p1 u1 n1, cornerToken p2 u2 n2, cornerToken p3 u3 n3] := by
  cases l with
  | o name =>
    show splitChar ' ' ("o".toList ++ ' ' :: name) = _
    rw [splitChar_append _ _ _ (by decide), splitChar_of_not_mem _ _ h.1]
  | v x y z =>
    show splitChar ' ' ("v".toList ++ ' ' :: (x ++ ' ' :: (y ++ ' ' :: z))) = _
    rw [splitChar_append _ _ _ (by decide), splitChar_append _ _ _ h.1.1,
      splitChar_append _ _ _ h.2.1.1, splitChar_of_not_mem _ _ h.2.2.1]
  | vn x y z =>
    show splitChar ' ' ("vn".toList ++ ' ' :: (x ++ ' ' :: (y ++ ' ' :: z))) = _
    rw [splitChar_append _ _ _ (by decide), splitChar_append _ _ _ h.1.1,
      splitChar_append _ _ _ h.2.1.1, splitChar_of_not_mem _ _ h.2.2.1]
  | vt tu tv =>
    show splitChar ' ' ("vt".toList ++ ' ' :: (tu ++ ' ' :: tv)) = _
    rw [splitChar_append _ _ _ (by decide), splitChar_append _ _ _ h.1.1,
      splitChar_of_not_mem _ _ h.2.1]
  | f p1 u1 n1 p2 u2 n2 p3 u3 n3 =>
    show splitChar ' ' ("f".toList ++ ' ' :: (cornerToken p1 u1 n1 ++
      ' ' :: (cornerToken p2 u2 n2 ++ ' ' :: cornerToken p3 u3 n3))) = _
    rw [splitChar_append _ _ _ (by decide),
      splitChar_append _ _ _ (cornerToken_no_space p1 u1 n1).1,
      splitChar_append _ _ _ (cornerToken_no_space p2 u2 n2).1,
      splitChar_of_not_mem _ _ (cornerToken_no_space p3 u3 n3).1]

/-- The loop body on a well-formed line with numbers in range: an `o` line sets the name
if none is set, every other line appends what it contributes to the four arrays. -/
theorem parseLine_render (st : ParseState) (index : ℕ) (l : ObjLine) (h : l.WellFormed)
    (hr : l.InRange) :
    parseLine st index l.render =
      match l.objectName, st.name with
      | some _, some _ => Except.error (JsError.multipleObjectNames index)
      | some name, none => Except.ok { st with name := some name }
      | none, _ => Except.ok
          { name := st.name
            positions := st.positions ++ l.positions
            splitIndices := st.splitIndices ++ l.splitIndices
            normals := st.normals ++ l.normals
            texCoords := st.texCoords ++ l.texCoords } := by
  unfold parseLine
  simp only []
  rw [ObjLine.render_tokens l h]
  cases l with
  | o name =>
    simp only [List.headD_cons, ObjLine.objectName]
    rw [if_neg (by decide), if_pos trivial]
    cases st.name <;> rfl
  | v x y z =>
    simp only [List.headD_cons, ObjLine.objectName]
    rw [if_neg (by decide), if_neg (by decide), if_pos trivial]
    simp [ObjLine.positions, ObjLine.splitIndices, ObjLine.normals, ObjLine.texCoords, pure,
      Except.pure]
  | vn x y z =>
    simp only [List.headD_cons, ObjLine.objectName]
    rw [if_neg (by decide), if_neg (by decide), if_neg (by decide), if_pos trivial]
    simp [ObjLine.positions, ObjLine.splitIndices, ObjLine.normals, ObjLine.texCoords, pure,
      Except.pure]
  | vt tu tv =>
    simp only [List.headD_cons, ObjLine.objectName]
    rw [if_neg (by decide), if_neg (by decide), if_neg (by decide), if_neg (by decide),
      if_pos trivial]
    simp [ObjLine.positions, ObjLine.splitIndices, ObjLine.normals, ObjLine.texCoords, pure,
      Except.pure]
  | f p1 u1 n1 p2 u2 n2 p3 u3 n3 =>
    simp only [List.headD_cons, ObjLine.objectName]
    rw [if_neg (by decide), if_neg (by decide), if_neg (by decide), if_neg (by decide),
      if_neg (by decide), if_pos trivial]
    obtain ⟨⟨r1, r2, r3⟩, ⟨r4, r5, r6⟩, r7, r8, r9⟩ := hr
    simp only [ObjLine.positions, ObjLine.splitIndices, ObjLine.normals, ObjLine.texCoords,
      pure, Except.pure, parseFaceCorner_cornerToken, bind, Except.bind, List.append_nil,
      List.getElem?_cons_zero, List.getElem?_cons_succ, storedIndex_of_le _ r1,
      storedIndex_of_le _ r2, storedIndex_of_le _ r3, storedIndex_of_le _ r4,
      storedIndex_of_le _ r5, storedIndex_of_le _ r6, storedIndex_of_le _ r7,
      storedIndex_of_le _ r8, storedIndex_of_le _ r9]

/-- The loop over well-formed lines of which exactly one names the object. -/
theorem parseLines_render (name : List Char) :
    ∀ (lines : List ObjLine) (st : ParseState) (index : ℕ),
      (∀ l ∈ lines, l.WellFormed) → (∀ l ∈ lines, l.InRange) →
      ((st.name = none ∧ lines.filterMap ObjLine.objectName = [name]) ∨
        (st.name = some name ∧ lines.filterMap ObjLine.objectName = [])) →
      parseLines st index (lines.map ObjLine.render) = Except.ok
        { name := some name
          positions := st.positions ++ lines.flatMap ObjLine.positions
          splitIndices := st.splitIndices ++ lines.flatMap ObjLine.splitIndices
          normals := st.normals ++ lines.flatMap ObjLine.normals
          texCoords := st.texCoords ++ lines.flatMap ObjLine.texCoords }
  | [], st, index, _, _, h => by
    rcases h with ⟨_, h⟩ | ⟨h, _⟩
    · exact absurd h (by simp)
    · cases st
      simp only at h
      simp [parseLines, h, pure, Except.pure]
  | l :: rest, st, index, hwf, hrange, h => by
    have hl := parseLine_render st index l (hwf l (List.mem_cons_self _ _))
      (hrange l (List.mem_cons_self _ _))
    have hrest : ∀ x ∈ rest, x.WellFormed := fun x hx => hwf x (List.mem_cons_of_mem _ hx)
    have hrest2 : ∀ x ∈ rest, x.InRange := fun x hx => hrange x (List.mem_cons_of_mem _ hx)
    rw [List.map_cons, parseLines]
    cases ho : l.objectName with
    | none =>
      rw [ho] at hl
      simp only at hl
      rw [hl]
      simp only []
      rw [parseLines_render name rest _ (index + 1) hrest hrest2
        (by simpa [List.filterMap_cons, ho] using h)]
      simp [List.flatMap_cons, List.append_assoc]
    | some nm =>
      have hcontrib : l.positions = [] ∧ l.splitIndices = [] ∧ l.normals = [] ∧
          l.texCoords = [] := by
        cases l <;> simp [ObjLine.objectName] at ho
        exact ⟨rfl, rfl, rfl, rfl⟩
      rw [ho] at hl
      have h2 : st.name = none ∧ nm = name ∧ rest.filterMap ObjLine.objectName = [] := by
        rcases h with ⟨h1, h2⟩ | ⟨_, h2⟩
        · rw [List.filterMap_cons, ho] at h2
          simp only [List.cons.injEq] at h2
          exact ⟨h1, h2.1, h2.2⟩
        · rw [List.filterMap_cons, ho] at h2
          exact absurd h2 (by simp)
      obtain ⟨hn, rfl, hf⟩ := h2
      rw [hn] at hl
      simp only at hl
      rw [hl]
      simp only []
      rw [parseLines_render nm rest _ (index + 1) hrest hrest2 (Or.inr ⟨rfl, hf⟩)]
      simp [List.flatMap_cons, hcontrib.1, hcontrib.2.1, hcontrib.2.2.1, hcontrib.2.2.2]

/-- C11, as stated, fails for a face number above `2 ^ 53`: the numbers of the file are
read into JavaScript numbers, which are doubles. The text with the lines `o Cube` and
`f 9007199254740993/1/1 2/2/2 3/3/3` is well formed, and the number minus 1 is
9007199254740992, but `parseObj` stores 9007199254740991: `parseInt` gives the nearest
double 9007199254740992, from which 1 is subtracted. -/
theorem parseObj_large_face_number_rounded :
    (∀ l ∈ [ObjLine.o "Cube".toList, ObjLine.f 9007199254740993 1 1 2 2 2 3 3 3],
        l.WellFormed) ∧
      String.mk (joinLines (List.map ObjLine.render
        [ObjLine.o "Cube".toList, ObjLine.f 9007199254740993 1 1 2 2 2 3 3 3])) =
        "o Cube\nf 9007199254740993/1/1 2/2/2 3/3/3" ∧
      (ObjLine.f 9007199254740993 1 1 2 2 2 3 3 3).splitIndices =
        [(some 9007199254740992, some 0, some 0), (some 1, some 1, some 1),
          (some 2, some 2, some 2)] ∧
      parseObj "o Cube\nf 9007199254740993/1/1 2/2/2 3/3/3" = Except.ok
        { name := "Cube".toList, positions := [], texCoords := [], normals := [],
          splitIndices := [(some 9007199254740991, some 0, some 0), (some 1, some 1, some 1),
            (some 2, some 2, some 2)] } := by
  have hdigits : natToString 9007199254740993 = "9007199254740993".toList := by
    unfold natToString
    norm_num
    decide
  refine ⟨by decide, ?_, by decide, by decide!⟩
  simp only [List.map_cons, List.map_nil, joinLines, ObjLine.render, cornerToken, hdigits]
  decide!

/-- C11 (amended): for every OBJ text made of well-formed `o name`, `v x y z`,
`vn x y z`, `vt u v` and three-corner `f` lines, exactly one of them an `o` line, and with
every number of an `f` line at most `2 ^ 53 = 9007199254740992`, `parseObj` returns the
name of the `o` line, `positions` = the x, y, z of the `v` lines in file order, `normals`
likewise from the `vn` lines, `texCoords` = the u, v of the `vt` lines, and
`splitIndices` = one triple per face corner in file order, each component the number in
the file minus 1. If the text has no `v`, `vn`, `vt` or `f` line, the four arrays are
empty. -/
theorem parseObj_well_formed (lines : List ObjLine) (name : List Char)
    (hwf : ∀ l ∈ lines, l.WellFormed) (hrange : ∀ l ∈ lines, l.InRange)
    (hname : lines.filterMap ObjLine.objectName = [name]) :
    parseObj (String.mk (joinLines (lines.map ObjLine.render))) = Except.ok
        { name := name
          positions := lines.flatMap ObjLine.positions
          texCoords := lines.flatMap ObjLine.texCoords
          normals := lines.flatMap ObjLine.normals
          splitIndices := lines.flatMap ObjLine.splitIndices } ∧
      ((∀ l ∈ lines, l.objectName ≠ none) →
        parseObj (String.mk (joinLines (lines.map ObjLine.render))) = Except.ok
          { name := name, positions := [], texCoords := [], normals := [],
            splitIndices := [] }) := by
  have hne : lines.map ObjLine.render ≠ [] := by
    intro hnil
    rw [List.map_eq_nil_iff] at hnil
    rw [hnil] at hname
    exact absurd hname (by simp)
  have hsplit : splitChar '\n' (joinLines (lines.map ObjLine.render)) =
      lines.map ObjLine.render := by
    apply splitChar_joinLines _ hne
    intro r hr
    obtain ⟨l, hl, rfl⟩ := List.mem_map.mp hr
    exact ObjLine.render_no_newline l (hwf l hl)
  have hparse := parseLines_render name lines (ParseState.mk none [] [] [] []) 0 hwf hrange
    (Or.inl ⟨rfl, hname⟩)
  have hmain : parseObj (String.mk (joinLines (lines.map ObjLine.render))) = Except.ok
      { name := name
        positions := lines.flatMap ObjLine.positions
        texCoords := lines.flatMap ObjLine.texCoords
        normals := lines.flatMap ObjLine.normals
        splitIndices := lines.flatMap ObjLine.splitIndices } := by
    have htext : (String.mk (joinLines (lines.map ObjLine.render))).toList =
        joinLines (lines.map ObjLine.render) := rfl
    unfold parseObj
    simp only [htext, hsplit, hparse, List.nil_append, pure, Except.pure]
  refine ⟨hmain, ?_⟩
  intro hall
  have hempty : ∀ (g : ObjLine → List ParsedFloat),
      (∀ l, l.objectName ≠ none → g l = []) → lines.flatMap g = [] := by
    intro g hg
    rw [List.flatMap_eq_nil_iff]
    exact fun l hl => hg l (hall l hl)
  have hempty2 : lines.flatMap ObjLine.splitIndices = [] := by
    rw [List.flatMap_eq_nil_iff]
    intro l hl
    have := hall l hl
    cases l <;> simp [ObjLine.objectName] at this
    rfl
  rw [hmain, hempty2,
    hempty ObjLine.positions (fun l h => by cases l <;> simp [ObjLine.objectName] at h; rfl),
    hempty ObjLine.texCoords (fun l h => by cases l <;> simp [ObjLine.objectName] at h; rfl),
    hempty ObjLine.normals (fun l h => by cases l <;> simp [ObjLine.objectName] at h; rfl)]

theorem parseObj_well_formed_witness :
    parseObj "v 0.5 -1 2e3\no Cube\nvt 0 1\nvn 0 0 1\nf 1/1/1 12/1/1 1/1/9007199254740992" =
      Except.ok
      { name := "Cube".toList
        positions := [ParsedFloat.mk (some "0.5".toList), ParsedFloat.mk (some "-1".toList),
          ParsedFloat.mk (some "2e3".toList)]
        texCoords := [ParsedFloat.mk (some "0".toList), ParsedFloat.mk (some "1".toList)]
        normals := [ParsedFloat.mk (some "0".toList), ParsedFloat.mk (some "0".toList),
          ParsedFloat.mk (some "1".toList)]
        splitIndices := [(some 0, some 0, some 0), (some 11, some 0, some 0),
          (some 0, some 0, some 9007199254740991)] } := by
  have h := (parseObj_well_formed
    [ObjLine.v "0.5".toList "-1".toList "2e3".toList, ObjLine.o "Cube".toList,
      ObjLine.vt "0".toList "1".toList, ObjLine.vn "0".toList "0".toList "1".toList,
      ObjLine.f 1 1 1 12 1 1 1 1 9007199254740992]
    "Cube".toList (by decide) (by decide) (by decide)).1
  have e : String.mk (joinLines (List.map ObjLine.render
      [ObjLine.v "0.5".toList "-1".toList "2e3".toList, ObjLine.o "Cube".toList,
        ObjLine.vt "0".toList "1".toList, ObjLine.vn "0".toList "0".toList "1".toList,
        ObjLine.f 1 1 1 12 1 1 1 1 9007199254740992])) =
      "v 0.5 -1 2e3\no Cube\nvt 0 1\nvn 0 0 1\nf 1/1/1 12/1/1 1/1/9007199254740992" := by
    have hdigits : natToString 9007199254740992 = "9007199254740992".toList := by
      unfold natToString
      norm_num
      decide
    simp only [List.map_cons, List.map_nil, joinLines, ObjLine.render, cornerToken, hdigits]
    decide!
  rw [e] at h
  exact h

/-! ## Ignored lines -/

/-- The line number passed to the loop body only shows in the error it may raise. -/
theorem parseLine_toOption_index (st : ParseState) (i j : ℕ) (line : List Char) :
    (parseLine st i line).toOption = (parseLine st j line).toOption := by
  unfold parseLine
  simp only []
  split_ifs
  · rfl
  · cases st.name <;> rfl
  · rfl
  · rfl
  · rfl
  · rfl
  · rfl

theorem parseLines_toOption_index :
    ∀ (lines : List (List Char)) (st : ParseState) (i j : ℕ),
      (parseLines st i lines).toOption = (parseLines st j lines).toOption
  | [], _, _, _ => rfl
  | l :: rest, st, i, j => by
    have h := parseLine_toOption_index st i j l
    unfold parseLines
    cases hi : parseLine st i l with
    | error e =>
      cases hj : parseLine st j l with
      | error e2 => rfl
      | ok s2 =>
        rw [hi, hj] at h
        exact absurd h (by simp [Except.toOption])
    | ok s1 =>
      cases hj : parseLine st j l with
      | error e2 =>
        rw [hi, hj] at h
        exact absurd h (by simp [Except.toOption])
      | ok s2 =>
        rw [hi, hj] at h
        simp only [Except.toOption, Option.some.injEq] at h
        rw [h]
        exact parseLines_toOption_index rest s2 (i + 1) (j + 1)

theorem parseLine_ignored (st : ParseState) (index : ℕ) (line : List Char)
    (h : (splitChar ' ' line).headD [] ∈ ignoredLines) :
    parseLine st index line = Except.ok st := by
  unfold parseLine
  simp only []
  rw [if_pos h]
  rfl

/-- A line whose first token is in `ignoredLines` can be inserted anywhere without effect
on the state the loop ends in, or on whether it ends. -/
theorem parseLines_insert_ignored (line : List Char)
    (h : (splitChar ' ' line).headD [] ∈ ignoredLines) (post : List (List Char)) :
    ∀ (pre : List (List Char)) (st : ParseState) (i : ℕ),
      (parseLines st i (pre ++ line :: post)).toOption =
        (parseLines st i (pre ++ post)).toOption
  | [], st, i => by
    rw [List.nil_append, List.nil_append, parseLines, parseLine_ignored st i line h]
    exact parseLines_toOption_index post st (i + 1) i
  | l :: pre, st, i => by
    rw [List.cons_append, List.cons_append, parseLines, parseLines]
    cases parseLine st i l with
    | error e => rfl
    | ok s1 => exact parseLines_insert_ignored line h post pre s1 (i + 1)

/-- Whether `parseObj` returns, and what, is determined by the same for its loop. -/
theorem parseObj_toOption (text : String) :
    (parseObj text).toOption =
      ((parseLines (ParseState.mk none [] [] [] []) 0 (splitChar '\n' text.toList)).toOption).bind
        fun st => st.name.map fun name =>
          { name := name
            positions := st.positions
            texCoords := st.texCoords
            normals := st.normals
            splitIndices := st.splitIndices } := by
  unfold parseObj
  simp only []
  cases parseLines (ParseState.mk none [] [] [] []) 0 (splitChar '\n' text.toList) with
  | error e => rfl
  | ok st =>
    simp only [Except.toOption, Option.some_bind]
    cases st.name <;> rfl

/-- C12: a line whose first token is one of `#`, `mtllib`, `usemtl`, `g`, `s` or the empty
string can be inserted at any position of any text (or deleted from it) without changing
whether `parseObj` returns a record or the record it returns. This does not extend to
every comment: a line that begins with `#` without a space after it, such as `#comment`,
has the first token `#comment`, which is not ignored; the text `o Cube` parses, and with
that line inserted `parseObj` raises the `ReferenceError` of the unbound `logWarning`. -/
theorem parseObj_ignored_lines :
    (∀ (text : String) (line : List Char) (k : ℕ), '\n' ∉ line →
      (splitChar ' ' line).headD [] ∈ ignoredLines →
      (parseObj (String.mk (joinLines ((splitChar '\n' text.toList).take k ++
        line :: (splitChar '\n' text.toList).drop k)))).toOption = (parseObj text).toOption) ∧
      parseObj "o Cube" = Except.ok
        { name := "Cube".toList, positions := [], texCoords := [], normals := [],
          splitIndices := [] } ∧
      lineTypes "#comment\no Cube" = ["#comment".toList, "o".toList] ∧
      parseObj "#comment\no Cube" = Except.error (JsError.referenceError "logWarning") := by
  refine ⟨?_, rfl, rfl, rfl⟩
  intro text line k hline hign
  have hsplit : splitChar '\n' (joinLines ((splitChar '\n' text.toList).take k ++
      line :: (splitChar '\n' text.toList).drop k)) =
      (splitChar '\n' text.toList).take k ++ line :: (splitChar '\n' text.toList).drop k := by
    apply splitChar_joinLines _ (by simp)
    intro l hl
    rcases List.mem_append.mp hl with hl | hl
    · exact splitChar_not_mem '\n' text.toList l (List.mem_of_mem_take hl)
    · rcases List.mem_cons.mp hl with hl | hl
      · rw [hl]
        exact hline
      · exact splitChar_not_mem '\n' text.toList l (List.mem_of_mem_drop hl)
  have htext : (String.mk (joinLines ((splitChar '\n' text.toList).take k ++
      line :: (splitChar '\n' text.toList).drop k))).toList =
      joinLines ((splitChar '\n' text.toList).take k ++
        line :: (splitChar '\n' text.toList).drop k) := rfl
  rw [parseObj_toOption, parseObj_toOption, htext, hsplit,
    parseLines_insert_ignored line hign, List.take_append_drop]

theorem parseObj_ignored_lines_witness :
    (parseObj "v 1 2 3\n# made by hand\no Cube").toOption =
      (parseObj "v 1 2 3\no Cube").toOption :=
  parseObj_ignored_lines.1 "v 1 2 3\no Cube" "# made by hand".toList 1 (by decide) (by decide)

theorem createCubeAttributes_scalar_as_vector_witness :
    createCubeAttributes (CubeOptions.mk (some (NumberOrVec3.number (2 : ℚ))) none) =
        createCubeAttributes (CubeOptions.mk (some (NumberOrVec3.vec 2 2 2)) none) ∧
      createCubeAttributes (CubeOptions.mk none (some (NumberOrVec2.number (3 : ℚ)))) =
        createCubeAttributes (CubeOptions.mk none (some (NumberOrVec2.vec 3 3))) :=
  ⟨createCubeAttributes_scalar_as_vector.1 2 none,
    createCubeAttributes_scalar_as_vector.2.1 3 none⟩

/-! ## A single shared quantity -/

theorem repeatPattern_singleton {α : Type} (q : α) (n : ℕ) :
    repeatPattern [q] n = List.replicate n q := by
  unfold repeatPattern
  induction n with
  | zero => rfl
  | succ k ih => rw [List.replicate_succ, List.flatten_cons, ih, List.replicate_succ]; rfl

theorem take_one_drop {α : Type} (a : List α) (b : ℕ) :
    (a.drop b).take 1 = (a[b]?).toList := by
  rw [← List.head?_drop]
  cases a.drop b <;> rfl

theorem flatMap_zip_replicate {α β γ : Type} (f : List α × β → List γ) (c : β) :
    ∀ (arrays : List (List α)) (k : ℕ), arrays.length ≤ k →
      (arrays.zip (List.replicate k c)).flatMap f = arrays.flatMap fun a => f (a, c)
  | [], _, _ => rfl
  | a :: rest, 0, h => absurd h (by simp)
  | a :: rest, k + 1, h => by
    rw [List.replicate_succ, List.zip_cons_cons, List.flatMap_cons, List.flatMap_cons,
      flatMap_zip_replicate f c rest k (by simpa using h)]

/-- C21: for at least two arrays and every number `q`, `interleaveArrays(arrays, q)` is
`interleaveArrays(arrays, [q, ..., q])` with one copy of `q` per array: the same result or
the same error. With the quantities argument omitted the call is that for `q = 1`, and
for arrays of equal length `n` it returns one element of each array in turn. -/
theorem interleaveArrays_shared_quantity {α : Type} (arrays : List (List α)) (q : ℚ)
    (hk : 2 ≤ arrays.length) :
    interleaveArrays arrays (Quantities.number q) =
        interleaveArrays arrays (Quantities.array (List.replicate arrays.length q)) ∧
      interleaveArraysOpt arrays none =
        interleaveArrays arrays (Quantities.array (List.replicate arrays.length 1)) ∧
      ∀ n, (∀ a ∈ arrays, a.length = n) →
        interleaveArraysOpt arrays none = Except.ok (takeOneInTurn arrays n) := by
  have hshared : ∀ r : ℚ, interleaveArrays arrays (Quantities.number r) =
      interleaveArrays arrays (Quantities.array (List.replicate arrays.length r)) := by
    intro r
    obtain ⟨first, second, rest, rfl⟩ :
        ∃ first second rest, arrays = first :: second :: rest := by
      match arrays, hk with
      | first :: second :: rest, _ => exact ⟨first, second, rest, rfl⟩
    simp only [interleaveArrays, normalizeQuantities, repeatPattern_singleton,
      List.length_replicate, ne_eq, not_true_eq_false, if_false]
  refine ⟨hshared q, hshared 1, ?_⟩
  intro n hn
  have hcast : (List.replicate arrays.length (1 : ℕ)).map (Nat.cast : ℕ → ℚ) =
      List.replicate arrays.length (1 : ℚ) := by
    rw [List.map_replicate, Nat.cast_one]
  have h := interleaveArrays_natCast arrays (List.replicate arrays.length 1) n hk
    (List.length_replicate _ _)
    (fun r hr => by rw [List.eq_of_mem_replicate hr])
    (fun i a r ha hr => by
      rw [List.getElem?_replicate] at hr
      split_ifs at hr
      rw [← Option.some.inj hr, Nat.mul_one]
      exact hn a (List.mem_iff_getElem?.mpr ⟨i, ha⟩))
  rw [hcast] at h
  show interleaveArrays arrays (Quantities.number 1) = _
  rw [hshared 1, h]
  unfold takeOneInTurn
  congr 1
  apply List.flatMap_congr
  intro b _
  rw [flatMap_zip_replicate _ 1 arrays arrays.length (le_refl _)]
  apply List.flatMap_congr
  intro a _
  simp only [Nat.mul_one]
  exact take_one_drop a b

theorem interleaveArrays_shared_quantity_witness :
    interleaveArraysOpt [[1, 2, 3], [4, 5, 6]] none = Except.ok [1, 4, 2, 5, 3, 6] :=
  (interleaveArrays_shared_quantity [[1, 2, 3], [4, 5, 6]] 1 (by decide)).2.2 3 (by decide)

/-! ## The mantle of the cylinder and the top cap -/

/-- C22: for segment counts of at least 1, no mantle entry of `createCylinderIndices` (the
entries after the first `6 * radialSegments` cap entries) is an index of the top ring
(an index `<= radialSegments`). For `heightSegments = 1` there is no mantle entry. For
`heightSegments >= 2` the first mantle row joins the bottom-cap ring (indices from
`radialSegments + 1`) with the ring after it, every mantle entry lies in one of the rings
1 to `heightSegments` (ring `r` holds the indices `r * (radialSegments + 1)` and the
`radialSegments` following ones), and each of these rings is used: the mantle runs from
the bottom cap to the last intermediate ring and never reaches the top cap. -/
theorem createCylinderIndices_mantle_avoids_top (radialSegments heightSegments : ℕ)
    (hr : 1 ≤ radialSegments) (hh : 1 ≤ heightSegments) :
    (∀ i ∈ (createCylinderIndices radialSegments heightSegments).drop (6 * radialSegments),
        radialSegments < i) ∧
      (heightSegments = 1 →
        (createCylinderIndices radialSegments heightSegments).drop (6 * radialSegments) = []) ∧
      (2 ≤ heightSegments →
        ((createCylinderIndices radialSegments heightSegments).drop (6 * radialSegments)).take
            (6 * radialSegments) =
          (List.range radialSegments).flatMap fun x =>
            [radialSegments + 1 + x, radialSegments + 1 + x + 1,
              2 * (radialSegments + 1) + x, 2 * (radialSegments + 1) + x,
              radialSegments + 1 + x + 1, 2 * (radialSegments + 1) + x + 1]) ∧
      (∀ i ∈ (createCylinderIndices radialSegments heightSegments).drop (6 * radialSegments),
        1 ≤ i / (radialSegments + 1) ∧ i / (radialSegments + 1) ≤ heightSegments) ∧
      (2 ≤ heightSegments → ∀ r, 1 ≤ r → r ≤ heightSegments →
        ∃ i ∈ (createCylinderIndices radialSegments heightSegments).drop (6 * radialSegments),
          i / (radialSegments + 1) = r) := by
  have hm := createCylinderIndices_mantle radialSegments heightSegments
  have hlow : ∀ i ∈ (createCylinderIndices radialSegments heightSegments).drop
      (6 * radialSegments), radialSegments + 1 ≤ i := by
    intro i hi
    rw [hm] at hi
    simp only [List.mem_flatMap, List.mem_range'_1, List.mem_range, List.mem_cons,
      List.mem_singleton, List.not_mem_nil, or_false] at hi
    obtain ⟨y, ⟨hy1, _⟩, x, _, hi⟩ := hi
    have h1 : (radialSegments + 1) * 1 ≤ (radialSegments + 1) * y :=
      Nat.mul_le_mul_left _ hy1
    have h2 : (radialSegments + 1) * 1 ≤ (radialSegments + 1) * (y + 1) :=
      Nat.mul_le_mul_left _ (by omega)
    rcases hi with rfl | rfl | rfl | rfl | rfl | rfl <;> omega
  refine ⟨fun i hi => hlow i hi, ?_, ?_, ?_, ?_⟩
  · intro h1
    rw [hm, h1]
    rfl
  · intro h2
    obtain ⟨k, rfl⟩ : ∃ k, heightSegments = k + 2 := ⟨heightSegments - 2, by omega⟩
    rw [hm]
    have hrange : List.range' 1 (k + 2 - 1) = 1 :: List.range' 2 k := by
      rw [show k + 2 - 1 = k + 1 from rfl, List.range'_succ]
    rw [hrange, List.flatMap_cons]
    have hlen : ((List.range radialSegments).flatMap fun x =>
        [(radialSegments + 1) * 1 + x, (radialSegments + 1) * 1 + x + 1,
          (radialSegments + 1) * (1 + 1) + x, (radialSegments + 1) * (1 + 1) + x,
          (radialSegments + 1) * 1 + x + 1, (radialSegments + 1) * (1 + 1) + x + 1]).length =
        6 * radialSegments := by
      simp only [List.length_flatMap, List.length_cons, List.length_nil, List.map_const',
        List.sum_replicate, List.length_range, smul_eq_mul, Function.comp_def]
      omega
    rw [List.take_left' hlen]
    apply List.flatMap_congr
    intro x _
    simp only [Nat.mul_one, Nat.reduceAdd, Nat.mul_comm (radialSegments + 1) 2]
  · intro i hi
    have hlt := createCylinderIndices_lt radialSegments heightSegments hh i
      (List.mem_of_mem_drop hi)
    constructor
    · rw [Nat.le_div_iff_mul_le (Nat.succ_pos _), Nat.one_mul]
      exact hlow i hi
    · rw [← Nat.lt_succ_iff, Nat.div_lt_iff_lt_mul (Nat.succ_pos _), Nat.mul_comm]
      exact hlt
  · intro h2 r hr1 hr2
    rw [hm]
    simp only [List.mem_flatMap, List.mem_range'_1, List.mem_range, List.mem_cons,
      List.mem_singleton, List.not_mem_nil, or_false]
    by_cases hlast : r = heightSegments
    · refine ⟨(radialSegments + 1) * (heightSegments - 1 + 1) + 0,
        ⟨heightSegments - 1, ⟨by omega, by omega⟩, 0, by omega,
          Or.inr (Or.inr (Or.inl rfl))⟩, ?_⟩
      rw [Nat.add_zero, Nat.mul_div_cancel_left _ (Nat.succ_pos _), hlast]
      omega
    · refine ⟨(radialSegments + 1) * r + 0,
        ⟨r, ⟨hr1, by omega⟩, 0, by omega, Or.inl rfl⟩, ?_⟩
      rw [Nat.add_zero, Nat.mul_div_cancel_left _ (Nat.succ_pos _)]

theorem createCylinderIndices_mantle_avoids_top_witness :
    (∀ i ∈ (createCylinderIndices 3 1).drop (6 * 3), 3 < i) ∧
      (createCylinderIndices 3 1).drop (6 * 3) = [] ∧
      (∀ i ∈ (createCylinderIndices 3 2).drop (6 * 3), 3 < i) ∧
      ((createCylinderIndices 3 2).drop (6 * 3)).take (6 * 3) =
        [4, 5, 8, 8, 5, 9, 5, 6, 9, 9, 6, 10, 6, 7, 10, 10, 7, 11] :=
  ⟨(createCylinderIndices_mantle_avoids_top 3 1 (by decide) (by decide)).1,
    (createCylinderIndices_mantle_avoids_top 3 1 (by decide) (by decide)).2.1 rfl,
    (createCylinderIndices_mantle_avoids_top 3 2 (by decide) (by decide)).1,
    (createCylinderIndices_mantle_avoids_top 3 2 (by decide) (by decide)).2.2.1 (by decide)⟩

/-! ## Faces with more than three corners -/

theorem splitChar_joinTokens :
    ∀ (ts : List (List Char)), ts ≠ [] → (∀ t ∈ ts, ' ' ∉ t) →
      splitChar ' ' (joinTokens ts) = ts
  | [], h, _ => absurd rfl h
  | [t], _, h => by
    rw [joinTokens, splitChar_of_not_mem _ t (h t (List.mem_singleton_self t))]
  | t :: t2 :: rest, _, h => by
    have e : joinTokens (t :: t2 :: rest) = t ++ ' ' :: joinTokens (t2 :: rest) := rfl
    rw [e, splitChar_append _ _ t (h t (List.mem_cons_self _ _)),
      splitChar_joinTokens (t2 :: rest) (List.cons_ne_nil _ _)
        (fun x hx => h x (List.mem_cons_of_mem _ hx))]

theorem joinTokens_no_newline :
    ∀ (ts : List (List Char)), (∀ t ∈ ts, '\n' ∉ t) → '\n' ∉ joinTokens ts
  | [], _ => List.not_mem_nil _
  | [t], h => h t (List.mem_singleton_self t)
  | t :: t2 :: rest, h => by
    have e : joinTokens (t :: t2 :: rest) = t ++ ' ' :: joinTokens (t2 :: rest) := rfl
    rw [e]
    simp only [List.mem_append, List.mem_cons, not_or]
    exact ⟨h t (List.mem_cons_self _ _), by decide,
      joinTokens_no_newline (t2 :: rest) (fun x hx => h x (List.mem_cons_of_mem _ hx))⟩

/-- The tokens of a face line are `f` and its corners. -/
theorem faceLine_tokens (corners : List (ℕ × ℕ × ℕ)) :
    splitChar ' ' (faceLine corners) =
      "f".toList :: corners.map fun c => cornerToken c.1 c.2.1 c.2.2 := by
  unfold faceLine
  apply splitChar_joinTokens _ (List.cons_ne_nil _ _)
  intro t ht
  rcases List.mem_cons.mp ht with ht | ht
  · rw [ht]
    decide
  · obtain ⟨c, _, rfl⟩ := List.mem_map.mp ht
    exact (cornerToken_no_space c.1 c.2.1 c.2.2).1

theorem faceLine_no_newline (corners : List (ℕ × ℕ × ℕ)) : '\n' ∉ faceLine corners := by
  unfold faceLine
  apply joinTokens_no_newline
  intro t ht
  rcases List.mem_cons.mp ht with ht | ht
  · rw [ht]
    decide
  · obtain ⟨c, _, rfl⟩ := List.mem_map.mp ht
    exact (cornerToken_no_space c.1 c.2.1 c.2.2).2

/-- The loop body on a face line of at least three corners reads the first three. -/
theorem parseLine_faceLine (st : ParseState) (index : ℕ) (c1 c2 c3 : ℕ × ℕ × ℕ)
    (more : List (ℕ × ℕ × ℕ)) :
    parseLine st index (faceLine (c1 :: c2 :: c3 :: more)) = Except.ok
      { st with splitIndices := st.splitIndices ++
          [cornerTriple c1, cornerTriple c2, cornerTriple c3] } := by
  unfold parseLine
  simp only []
  rw [faceLine_tokens]
  simp only [List.map_cons, List.headD_cons]
  rw [if_neg (by decide), if_neg (by decide), if_neg (by decide), if_neg (by decide),
    if_neg (by decide), if_pos trivial]
  simp [pure, Except.pure, parseFaceCorner_cornerToken, bind, Except.bind, cornerTriple]

/-- Lines on which the loop body agrees can be exchanged. -/
theorem parseLines_congr_line (line1 line2 : List Char)
    (h : ∀ st index, parseLine st index line1 = parseLine st index line2)
    (post : List (List Char)) :
    ∀ (pre : List (List Char)) (st : ParseState) (index : ℕ),
      parseLines st index (pre ++ line1 :: post) = parseLines st index (pre ++ line2 :: post)
  | [], st, index => by
    rw [List.nil_append, List.nil_append, parseLines, parseLines, h st index]
  | l :: pre, st, index => by
    rw [List.cons_append, List.cons_append, parseLines, parseLines]
    cases parseLine st index l with
    | error e => rfl
    | ok s1 => exact parseLines_congr_line line1 line2 h post pre s1 (index + 1)

/-- C23: `parseObj` does not reject faces that are not triangles. On an `f` line with four
or more corner tokens `p/u/n` the loop body raises no error and appends exactly the
triples of the first three corners to `splitIndices`, as it does on the line cut after
its third corner; so a text with such a line gives the result of the text with the line
cut after the third corner, and the remaining corners are dropped. The triple of a corner
holds its three numbers minus 1 as JavaScript numbers, which for numbers up to `2 ^ 53`
are the integers one less. -/
theorem parseObj_face_extra_corners (c1 c2 c3 c4 : ℕ × ℕ × ℕ) (more : List (ℕ × ℕ × ℕ)) :
    (∀ (st : ParseState) (index : ℕ),
      parseLine st index (faceLine (c1 :: c2 :: c3 :: c4 :: more)) = Except.ok
          { st with splitIndices := st.splitIndices ++
              [cornerTriple c1, cornerTriple c2, cornerTriple c3] } ∧
        parseLine st index (faceLine (c1 :: c2 :: c3 :: c4 :: more)) =
          parseLine st index (faceLine [c1, c2, c3])) ∧
      (∀ (pre post : List (List Char)), (∀ l ∈ pre ++ post, '\n' ∉ l) →
        parseObj (String.mk (joinLines (pre ++ faceLine (c1 :: c2 :: c3 :: c4 :: more) :: post))) =
          parseObj (String.mk (joinLines (pre ++ faceLine [c1, c2, c3] :: post)))) ∧
      (∀ (name : List Char), ' ' ∉ name → '\n' ∉ name →
        parseObj (String.mk (joinLines
            ['o' :: ' ' :: name, faceLine (c1 :: c2 :: c3 :: c4 :: more)])) = Except.ok
          { name := name, positions := [], texCoords := [], normals := [],
            splitIndices := [cornerTriple c1, cornerTriple c2, cornerTriple c3] }) ∧
      ∀ (p u n : ℕ), p ≤ 2 ^ 53 → u ≤ 2 ^ 53 → n ≤ 2 ^ 53 →
        cornerTriple (p, u, n) = (some ((p : ℤ) - 1), some ((u : ℤ) - 1), some ((n : ℤ) - 1)) := by
  have hline : ∀ (st : ParseState) (index : ℕ),
      parseLine st index (faceLine (c1 :: c2 :: c3 :: c4 :: more)) =
        parseLine st index (faceLine [c1, c2, c3]) := by
    intro st index
    rw [parseLine_faceLine st index c1 c2 c3 (c4 :: more), parseLine_faceLine st index c1 c2 c3 []]
  refine ⟨fun st index => ⟨parseLine_faceLine st index c1 c2 c3 (c4 :: more), hline st index⟩,
    ?_, ?_, ?_⟩
  · intro pre post hnl
    have hsplit : ∀ line, '\n' ∉ line →
        splitChar '\n' (String.mk (joinLines (pre ++ line :: post))).toList =
          pre ++ line :: post := by
      intro line hl
      show splitChar '\n' (joinLines (pre ++ line :: post)) = _
      apply splitChar_joinLines _ (by simp)
      intro l hmem
      rcases List.mem_append.mp hmem with hmem | hmem
      · exact hnl l (List.mem_append_left _ hmem)
      · rcases List.mem_cons.mp hmem with hmem | hmem
        · rw [hmem]
          exact hl
        · exact hnl l (List.mem_append_right _ hmem)
    unfold parseObj
    simp only []
    rw [hsplit _ (faceLine_no_newline _), hsplit _ (faceLine_no_newline _),
      parseLines_congr_line _ _ hline post pre]
  · intro name hsp hnl
    have hsplit : splitChar '\n' (String.mk (joinLines
        ['o' :: ' ' :: name, faceLine (c1 :: c2 :: c3 :: c4 :: more)])).toList =
        ['o' :: ' ' :: name, faceLine (c1 :: c2 :: c3 :: c4 :: more)] := by
      show splitChar '\n' (joinLines _) = _
      apply splitChar_joinLines _ (by simp)
      intro l hmem
      rcases List.mem_cons.mp hmem with hmem | hmem
      · rw [hmem]
        exact ObjLine.render_no_newline (ObjLine.o name) ⟨hsp, hnl⟩
      · rw [List.mem_singleton.mp hmem]
        exact faceLine_no_newline _
    have ho := parseLine_render (ParseState.mk none [] [] [] []) 0 (ObjLine.o name) ⟨hsp, hnl⟩
      trivial
    simp only [ObjLine.objectName] at ho
    have ho2 : parseLine (ParseState.mk none [] [] [] []) 0 ('o' :: ' ' :: name) =
        Except.ok (ParseState.mk (some name) [] [] [] []) := ho
    unfold parseObj
    simp only []
    rw [hsplit, parseLines, ho2]
    simp only []
    rw [parseLines, parseLine_faceLine]
    rfl
  · intro p u n hp hu hn
    unfold cornerTriple
    rw [storedIndex_of_le p hp, storedIndex_of_le u hu, storedIndex_of_le n hn]

theorem parseObj_face_extra_corners_witness :
    parseObj "o Quad\nf 1/1/1 2/2/1 3/3/1 4/4/1" = Except.ok
      { name := "Quad".toList, positions := [], texCoords := [], normals := [],
        splitIndices := [(some 0, some 0, some 0), (some 1, some 1, some 0),
          (some 2, some 2, some 0)] } := by
  have h := (parseObj_face_extra_corners (1, 1, 1) (2, 2, 1) (3, 3, 1) (4, 4, 1) []).2.2.1
    "Quad".toList (by decide) (by decide)
  have e : String.mk (joinLines ['o' :: ' ' :: "Quad".toList,
      faceLine [(1, 1, 1), (2, 2, 1), (3, 3, 1), (4, 4, 1)]]) =
      "o Quad\nf 1/1/1 2/2/1 3/3/1 4/4/1" := by
    decide!
  rw [e] at h
  exact h

end Geo
